import Mathlib

/-!
Half-edge mesh builder (`hedge.h`, `hedge.cpp`)

A shallow embedding of the half-edge mesh of the model viewer.

* Heap objects are kept in arenas.  `Hedge.vertices`, `Hedge.faces` and
  `Hedge.edges` are the three owning vectors of the class; the source pushes
  every object it allocates onto its vector exactly once, in allocation order,
  and never reorders a vector, so a pointer to an object is modelled by the
  position of that object in its vector and `nullptr` by `none`.
* `int` values are `Int`.  The conversion `static_cast<unsigned int>` of an
  `int` is the explicit wrap-around `castU`, and the conversion of a `size_t`
  to `int`, as in `(int)tmpPositions.size()` and `static_cast<int>(i)`, is the
  explicit wrap-around `castI`.
* The coordinate type `float` is a type parameter `F`: the code only stores
  and copies coordinates.
* The numeric order of half-edge addresses, which `buildEdgeIndexArray`
  compares, is a parameter `addr` from handles to addresses.

Three further programs of the repository follow in namespaces of their own.

* `SphereMesh` (`sphere.cpp`): the vertex and index loops of `createSphere`.
  `int` arithmetic wraps around (`wrapInt`), a loop that never leaves its
  condition gives `none`, the conversion of a pushed `int` to `unsigned int`
  is `castU` and that of `indices.size()` to `int` is `castI`.
* `SnowParticles` (`main.cpp` of the snow demo): the particle pool.  The type
  `float`, its operations, the conversions between `int` and `float` and the
  values of `rand()` are the fields of `Machine`; a subscript out of range
  makes a loop return `none`.
* `PlanetOrbit` (`planet.cpp`): the orbit position.  The type `double` is an
  ordered field `K` and the functions of `<cmath>` are the fields of `CMath`;
  `CMath.Exact` states the laws of exact real arithmetic that are used.
-/

namespace HalfEdgeMesh

variable {F : Type}

/-! ## Data model (`hedge.h`) -/

/-- The type `glm::vec3` over a coordinate type `F`. -/
structure Vec3 (F : Type) where
  x : F
  y : F
  z : F
deriving DecidableEq, Repr

/-- The struct `HEVertex`: position, one outgoing half-edge, index in the vertex array. -/
structure HEVertex (F : Type) where
  position : Vec3 F
  edge : Option Nat := none
  index : Int := -1
deriving DecidableEq, Repr

/-- The struct `HEFace`: one half-edge on this face. -/
structure HEFace where
  edge : Option Nat := none
deriving DecidableEq, Repr

/-- The struct `HalfEdge`. `vert` is the vertex the edge points to. -/
structure HalfEdge where
  vert : Option Nat := none
  face : Option Nat := none
  next : Option Nat := none
  prev : Option Nat := none
  twin : Option Nat := none
  fromIndex : Int := -1
  toIndex : Int := -1
deriving DecidableEq, Repr

/-- The class `Hedge`: the three owning vectors. -/
structure Hedge (F : Type) where
  vertices : List (HEVertex F) := []
  faces : List HEFace := []
  edges : List HalfEdge := []
deriving DecidableEq, Repr

/-- The struct `FaceIndex` of `hedge.cpp`: one parsed triangle, 0-based. -/
structure FaceIndex where
  v0 : Int
  v1 : Int
  v2 : Int
deriving DecidableEq, Repr

/-- The struct `EdgeKey` of `hedge.cpp`: the ordered pair `(from, to)`. -/
abbrev EdgeKey := Int × Int

/-- The `std::unordered_map<EdgeKey, HalfEdge*>` of the loader, given by its lookup. -/
abbrev EdgeMap := EdgeKey → Option Nat

/-- The empty map. -/
def EdgeMap.empty : EdgeMap := fun _ => none

/-- The call `edgeMap.find(k)`: `none` stands for `edgeMap.end()`. -/
def EdgeMap.find (m : EdgeMap) (k : EdgeKey) : Option Nat := m k

/-- The assignment `edgeMap[k] = e`: inserts, or overwrites the entry of `k`. -/
def EdgeMap.assign (m : EdgeMap) (k : EdgeKey) (e : Nat) : EdgeMap :=
  fun q => if q = k then some e else m q

/-! ## Integer conversion -/

/-- The conversion `static_cast<unsigned int>(x)` of an `int`. -/
def castU (x : Int) : Nat := (x % 4294967296).toNat

/-- The conversion `(int)n`, or `static_cast<int>(n)`, of a `size_t`: the value modulo
`2^32` in the range of `int`. -/
def castI (n : Nat) : Int := ((n : Int) + 2147483648) % 4294967296 - 2147483648

/-! ## `Hedge::clear` and the build phase of `Hedge::loadFromOBJ` -/

/-- The method `Hedge::clear`: every object is deleted and the vectors are emptied. -/
def Hedge.clear (_self : Hedge F) : Hedge F := { vertices := [], faces := [], edges := [] }

/-- The negated condition of the validation loop (`hedge.cpp` lines 99-102) for one
triangle, `n` being `tmpPositions.size()`. -/
def validFace (n : Nat) (f : FaceIndex) : Bool :=
  !(decide (f.v0 < 0) || decide (f.v1 < 0) || decide (f.v2 < 0) ||
    decide (f.v0 ≥ castI n) || decide (f.v1 ≥ castI n) || decide (f.v2 ≥ castI n))

/-- The loop of lines 114-120: one `HEVertex` per position; `i` is the loop counter. -/
def makeVertices : Nat → List (Vec3 F) → List (HEVertex F)
  | _, [] => []
  | i, p :: ps => { position := p, edge := none, index := castI i } :: makeVertices (i + 1) ps

/-- The statement `if (!vertices[i]->edge) vertices[i]->edge = e;`. A subscript outside
the vector (undefined in the source, excluded by validation) changes nothing. -/
def giveEdge (vs : List (HEVertex F)) (i : Int) (e : Nat) : List (HEVertex F) :=
  if i < 0 then vs else
  match vs[i.toNat]? with
  | none => vs
  | some v => if v.edge.isNone then vs.set i.toNat { v with edge := some e } else vs

/-- The assignment `edges[e]->twin = t`. -/
def setTwin (es : List HalfEdge) (e : Nat) (t : Nat) : List HalfEdge :=
  match es[e]? with
  | none => es
  | some h => es.set e { h with twin := some t }

/-- The lambda `addEdgeToMap` (lines 171-183), applied to the half-edge with handle `e`. -/
def addEdgeToMap (es : List HalfEdge) (m : EdgeMap) (e : Nat) : List HalfEdge × EdgeMap :=
  match es[e]? with
  | none => (es, m)
  | some h =>
    let key : EdgeKey := (h.fromIndex, h.toIndex)
    let twinKey : EdgeKey := (h.toIndex, h.fromIndex)
    let es1 :=
      match m.find twinKey with
      | some t => setTwin (setTwin es e t) t e
      | none => es
    (es1, m.assign key e)

/-- The state of the build loop: the three vectors of the object and the local `edgeMap`. -/
structure BuildState (F : Type) where
  vertices : List (HEVertex F)
  faces : List HEFace
  edges : List HalfEdge
  edgeMap : EdgeMap

/-- The pointer `vertices[i]` for an `int` subscript. -/
def vertexPtr (i : Int) : Option Nat := if i < 0 then none else some i.toNat

/-- One iteration of the loop over `tmpFaces` (lines 128-188). -/
def buildFace (st : BuildState F) (fIdx : FaceIndex) : BuildState F :=
  -- HEFace* face = new HEFace(); faces.push_back(face);
  let face := st.faces.length
  let a := fIdx.v0
  let b := fIdx.v1
  let c := fIdx.v2
  -- the three new half-edges; they are pushed in this order below
  let e0 := st.edges.length
  let e1 := st.edges.length + 1
  let e2 := st.edges.length + 2
  let h0 : HalfEdge :=
    { fromIndex := a, toIndex := b, vert := vertexPtr b, face := some face,
      next := some e1, prev := some e2, twin := none }
  let h1 : HalfEdge :=
    { fromIndex := b, toIndex := c, vert := vertexPtr c, face := some face,
      next := some e2, prev := some e0, twin := none }
  let h2 : HalfEdge :=
    { fromIndex := c, toIndex := a, vert := vertexPtr a, face := some face,
      next := some e0, prev := some e1, twin := none }
  -- face->edge = e0;
  let faces := st.faces ++ [{ edge := some e0 }]
  -- give each vertex an outgoing edge if it does not have one yet
  let vertices := giveEdge (giveEdge (giveEdge st.vertices a e0) b e1) c e2
  -- edges.push_back(e0); edges.push_back(e1); edges.push_back(e2);
  let edges := st.edges ++ [h0, h1, h2]
  let r0 := addEdgeToMap edges st.edgeMap e0
  let r1 := addEdgeToMap r0.1 r0.2 e1
  let r2 := addEdgeToMap r1.1 r1.2 e2
  { vertices := vertices, faces := faces, edges := r2.1, edgeMap := r2.2 }

/-- Lines 111-188 on the object `self`: the new vertices are pushed onto
`self.vertices`, then the loop over the validated triangles pushes onto `self.faces`
and `self.edges`; `edgeMap` is a local of the call. -/
def Hedge.build (self : Hedge F) (tmpPositions : List (Vec3 F)) (tmpFaces : List FaceIndex) :
    Hedge F :=
  let st := tmpFaces.foldl buildFace
    { vertices := self.vertices ++ makeVertices 0 tmpPositions, faces := self.faces,
      edges := self.edges, edgeMap := EdgeMap.empty }
  { vertices := st.vertices, faces := st.faces, edges := st.edges }

/-- The state of the build loop of lines 111-188 when the object comes with empty
vectors, as `clear` leaves it. -/
def buildState (tmpPositions : List (Vec3 F)) (tmpFaces : List FaceIndex) : BuildState F :=
  tmpFaces.foldl buildFace
    { vertices := makeVertices 0 tmpPositions, faces := [], edges := [], edgeMap := EdgeMap.empty }

/-- The mesh that the build phase leaves in an object that came with empty vectors. -/
def buildMesh (tmpPositions : List (Vec3 F)) (tmpFaces : List FaceIndex) : Hedge F :=
  let st := buildState tmpPositions tmpFaces
  { vertices := st.vertices, faces := st.faces, edges := st.edges }

/-! ## The text reader of `Hedge::loadFromOBJ` (lines 47-96) -/

/-- The predicate `isspace` of the C locale, which delimits `operator>>` tokens. -/
def isSpace (c : Char) : Bool :=
  c = ' ' || c = '\t' || c = '\n' || c = '\r' || c = Char.ofNat 11 || c = Char.ofNat 12

/-- The successive results of `std::getline(in, line)` on the content of the file. -/
def getLines : List Char → List (List Char)
  | [] => []
  | c :: cs =>
    if c = '\n' then [] :: getLines cs
    else
      match getLines cs with
      | [] => [[c]]
      | l :: ls => (c :: l) :: ls

/-- The extraction `ss >> str` of a string: leading white space is skipped, the token
runs to the next white space; the result is the token (empty when the extraction fails)
and the rest of the stream. -/
def readToken (s : List Char) : List Char × List Char :=
  let t := s.dropWhile isSpace
  (t.takeWhile (fun c => !isSpace c), t.dropWhile (fun c => !isSpace c))

/-- The range check of `std::stoi`: the value when it fits an `int`, `none` for
`std::out_of_range`. -/
def fitInt (v : Int) : Option Int :=
  if v < -2147483648 ∨ 2147483647 < v then none else some v

/-- The call `std::stoi(s)`: optional white space and sign, then decimal digits; what
follows the digits is ignored. `none` stands for the exception thrown when there is no
digit (`std::invalid_argument`) or the value does not fit an `int`
(`std::out_of_range`). -/
def stoi (s : List Char) : Option Int :=
  let t := s.dropWhile isSpace
  let signed : Bool × List Char :=
    match t with
    | '-' :: r => (true, r)
    | '+' :: r => (false, r)
    | _ => (false, t)
  let ds := signed.2.takeWhile Char.isDigit
  if ds = [] then none
  else
    let n : Nat := ds.foldl (fun acc c => 10 * acc + (c.toNat - 48)) 0
    fitInt (if signed.1 then -(n : Int) else (n : Int))

/-- The loop `while (count < 3 && (ss >> vStr))` of a face line; the first argument is
`3 - count`. The result lists the values stored in `idx`; `none` when `stoi` throws. The
subtraction is exact: it leaves the range of `int` only for `INT_MIN`, and the result
fails the validation either way. -/
def readFaceIdx : Nat → List Char → Option (List Int)
  | 0, _ => some []
  | n + 1, s =>
    let r := readToken s
    if r.1 = [] then some []
    else
      -- keep only the vertex index before the first slash
      match stoi (r.1.takeWhile (fun c => c ≠ '/')) with
      | none => none
      | some v =>
        match readFaceIdx n r.2 with
        | none => none
        | some vs => some ((v - 1) :: vs)

/-- The body of the `getline` loop for one line, on `(tmpPositions, tmpFaces)`;
`parseVec3` stands for `ss >> x >> y >> z` on the rest of a position line. `none` when an
exception leaves the function. -/
def parseLine (parseVec3 : List Char → Vec3 F) (acc : List (Vec3 F) × List FaceIndex)
    (line : List Char) : Option (List (Vec3 F) × List FaceIndex) :=
  let r := readToken line
  if r.1 = ['v'] then some (acc.1 ++ [parseVec3 r.2], acc.2)
  else if r.1 = ['f'] then
    match readFaceIdx 3 r.2 with
    | none => none
    | some [i0, i1, i2] => some (acc.1, acc.2 ++ [{ v0 := i0, v1 := i1, v2 := i2 }])
    | some _ => some acc
  else some acc

/-- The `getline` loop over the remaining lines. -/
def parseLines (parseVec3 : List Char → Vec3 F) :
    List (Vec3 F) × List FaceIndex → List (List Char) → Option (List (Vec3 F) × List FaceIndex)
  | acc, [] => some acc
  | acc, l :: ls =>
    match parseLine parseVec3 acc l with
    | none => none
    | some acc1 => parseLines parseVec3 acc1 ls

/-- The parse of a whole file: `tmpPositions` and `tmpFaces` when the loop is over. A
file that cannot be opened (`none`) yields no line at all. -/
def parseOBJ (parseVec3 : List Char → Vec3 F) (file : Option (List Char)) :
    Option (List (Vec3 F) × List FaceIndex) :=
  parseLines parseVec3 ([], []) (match file with | none => [] | some cs => getLines cs)

/-! ## `Hedge::loadFromOBJ` -/

/-- How a call of `Hedge::loadFromOBJ` ends: it returns a `bool`, or an exception of
`std::stoi` leaves it. -/
inductive LoadResult where
  | threw
  | returned (ok : Bool)
deriving DecidableEq, Repr

/-- The method `Hedge::loadFromOBJ`: the way the call ends and the state of the object
afterwards. `file` is the content of the file at `path`, `none` if it cannot be opened. -/
def Hedge.loadFromOBJ (parseVec3 : List Char → Vec3 F) (self : Hedge F)
    (file : Option (List Char)) : LoadResult × Hedge F :=
  let cleared := self.clear
  match parseOBJ parseVec3 file with
  | none => (LoadResult.threw, cleared)
  | some (tmpPositions, tmpFaces) =>
    if tmpFaces.all (validFace tmpPositions.length) then
      (LoadResult.returned true, cleared.build tmpPositions tmpFaces)
    else (LoadResult.returned false, cleared)

/-! ## Exports -/

/-- The method `Hedge::buildVertexArray`. -/
def Hedge.buildVertexArray (self : Hedge F) : List (Vec3 F) :=
  self.vertices.map fun v => v.position

/-- Dereference of a half-edge pointer; `none` when the pointer is null or dangling. -/
def derefEdge (es : List HalfEdge) (p : Option Nat) : Option HalfEdge :=
  match p with
  | none => none
  | some i => es[i]?

/-- The body of the loop of `Hedge::buildFaceIndexArray` for one face: `some []` when the
face has no edge (`continue`), `none` when a null `next` would be dereferenced. -/
def faceCorners (es : List HalfEdge) (f : HEFace) : Option (List Nat) :=
  match f.edge with
  | none => some []
  | some i0 =>
    match es[i0]? with
    | none => none
    | some e0 =>
      match derefEdge es e0.next with
      | none => none
      | some e1 =>
        match derefEdge es e1.next with
        | none => none
        | some e2 => some [castU e0.fromIndex, castU e1.fromIndex, castU e2.fromIndex]

/-- The loop of `Hedge::buildFaceIndexArray` over the remaining faces. -/
def faceIndexLoop (es : List HalfEdge) : List HEFace → Option (List Nat)
  | [] => some []
  | f :: fs =>
    match faceCorners es f, faceIndexLoop es fs with
    | some xs, some ys => some (xs ++ ys)
    | _, _ => none

/-- The method `Hedge::buildFaceIndexArray`. -/
def Hedge.buildFaceIndexArray (self : Hedge F) : Option (List Nat) :=
  faceIndexLoop self.edges self.faces

/-- The test `e->twin && e > e->twin` for the half-edge `h` with handle `i`. -/
def skipsEdge (addr : Nat → Nat) (i : Nat) (h : HalfEdge) : Bool :=
  match h.twin with
  | none => false
  | some t => decide (addr t < addr i)

/-- The loop of `Hedge::buildEdgeIndexArray`; `i` is the handle of the head of the list. -/
def edgeIndexLoop (addr : Nat → Nat) : Nat → List HalfEdge → List Nat
  | _, [] => []
  | i, h :: hs =>
    (if skipsEdge addr i h then [] else [castU h.fromIndex, castU h.toIndex])
      ++ edgeIndexLoop addr (i + 1) hs

/-- The method `Hedge::buildEdgeIndexArray`; `addr` gives the address of each half-edge. -/
def Hedge.buildEdgeIndexArray (addr : Nat → Nat) (self : Hedge F) : List Nat :=
  edgeIndexLoop addr 0 self.edges

/-! ## Specification vocabulary and views used in the proofs -/

/-- The ordered pair `(fromIndex, toIndex)` of the half-edge with handle `i`. -/
def keyAt (es : List HalfEdge) (i : Nat) : Option EdgeKey :=
  es[i]?.map fun h => (h.fromIndex, h.toIndex)

/-- The twin pointer of the half-edge with handle `i`. -/
def twinAt (es : List HalfEdge) (i : Nat) : Option Nat :=
  es[i]?.bind fun h => h.twin

/-- A half-edge with its twin pointer reset. -/
def stripTwin (h : HalfEdge) : HalfEdge := { h with twin := none }

/-- The three half-edges pushed for the triangle `t`, as they are before twin pairing,
when the face gets handle `f` and the first half-edge gets handle `b`. -/
def triEdges (f b : Nat) (t : FaceIndex) : List HalfEdge :=
  [ { fromIndex := t.v0, toIndex := t.v1, vert := vertexPtr t.v1, face := some f,
      next := some (b + 1), prev := some (b + 2), twin := none },
    { fromIndex := t.v1, toIndex := t.v2, vert := vertexPtr t.v2, face := some f,
      next := some (b + 2), prev := some b, twin := none },
    { fromIndex := t.v2, toIndex := t.v0, vert := vertexPtr t.v0, face := some f,
      next := some b, prev := some (b + 1), twin := none } ]

/-- The half-edges of a list of triangles before twin pairing. -/
def skeleton : Nat → Nat → List FaceIndex → List HalfEdge
  | _, _, [] => []
  | f, b, t :: ts => triEdges f b t ++ skeleton (f + 1) (b + 3) ts

/-- The faces of a list of triangles, the first half-edge having handle `b`. -/
def faceList : Nat → List FaceIndex → List HEFace
  | _, [] => []
  | b, _ :: ts => { edge := some b } :: faceList (b + 3) ts

/-- The bound that `std::stoi` puts on every parsed index. -/
def FaceIndex.Small (t : FaceIndex) : Prop :=
  t.v0 ≤ 2147483646 ∧ t.v1 ≤ 2147483646 ∧ t.v2 ≤ 2147483646

/-- The positions of the `v` lines of a file, in file order. -/
def vRecords (pv : List Char → Vec3 F) (file : Option (List Char)) : List (Vec3 F) :=
  ((match file with | none => [] | some cs => getLines cs).filter
    (fun l => decide ((readToken l).1 = ['v']))).map (fun l => pv (readToken l).2)

/-- The text of a file given by its lines: every line of `ls` is followed by a newline,
and `last` is what follows the last newline. -/
def fileOfLines (ls : List (List Char)) (last : List Char) : List Char :=
  (ls.map (fun l => l ++ ['\n'])).flatten ++ last

/-- The lines of the file `fileOfLines ls last`: a final line without a newline counts
when it is not empty. -/
def allLines (ls : List (List Char)) (last : List Char) : List (List Char) :=
  ls ++ (if last = [] then [] else [last])

/-- The line is a position record: its first white-space delimited word is `v`. -/
def isPositionLine (l : List Char) : Bool := decide ((readToken l).1 = ['v'])

/-- The position of a position record: what `parseVec3` reads after the word `v`. -/
def positionOf (pv : List Char → Vec3 F) (l : List Char) : Vec3 F := pv (readToken l).2

/-- A vertex with its outgoing edge reset. -/
def stripEdge (v : HEVertex F) : HEVertex F := { v with edge := none }

/-- The pointer `p->next`, `none` when `p` is null or dangling. -/
def Hedge.nextOf (self : Hedge F) (p : Option Nat) : Option Nat :=
  (derefEdge self.edges p).bind fun h => h.next

/-- The pointer `p->prev`, `none` when `p` is null or dangling. -/
def Hedge.prevOf (self : Hedge F) (p : Option Nat) : Option Nat :=
  (derefEdge self.edges p).bind fun h => h.prev

/-- The parsed triangles flattened: `a_1, b_1, c_1, a_2, ...`. -/
def flatTriangles : List FaceIndex → List Int
  | [] => []
  | t :: ts => t.v0 :: t.v1 :: t.v2 :: flatTriangles ts

/-- A sample coordinate reader for the examples: it records the length of the text. -/
def samplePos : List Char → Vec3 Nat := fun s => { x := s.length, y := 0, z := 0 }

/-- A sample file: a unit square cut into the triangles `(0,1,2)` and `(1,3,2)`. -/
def squareFile : List Char :=
  "v 0 0 0\nv 1 0 0\nv 0 1 0\nv 1 1 0\nf 1 2 3\nf 2/1 4//2 3\n".toList

/-- A sample file whose position records differ in length; its last line has no
newline. -/
def staggeredFile : List Char := "v 0 0 0\nv 10 0 0\nf 1 2 1\nv 0 100 0".toList

/-- The handle of the first half-edge of the list that starts at vertex `x`. -/
def firstFrom (x : Int) : List HalfEdge → Option Nat
  | [] => none
  | h :: hs => if h.fromIndex = x then some 0 else (firstFrom x hs).map (· + 1)

/-- Every vertex points to the first half-edge that starts at it. -/
def VertexEdgeInv (st : BuildState F) : Prop :=
  ∀ (i : Nat) (v : HEVertex F), st.vertices[i]? = some v →
    v.edge = firstFrom (i : Int) (st.edges.map stripTwin)

/-- Every map entry points to a half-edge with that key, and every twin pointer points
to a half-edge with the reversed key. -/
def TwinKeyInv (es : List HalfEdge) (m : EdgeMap) : Prop :=
  (∀ k e, m k = some e → keyAt es e = some k) ∧
  (∀ e t, twinAt es e = some t → ∃ k, keyAt es e = some k ∧ keyAt es t = some (k.2, k.1))

/-- A sample file with a degenerate and a duplicated triangle. -/
def foldedFile : List Char :=
  "v 0 0 0\nv 1 0 0\nv 0 1 0\nf 1 2 1\nf 1 2 3\nf 1 2 3\n".toList

/-- No two half-edges carry the same ordered pair. -/
def KeysInj (es : List HalfEdge) : Prop :=
  ∀ i j k, keyAt es i = some k → keyAt es j = some k → i = j

/-- The state of the pairing once `addEdgeToMap` has run on the half-edges with handle
below `p`: the map holds exactly these half-edges, and two of them are twins exactly
when they are distinct and carry reversed pairs. -/
def PairInv (es : List HalfEdge) (m : EdgeMap) (p : Nat) : Prop :=
  (∀ k e, m k = some e ↔ (e < p ∧ keyAt es e = some k)) ∧
  (∀ e t, twinAt es e = some t ↔
    (e < p ∧ t < p ∧ e ≠ t ∧ ∃ k, keyAt es e = some k ∧ keyAt es t = some (k.2, k.1)))

/-- The ordered pairs of the three half-edges of a triangle: `a→b`, `b→c`, `c→a`. -/
def triKeys (t : FaceIndex) : List EdgeKey := [(t.v0, t.v1), (t.v1, t.v2), (t.v2, t.v0)]

/-- The ordered pairs of all half-edges of a triangle list, in construction order. -/
def edgeKeys : List FaceIndex → List EdgeKey
  | [] => []
  | t :: ts => triKeys t ++ edgeKeys ts

/-- The twin relation of a mesh is symmetric: the twin of a half-edge points back. -/
def TwinSymmetric (m : Hedge F) : Prop :=
  ∀ (e t : Nat) (h : HalfEdge), m.edges[e]? = some h → h.twin = some t →
    ∃ g, m.edges[t]? = some g ∧ g.twin = some e

/-- The triangle `t` references the unordered pair `{u, v}`: one of its three sides
joins `u` and `v`. -/
def refsPair (u v : Int) (t : FaceIndex) : Bool :=
  decide ((u, v) ∈ triKeys t ∨ (v, u) ∈ triKeys t)

/-- A half-edge of the mesh has no twin exactly when one triangle of `fs` references its
pair of end points. -/
def UnpairedIffBoundary (fs : List FaceIndex) (m : Hedge F) : Prop :=
  ∀ (e : Nat) (h : HalfEdge), m.edges[e]? = some h →
    (h.twin = none ↔ fs.countP (refsPair h.fromIndex h.toIndex) = 1)

/-- A sample file: three triangles around the edge `0-1`, two of them on the same side. -/
def fanFile : List Char :=
  "v 0 0 0\nv 1 0 0\nv 0 1 0\nv 0 0 1\nv 1 1 1\nf 1 2 3\nf 2 1 4\nf 1 2 5\n".toList

/-- A sample file: two triangles that run through the edge `0→1` in the same direction. -/
def sameSideFile : List Char :=
  "v 0 0 0\nv 1 0 0\nv 0 1 0\nv 0 0 1\nf 1 2 3\nf 1 2 4\n".toList

/-- A sample file: one triangle that uses vertex `0` twice. -/
def needleFile : List Char := "v 0 0 0\nv 1 0 0\nf 1 2 1\n".toList

/-- The three corners of a triangle are pairwise distinct. -/
abbrev FaceIndex.Proper (t : FaceIndex) : Prop := t.v0 ≠ t.v1 ∧ t.v1 ≠ t.v2 ∧ t.v2 ≠ t.v0

/-- The number of half-edges that carry the ordered pair `a`. -/
def keyCount (a : EdgeKey) (l : List EdgeKey) : Nat := l.countP (fun k => decide (k = a))

/-- The index pairs held by a flat index array: elements `2k` and `2k+1` form pair `k`. -/
def pairsOf : List Nat → List (Nat × Nat)
  | a :: b :: r => (a, b) :: pairsOf r
  | _ => []

/-- The pairs pushed by the loop of `Hedge::buildEdgeIndexArray`. -/
def emitPairs (addr : Nat → Nat) : Nat → List HalfEdge → List (Nat × Nat)
  | _, [] => []
  | i, h :: hs =>
    (if skipsEdge addr i h then [] else [(castU h.fromIndex, castU h.toIndex)])
      ++ emitPairs addr (i + 1) hs

/-- The half-edge with handle `j` is pushed by `Hedge::buildEdgeIndexArray`, and its index
pair satisfies `Q`. -/
def emitsAt (addr : Nat → Nat) (Q : Nat × Nat → Bool) (es : List HalfEdge) (j : Nat) : Bool :=
  match es[j]? with
  | some h => !skipsEdge addr j h && Q (castU h.fromIndex, castU h.toIndex)
  | none => false

/-- The output of the unique-edge export holds every undirected edge of the triangle
list `fs` exactly once: for each ordered pair `(u, v)` carried by a half-edge, exactly
one pushed index pair is `(u, v)` or `(v, u)`. -/
def EachEdgeOnce (fs : List FaceIndex) (out : List Nat) : Prop :=
  ∀ u v : Int, (u, v) ∈ edgeKeys fs →
    (pairsOf out).countP
      (fun p => decide (p = (castU u, castU v) ∨ p = (castU v, castU u))) = 1

/-- Both end points of a half-edge are non-negative and within the range of `std::stoi`. -/
def KeySmall (k : EdgeKey) : Prop :=
  (0 ≤ k.1 ∧ k.1 ≤ 2147483646) ∧ (0 ≤ k.2 ∧ k.2 ≤ 2147483646)

/-- Every half-edge of the triangle list has an oppositely directed counterpart: another
half-edge that carries the reversed ordered pair. -/
def Closed (fs : List FaceIndex) : Prop :=
  ∀ (i : Nat) (k : EdgeKey), (edgeKeys fs)[i]? = some k →
    ∃ j, j ≠ i ∧ (edgeKeys fs)[j]? = some (k.2, k.1)

/-- A sample layout of twelve half-edges in memory: the later a half-edge is allocated,
the lower its address. -/
def reverseAddr (i : Nat) : Nat := if i < 12 then 11 - i else i

/-- A sample file: the four faces of a tetrahedron, consistently oriented. -/
def tetraFile : List Char :=
  "v 0 0 0\nv 1 0 0\nv 0 1 0\nv 0 0 1\nf 1 3 2\nf 1 2 4\nf 2 3 4\nf 3 1 4\n".toList

/-- The undirected edge of an ordered pair: its two end points, the smaller one first. -/
def undirected (k : EdgeKey) : EdgeKey := if k.1 ≤ k.2 then k else (k.2, k.1)

/-- The distinct unordered vertex pairs used by the triangles. -/
def distinctEdges (fs : List FaceIndex) : List EdgeKey := ((edgeKeys fs).map undirected).dedup

/-- A sample file: a single triangle. -/
def triangleFile : List Char := "v 0 0 0\nv 1 0 0\nv 0 1 0\nf 1 2 3\n".toList

/-- Some index of the triangle is negative or not below the number `n` of positions. -/
abbrev FaceIndex.OutOfRange (n : Nat) (t : FaceIndex) : Prop :=
  t.v0 < 0 ∨ t.v1 < 0 ∨ t.v2 < 0 ∨ (n : Int) ≤ t.v0 ∨ (n : Int) ≤ t.v1 ∨ (n : Int) ≤ t.v2

/-- Every pointer held by an entity of the mesh points to an entity of the same mesh:
the `vert`, `face`, `next` and `prev` of a half-edge and the edge of a face are set and
in range, the twin of a half-edge and the edge of a vertex are null or in range. -/
def Hedge.WellLinked (m : Hedge F) : Prop :=
  (∀ h ∈ m.edges,
    (∃ v, h.vert = some v ∧ v < m.vertices.length) ∧
    (∃ f, h.face = some f ∧ f < m.faces.length) ∧
    (∃ e, h.next = some e ∧ e < m.edges.length) ∧
    (∃ e, h.prev = some e ∧ e < m.edges.length) ∧
    (∀ t, h.twin = some t → t < m.edges.length)) ∧
  (∀ v ∈ m.vertices, ∀ e, v.edge = some e → e < m.edges.length) ∧
  (∀ f ∈ m.faces, ∃ e, f.edge = some e ∧ e < m.edges.length)

/-- Every pointer held by an entity that `m` has beyond the entities of `old` points
to an entity that `m` has beyond those of `old`: the entities pushed since the object was
`old` refer to nothing older. -/
def Hedge.FreshSince (m old : Hedge F) : Prop :=
  (∀ (i : Nat) (h : HalfEdge), old.edges.length ≤ i → m.edges[i]? = some h →
    (∃ v, h.vert = some v ∧ old.vertices.length ≤ v ∧ v < m.vertices.length) ∧
    (∃ f, h.face = some f ∧ old.faces.length ≤ f ∧ f < m.faces.length) ∧
    (∃ e, h.next = some e ∧ old.edges.length ≤ e ∧ e < m.edges.length) ∧
    (∃ e, h.prev = some e ∧ old.edges.length ≤ e ∧ e < m.edges.length) ∧
    (∀ t, h.twin = some t → old.edges.length ≤ t ∧ t < m.edges.length)) ∧
  (∀ (i : Nat) (v : HEVertex F), old.vertices.length ≤ i → m.vertices[i]? = some v →
    ∀ e, v.edge = some e → old.edges.length ≤ e ∧ e < m.edges.length) ∧
  (∀ (i : Nat) (f : HEFace), old.faces.length ≤ i → m.faces[i]? = some f →
    ∃ e, f.edge = some e ∧ old.edges.length ≤ e ∧ e < m.edges.length)

/-- A sample file: three positions and the face `1 2 5`. -/
def rangeFile : List Char := "v 0 0 0\nv 1 0 0\nv 0 1 0\nf 1 2 5\n".toList

/-- A sample file: the face line comes before the positions it refers to. -/
def lateFile : List Char := "f 1 2 3\nv 0 0 0\nv 1 0 0\nv 0 1 0\n".toList

/-- Every character of the text is white space. -/
def AllSpace (ws : List Char) : Prop := ∀ c ∈ ws, isSpace c = true

/-- A separator: a non-empty run of white space. -/
def Blank (ws : List Char) : Prop := ws ≠ [] ∧ AllSpace ws

/-- A token: a non-empty text without white space. -/
def Token (t : List Char) : Prop := t ≠ [] ∧ ∀ c ∈ t, isSpace c = false

/-- The text is empty or starts with white space, so that a token put before it ends
where the text starts. -/
def Delimited (r : List Char) : Prop := ∀ c, r.head? = some c → isSpace c = true

/-- The value of a run of decimal digits. -/
def digitsValue (ds : List Char) : Nat := ds.foldl (fun acc c => 10 * acc + (c.toNat - 48)) 0

/-- The text `d` is the decimal numeral of the integer `v`, which fits an `int`: an
optional sign and at least one digit. -/
def IsNumeral (d : List Char) (v : Int) : Prop :=
  ∃ sg ds, d = sg ++ ds ∧ (sg = [] ∨ sg = ['-'] ∨ sg = ['+']) ∧ ds ≠ [] ∧
    (∀ c ∈ ds, c.isDigit = true) ∧
    v = (if sg = ['-'] then -(digitsValue ds : Int) else (digitsValue ds : Int)) ∧
    -2147483648 ≤ v ∧ v ≤ 2147483647

/-- What may follow the numeral inside a reference: nothing, or a slash and any further
characters up to the next white space. -/
def IsAttrSuffix (s : List Char) : Prop :=
  (s = [] ∨ ∃ r, s = '/' :: r) ∧ ∀ c ∈ s, isSpace c = false

/-- The part of a reference that is handed to `std::stoi`: what precedes the first slash. -/
def beforeSlash (t : List Char) : List Char := t.takeWhile (fun c => c ≠ '/')

/-- The line has tag `v` or tag `f`. -/
def isRecordLine (l : List Char) : Bool :=
  decide ((readToken l).1 = ['v']) || decide ((readToken l).1 = ['f'])

/-- A reference whose integer parses: a numeral that fits an `int`, followed by nothing
or by a slash and further characters. -/
def IsReference (t : List Char) : Prop :=
  ∃ d s v, t = d ++ s ∧ IsNumeral d v ∧ IsAttrSuffix s

/-- What follows the tag of a face line holds zero, one or two references, each with a
parseable integer, and nothing else. -/
def FewRefs (body : List Char) : Prop :=
  AllSpace body ∨
  (∃ ws1 t1 w, body = ws1 ++ (t1 ++ w) ∧ Blank ws1 ∧ IsReference t1 ∧ AllSpace w) ∨
  (∃ ws1 t1 ws2 t2 w, body = ws1 ++ (t1 ++ (ws2 ++ (t2 ++ w))) ∧ Blank ws1 ∧ IsReference t1 ∧
    Blank ws2 ∧ IsReference t2 ∧ AllSpace w)

/-- What follows the tag of a face line has, among its first three references, one that
`std::stoi` cannot parse. -/
def MalformedRefs (body : List Char) : Prop :=
  (∃ ws1 t1 r, body = ws1 ++ (t1 ++ r) ∧ Blank ws1 ∧ Token t1 ∧ Delimited r ∧
    stoi (beforeSlash t1) = none) ∨
  (∃ ws1 t1 ws2 t2 r, body = ws1 ++ (t1 ++ (ws2 ++ (t2 ++ r))) ∧ Blank ws1 ∧ Token t1 ∧
    Blank ws2 ∧ Token t2 ∧ Delimited r ∧ stoi (beforeSlash t2) = none) ∨
  (∃ ws1 t1 ws2 t2 ws3 t3 r, body = ws1 ++ (t1 ++ (ws2 ++ (t2 ++ (ws3 ++ (t3 ++ r))))) ∧
    Blank ws1 ∧ Token t1 ∧ Blank ws2 ∧ Token t2 ∧ Blank ws3 ∧ Token t3 ∧ Delimited r ∧
    stoi (beforeSlash t3) = none)

/-- A sample file: three positions, the face line `f a b c`, and a well-formed face. -/
def lettersFile : List Char := "v 0 0 0\nv 1 0 0\nv 0 1 0\nf a b c\nf 1 2 3\n".toList

/-- The reference definition of the twin, taken literally: `e` has twin `t` exactly when
`t` runs from the end of `e` to the start of `e`. -/
def TwinIsReverse (m : Hedge F) : Prop :=
  ∀ (e t : Nat) (h g : HalfEdge), m.edges[e]? = some h → m.edges[t]? = some g →
    (h.twin = some t ↔ (g.fromIndex = h.toIndex ∧ g.toIndex = h.fromIndex))

/-- The reference definition of the twin among the other half-edges: `e` has twin `t`
exactly when `t` is another half-edge that runs from the end of `e` to the start of `e`;
`e` has no twin exactly when there is no such other half-edge; and no two half-edges
carry the same ordered pair, so that such a `t` is unique. -/
def TwinIsOtherReverse (m : Hedge F) : Prop :=
  (∀ (e : Nat) (h : HalfEdge), m.edges[e]? = some h →
    (∀ (t : Nat) (g : HalfEdge), m.edges[t]? = some g →
      (h.twin = some t ↔ (t ≠ e ∧ g.fromIndex = h.toIndex ∧ g.toIndex = h.fromIndex))) ∧
    (h.twin = none ↔ ¬ ∃ (t : Nat) (g : HalfEdge), t ≠ e ∧ m.edges[t]? = some g ∧
      g.fromIndex = h.toIndex ∧ g.toIndex = h.fromIndex)) ∧
  (∀ (e1 e2 : Nat) (h1 h2 : HalfEdge), m.edges[e1]? = some h1 → m.edges[e2]? = some h2 →
    h1.fromIndex = h2.fromIndex → h1.toIndex = h2.toIndex → e1 = e2)

/-- The half-edge with ordered pair `k` has the half-edge with ordered pair `k2` as its
twin: the twin relation of a mesh, told without handles. -/
def twinnedPairs (m : Hedge F) (k k2 : EdgeKey) : Prop :=
  ∃ (e t : Nat) (h g : HalfEdge), m.edges[e]? = some h ∧ m.edges[t]? = some g ∧
    h.twin = some t ∧ (h.fromIndex, h.toIndex) = k ∧ (g.fromIndex, g.toIndex) = k2

/-- A sample file: one triangle that uses vertex `0` twice in a row, so that its first
half-edge runs from `0` to `0`. -/
def loopFile : List Char := "v 0 0 0\nv 1 0 0\nf 1 1 2\n".toList

/-- A sample file: the two triangles of `squareFile` in the other order. -/
def squareFileSwapped : List Char :=
  "v 0 0 0\nv 1 0 0\nv 0 1 0\nv 1 1 0\nf 2/1 4//2 3\nf 1 2 3\n".toList

/-- The twin pointers and the map, as the pairing sees them: the state that the calls of
`addEdgeToMap` read and write. -/
abbrev PairState := (Nat → Option Nat) × EdgeMap

/-- The effect of one call of `addEdgeToMap` on the twin pointers and the map, for the
half-edge with handle `p` and ordered pair `k`. -/
def pairStep (s : PairState) (p : Nat) (k : EdgeKey) : PairState :=
  (match s.2 (k.2, k.1) with
    | some t => fun i => if i = t then some p else if i = p then some t else s.1 i
    | none => s.1,
   s.2.assign k p)

/-- The calls of `addEdgeToMap` for a run of half-edges with consecutive handles from `p`. -/
def pairRun : List EdgeKey → Nat → PairState → PairState
  | [], _, s => s
  | k :: ks, p, s => pairRun ks (p + 1) (pairStep s p k)

/-- The state of the pairing before the first half-edge. -/
def pairInit : PairState := (fun _ => none, EdgeMap.empty)

/-- The claim on duplicate directed edges, taken literally for the stale half-edge: of
two half-edges with the same ordered pair, the earlier one ends without a twin link. -/
def StaleEdgeUntwinned (fs : List FaceIndex) (m : Hedge F) : Prop :=
  ∀ (e g : Nat) (k : EdgeKey), e < g → (edgeKeys fs)[e]? = some k →
    (edgeKeys fs)[g]? = some k → twinAt m.edges e = none

/-- The half-edge `h` of the mesh `m` ends at the vertex its `vert` pointer names: the
pointer is the slot `toIndex` of `vertices`, and the vertex there carries that index. -/
def VertAtTo (m : Hedge F) (h : HalfEdge) : Prop :=
  ∃ (i : Nat) (v : HEVertex F), h.vert = some i ∧ (i : Int) = h.toIndex ∧
    m.vertices[i]? = some v ∧ v.index = h.toIndex

/-- The file of `n` position records `v`, one per line. -/
def manyPositions (n : Nat) : List Char := fileOfLines (List.replicate n ['v']) []

/-- The file of `n` position records `v` followed by the face record `f 1 2 3`. -/
def manyPositionsFace (n : Nat) : List Char :=
  fileOfLines (List.replicate n ['v'] ++ ["f 1 2 3".toList]) []

end HalfEdgeMesh

/-! ## Sphere grid (`sphere.cpp`) -/

namespace SphereMesh

open HalfEdgeMesh
variable {F : Type}

/-- One vertex record of the sphere: the five `float`s pushed per grid point. -/
structure SphereVertex (F : Type) where
  x : F
  y : F
  z : F
  u : F
  v : F

/-- The value that an `int` expression takes when its exact value is `x`: the
representative of `x` modulo `2^32` in the range of `int`. -/
def wrapInt (x : Int) : Int := (x + 2147483648) % 4294967296 - 2147483648

/-- A loop `for (int i = start; cond(i); ++i)` that collects what its body pushes, with
at most `fuel` tests of the condition from the counter value `i` on. The result is `none`
when the body does not return or the fuel ends before the condition fails. -/
def intLoop {α : Type} (cond : Int → Bool) (body : Int → Option (List α)) :
    Nat → Int → Option (List α)
  | 0, _ => none
  | fuel + 1, i =>
    if cond i then
      match body i with
      | none => none
      | some xs =>
        match intLoop cond body fuel (wrapInt (i + 1)) with
        | none => none
        | some r => some (xs ++ r)
    else some []

/-- One test more than an `int` counter has values: a counting loop whose condition has
held that many times in a row is never left. -/
def loopFuel : Nat := 4294967297

/-- Lines 20-48: the vertex loops `i <= stackCount`, `j <= sectorCount`; `vertexAt i j`
is the record computed for the grid point `(i, j)`. -/
def sphereVertices (vertexAt : Int → Int → SphereVertex F) (stackCount sectorCount : Int) :
    Option (List (SphereVertex F)) :=
  intLoop (fun i => decide (i ≤ stackCount))
    (fun i => intLoop (fun j => decide (j ≤ sectorCount)) (fun j => some [vertexAt i j])
      loopFuel 0)
    loopFuel 0

/-- Lines 57-73: the `int` values pushed for the sector `j` of the stack `i`. -/
def sectorIndices (stackCount sectorCount i j : Int) : List Int :=
  let k1 := wrapInt (i * wrapInt (sectorCount + 1))
  let k2 := wrapInt (wrapInt (i + 1) * wrapInt (sectorCount + 1))
  (if i ≠ 0 then [wrapInt (k1 + j), wrapInt (k2 + j), wrapInt (wrapInt (k1 + j) + 1)] else []) ++
  (if i ≠ wrapInt (stackCount - 1) then
    [wrapInt (wrapInt (k1 + j) + 1), wrapInt (k2 + j), wrapInt (wrapInt (k2 + j) + 1)] else [])

/-- Lines 55-75: the index loops `i < stackCount`, `j < sectorCount`, as the `int` values
handed to `push_back`. -/
def sphereIndexValues (stackCount sectorCount : Int) : Option (List Int) :=
  intLoop (fun i => decide (i < stackCount))
    (fun i => intLoop (fun j => decide (j < sectorCount))
      (fun j => some (sectorIndices stackCount sectorCount i j)) loopFuel 0)
    loopFuel 0

/-- What `createSphere` leaves behind: the vertex records, the contents of the
`unsigned int` vector `indices`, and `indexCount`. -/
structure SphereData (F : Type) where
  vertices : List (SphereVertex F)
  indices : List Nat
  indexCount : Int

/-- The function `createSphere`, up to the upload of the two buffers; `none` when a loop
is never left. -/
def createSphere (vertexAt : Int → Int → SphereVertex F) (stackCount sectorCount : Int) :
    Option (SphereData F) :=
  match sphereVertices vertexAt stackCount sectorCount with
  | none => none
  | some vertices =>
    match sphereIndexValues stackCount sectorCount with
    | none => none
    | some values =>
      let indices := values.map castU
      some { vertices := vertices, indices := indices, indexCount := castI indices.length }

/-- A sample vertex function for the examples. -/
def sampleVertex : Int → Int → SphereVertex Int := fun i j => ⟨i, j, 0, 0, 0⟩

/-- A counting loop that runs its body `n` times from the counter value `i` on. -/
def forLoop {α : Type} (body : Int → List α) : Nat → Int → List α
  | 0, _ => []
  | n + 1, i => body i ++ forLoop body n (i + 1)

/-- The vertex records of a grid that the vertex loops run through without wrap-around. -/
def gridVertices (vertexAt : Int → Int → SphereVertex F) (stackCount sectorCount : Int) :
    List (SphereVertex F) :=
  forLoop (fun i => forLoop (fun j => [vertexAt i j]) (sectorCount + 1).toNat 0)
    (stackCount + 1).toNat 0

/-- The index values of a grid, stack by stack and sector by sector. -/
def gridIndexValues (stackCount sectorCount : Int) : List Int :=
  forLoop (fun i => forLoop (fun j => sectorIndices stackCount sectorCount i j)
    sectorCount.toNat 0) stackCount.toNat 0

end SphereMesh

/-! ## Snow particle pool (`main.cpp` of the snow demo) -/

namespace SnowParticles

variable {R : Type}

/-- The type `glm::vec3` over the coordinate type `R`. -/
structure Vec3 (R : Type) where
  x : R
  y : R
  z : R

/-- The struct `Particle` (lines 30-35). -/
structure Particle (R : Type) where
  position : Vec3 R
  velocity : Vec3 R
  size : R
  active : Bool

/-- What the demo takes from the platform: the `float` operations it uses, the two
conversions between `int` and `float`, the value of a decimal literal, and the values
that successive calls of `rand()` return together with `RAND_MAX`. -/
structure Machine (R : Type) where
  add : R → R → R
  sub : R → R → R
  mul : R → R → R
  div : R → R → R
  sin : R → R
  lt : R → R → Bool
  ofInt : Int → R
  toInt : R → Int
  lit : Rat → R
  rand : Nat → Int
  randMax : Int

/-- The constant `MAX_PARTICLES`. -/
def MAX_PARTICLES : Int := 1000

/-- The global `spawnRate`, which nothing assigns to after its initialisation. -/
def spawnRate (M : Machine R) : R := M.lit 50

/-- The function `glm::min(x, y)`, which is `(y < x) ? y : x`. -/
def fmin (M : Machine R) (x y : R) : R := if M.lt y x then y else x

/-- The function `randomFloat`; `rng` counts the calls of `rand()` made so far. -/
def randomFloat (M : Machine R) (rng : Nat) (min max : R) : R × Nat :=
  let t := M.div (M.ofInt (M.rand rng)) (M.ofInt M.randMax)
  (M.add min (M.mul (M.sub max min) t), rng + 1)

/-- The function `respawnParticle` (lines 51-71). -/
def respawnParticle (M : Machine R) (rng : Nat) (_p : Particle R) : Particle R × Nat :=
  let x := randomFloat M rng (M.lit (-10)) (M.lit 10)
  let y := randomFloat M x.2 (M.lit 5) (M.lit 10)
  let z := randomFloat M y.2 (M.lit (-5)) (M.lit 5)
  let vx := randomFloat M z.2 (M.lit (-1 / 2)) (M.lit (1 / 2))
  let vy := randomFloat M vx.2 (M.lit (-2)) (M.lit (-1))
  let size := randomFloat M vy.2 (M.lit (1 / 10)) (M.lit (3 / 10))
  ({ position := ⟨x.1, y.1, z.1⟩, velocity := ⟨vx.1, vy.1, M.lit 0⟩, size := size.1,
     active := true }, size.2)

/-- The globals of the particle system (lines 37-42). -/
structure SnowState (R : Type) where
  particles : List (Particle R)
  activeCount : Int
  elapsedTime : R
  rng : Nat

/-- The element `particles[i]` for an `int` subscript; `none` when `i` is out of range. -/
def getParticle (ps : List (Particle R)) (i : Int) : Option (Particle R) :=
  if i < 0 then none else ps[i.toNat]?

/-- The state at program start: `MAX_PARTICLES` value-initialised particles,
`activeCount = 0`, `elapsedTime = 0.0f`. -/
def initial (M : Machine R) : SnowState R :=
  { particles := List.replicate 1000
      { position := ⟨M.lit 0, M.lit 0, M.lit 0⟩, velocity := ⟨M.lit 0, M.lit 0, M.lit 0⟩,
        size := M.lit 0, active := false }
    activeCount := 0
    elapsedTime := M.lit 0
    rng := 0 }

/-- The loop `while (activeCount < targetActive)` (lines 79-83) with at most `fuel`
iterations; `none` when `particles[activeCount]` is out of range or the fuel runs out. -/
def spawnLoop (M : Machine R) (targetActive : Int) : Nat → SnowState R → Option (SnowState R)
  | 0, s => if s.activeCount < targetActive then none else some s
  | fuel + 1, s =>
    if s.activeCount < targetActive then
      match getParticle s.particles s.activeCount with
      | none => none
      | some p =>
        let r := respawnParticle M s.rng p
        spawnLoop M targetActive fuel
          { s with particles := s.particles.set s.activeCount.toNat r.1,
                   activeCount := s.activeCount + 1, rng := r.2 }
    else some s

/-- The body of the loop over the active particles (lines 87-98) for the particle `p`
with subscript `i`, after the test of `p.active`. -/
def moveParticle (M : Machine R) (dt elapsedTime : R) (i : Int) (rng : Nat) (p : Particle R) :
    Particle R × Nat :=
  let pos1 : Vec3 R :=
    ⟨M.add p.position.x (M.mul p.velocity.x dt), M.add p.position.y (M.mul p.velocity.y dt),
     M.add p.position.z (M.mul p.velocity.z dt)⟩
  let wind := M.mul (M.lit (1 / 2)) (M.sin (M.add elapsedTime (M.mul (M.ofInt i) (M.lit (1 / 10)))))
  let pos2 : Vec3 R := { pos1 with x := M.add pos1.x (M.mul wind dt) }
  let p2 : Particle R := { p with position := pos2 }
  if M.lt p2.position.y (M.lit (-5)) then respawnParticle M rng p2 else (p2, rng)

/-- The loop `for (int i = 0; i < activeCount; i++)` (lines 85-99): `n` iterations remain
and the counter is `i`; `none` when `particles[i]` is out of range. -/
def moveLoop (M : Machine R) (dt : R) : Nat → Int → SnowState R → Option (SnowState R)
  | 0, _, s => some s
  | n + 1, i, s =>
    match getParticle s.particles i with
    | none => none
    | some p =>
      if !p.active then moveLoop M dt n (i + 1) s
      else
        let r := moveParticle M dt s.elapsedTime i s.rng p
        moveLoop M dt n (i + 1) { s with particles := s.particles.set i.toNat r.1, rng := r.2 }

/-- The function `updateParticles` (lines 73-100). -/
def updateParticles (M : Machine R) (dt : R) (s : SnowState R) : Option (SnowState R) :=
  let s1 : SnowState R := { s with elapsedTime := M.add s.elapsedTime dt }
  let targetActive : Int :=
    M.toInt (fmin M (M.mul s1.elapsedTime (spawnRate M)) (M.ofInt MAX_PARTICLES))
  match spawnLoop M targetActive (targetActive - s1.activeCount).toNat s1 with
  | none => none
  | some s2 => moveLoop M dt s2.activeCount.toNat 0 s2

/-- A sequence of calls of `updateParticles`, one per frame. -/
def run (M : Machine R) : List R → SnowState R → Option (SnowState R)
  | [], s => some s
  | dt :: dts, s =>
    match updateParticles M dt s with
    | none => none
    | some s1 => run M dts s1

/-- The invariant of the pool: it keeps its `MAX_PARTICLES` slots, the counter stays
within them, and every particle below the counter is active. -/
def PoolInv (s : SnowState R) : Prop :=
  s.particles.length = 1000 ∧ 0 ≤ s.activeCount ∧ s.activeCount ≤ MAX_PARTICLES ∧
  ∀ (i : Nat) (p : Particle R), (i : Int) < s.activeCount → s.particles[i]? = some p →
    p.active = true

/-- A sample platform: integers for `float`, with a zero `sin` and a repeating `rand()`. -/
def sampleMachine : Machine Int :=
  { add := fun a b => a + b, sub := fun a b => a - b, mul := fun a b => a * b,
    div := fun a b => a / b, sin := fun _ => 0, lt := fun a b => decide (a < b),
    ofInt := fun i => i, toInt := fun x => x, lit := fun q => q.num / q.den,
    rand := fun n => (n % 7 : Nat), randMax := 32767 }

end SnowParticles

/-! ## Orbit positions (`planet.cpp`) -/

namespace PlanetOrbit

variable {K : Type} [LinearOrderedField K]

/-- The functions of `<cmath>` that `computeOrbitPositionAU` calls. -/
structure CMath (K : Type) where
  cos : K → K
  sin : K → K
  sqrt : K → K
  atan2 : K → K → K

/-- The struct `OrbitalElements` (`planet.h`). -/
structure OrbitalElements (K : Type) where
  N1 : K
  N2 : K
  i1 : K
  i2 : K
  w1 : K
  w2 : K
  a1 : K
  a2 : K
  e1 : K
  e2 : K
  M1 : K
  M2 : K
  rotPeriod : K
  centerOfOrbit : Int

/-- The struct `Planet`, reduced to the member that the orbit computation reads. -/
structure Planet (K : Type) where
  elem : OrbitalElements K

/-- The type `glm::dvec3`. -/
structure DVec3 (K : Type) where
  x : K
  y : K
  z : K

/-- The macro `DEG2RAD`. -/
def DEG2RAD : K := 0.017453292519943295

/-- The method `PlanetSystem::computeOrbitPositionAU` (lines 83-112). -/
def computeOrbitPositionAU (C : CMath K) (p : Planet K) (t : K) : DVec3 K :=
  let e := p.elem
  let N := (e.N1 + e.N2 * t) * DEG2RAD
  let inc := (e.i1 + e.i2 * t) * DEG2RAD
  let w := (e.w1 + e.w2 * t) * DEG2RAD
  let a := e.a1 + e.a2 * t
  let ecc := e.e1 + e.e2 * t
  let M := (e.M1 + e.M2 * t) * DEG2RAD
  let E := M + ecc * C.sin M * (1 + ecc * C.cos M)
  let xv := a * (C.cos E - ecc)
  let yv := a * (C.sqrt (1 - ecc * ecc) * C.sin E)
  let v := C.atan2 yv xv
  let r := C.sqrt (xv * xv + yv * yv)
  let cosN := C.cos N
  let sinN := C.sin N
  let cosi := C.cos inc
  let sini := C.sin inc
  let cosvw := C.cos (v + w)
  let sinvw := C.sin (v + w)
  let xh := r * (cosN * cosvw - sinN * sinvw * cosi)
  let zh := -r * (sinN * cosvw + cosN * sinvw * cosi)
  let yh := r * (sinvw * sini)
  ⟨xh, yh, zh⟩

/-- The method `PlanetSystem::loadOrbitalElements` (lines 23-66): the Sun and five
planets. -/
def loadOrbitalElements : List (Planet K) :=
  [ ⟨⟨0, 0, 0, 0, 0, 0, 0, 0, 0, 0, 0, 0, 25.05, 0⟩⟩,
    ⟨⟨48.3313, 0.0000324587, 7.0047, 0.0000000500, 29.1241, 0.0000101444, 0.387098, 0,
      0.205635, 0.000000000559, 168.6562, 4.0923344368, 58.646, 0⟩⟩,
    ⟨⟨76.6799, 0.0000246590, 3.3946, 0.0000000275, 54.8910, 0.0000138374, 0.723330, 0,
      0.006773, -0.000000001302, 48.0052, 1.6021302244, 243.0185, 0⟩⟩,
    ⟨⟨174.873, 0, 0.00005, 0, 102.94719, 0, 1.0, 0, 0.01671022, 0, 357.529, 0.985608,
      0.997, 0⟩⟩,
    ⟨⟨49.5574, 0.0000211081, 1.8497, -0.0000000178, 286.5016, 0.0000292961, 1.523688, 0,
      0.093405, 0.000000002516, 18.6021, 0.5240207766, 1.025957, 0⟩⟩,
    ⟨⟨100.4542, 0.0000276854, 1.3030, -0.0000001557, 273.8777, 0.0000164505, 5.20256, 0,
      0.048498, 0.000000004469, 19.8950, 0.0830853001, 0.4135, 0⟩⟩ ]

/-- The semi-major axis `a = a1 + a2 * t` of the planet at time `t`. -/
def semiMajorAxis (p : Planet K) (t : K) : K := p.elem.a1 + p.elem.a2 * t

/-- The eccentricity `ecc = e1 + e2 * t` of the planet at time `t`. -/
def eccentricity (p : Planet K) (t : K) : K := p.elem.e1 + p.elem.e2 * t

/-- The mean anomaly `M` of the planet at time `t`, in radians. -/
def meanAnomaly (p : Planet K) (t : K) : K := (p.elem.M1 + p.elem.M2 * t) * DEG2RAD

/-- The approximation `E = M + ecc * sin M * (1 + ecc * cos M)` of the eccentric anomaly. -/
def eccentricAnomaly (C : CMath K) (p : Planet K) (t : K) : K :=
  meanAnomaly p t + eccentricity p t * C.sin (meanAnomaly p t)
    * (1 + eccentricity p t * C.cos (meanAnomaly p t))

/-- The Euclidean norm of a vector, with the square root of `C`. -/
def DVec3.norm (C : CMath K) (v : DVec3 K) : K := C.sqrt (v.x ^ 2 + v.y ^ 2 + v.z ^ 2)

/-- The laws of exact real arithmetic that the radius formula rests on: the
Pythagorean identity, and `sqrt` as the non-negative root of a non-negative number. -/
def CMath.Exact (C : CMath K) : Prop :=
  (∀ x, C.cos x ^ 2 + C.sin x ^ 2 = 1) ∧ (∀ x, 0 ≤ x → 0 ≤ C.sqrt x ∧ C.sqrt x ^ 2 = x)

/-- The second entry of `loadOrbitalElements`: Mercury. -/
def mercury : Planet K :=
  ⟨⟨48.3313, 0.0000324587, 7.0047, 0.0000000500, 29.1241, 0.0000101444, 0.387098, 0,
    0.205635, 0.000000000559, 168.6562, 4.0923344368, 58.646, 0⟩⟩

end PlanetOrbit

/-! ## Theorems -/

namespace HalfEdgeMesh

variable {F : Type}

theorem setTwin_length (es : List HalfEdge) (e t : Nat) : (setTwin es e t).length = es.length := by
  unfold setTwin
  split <;> simp

theorem setTwin_getElem? (es : List HalfEdge) (e t i : Nat) :
    (setTwin es e t)[i]? = es[i]?.map fun h => if i = e then { h with twin := some t } else h := by
  unfold setTwin
  split
  · rename_i hnone
    by_cases hie : i = e
    · subst hie; simp [hnone]
    · simp [hie]
  · rename_i h hsome
    by_cases hie : i = e
    · subst hie
      have hlt : i < es.length := by
        by_contra hcon
        rw [List.getElem?_eq_none (by omega)] at hsome
        cases hsome
      simp [hsome, List.getElem?_set_self, hlt]
    · have : e ≠ i := fun h => hie h.symm
      simp [hie, List.getElem?_set_ne this]

theorem keyAt_setTwin (es : List HalfEdge) (e t i : Nat) :
    keyAt (setTwin es e t) i = keyAt es i := by
  unfold keyAt
  rw [setTwin_getElem?]
  cases es[i]? with
  | none => rfl
  | some h => by_cases hie : i = e <;> simp [hie]

theorem twinAt_setTwin (es : List HalfEdge) (e t i : Nat) :
    twinAt (setTwin es e t) i = if i = e ∧ e < es.length then some t else twinAt es i := by
  unfold twinAt
  rw [setTwin_getElem?]
  by_cases hie : i = e
  · subst hie
    by_cases hlt : i < es.length
    · simp [hlt, List.getElem?_eq_getElem]
    · simp [hlt, List.getElem?_eq_none (Nat.le_of_not_lt hlt)]
  · cases es[i]? <;> simp [hie]

theorem map_stripTwin_setTwin (es : List HalfEdge) (e t : Nat) :
    (setTwin es e t).map stripTwin = es.map stripTwin := by
  apply List.ext_getElem?
  intro i
  rw [List.getElem?_map, List.getElem?_map, setTwin_getElem?]
  cases es[i]? with
  | none => rfl
  | some h => by_cases hie : i = e <;> simp [hie, stripTwin]

theorem addEdgeToMap_length (es : List HalfEdge) (m : EdgeMap) (e : Nat) :
    (addEdgeToMap es m e).1.length = es.length := by
  unfold addEdgeToMap
  split
  · rfl
  · dsimp only
    split <;> simp [setTwin_length]

theorem keyAt_addEdgeToMap (es : List HalfEdge) (m : EdgeMap) (e i : Nat) :
    keyAt (addEdgeToMap es m e).1 i = keyAt es i := by
  unfold addEdgeToMap
  split
  · rfl
  · dsimp only
    split <;> simp [keyAt_setTwin]

theorem map_stripTwin_addEdgeToMap (es : List HalfEdge) (m : EdgeMap) (e : Nat) :
    (addEdgeToMap es m e).1.map stripTwin = es.map stripTwin := by
  unfold addEdgeToMap
  split
  · rfl
  · dsimp only
    split <;> simp [map_stripTwin_setTwin]

/-- What `addEdgeToMap` does, in terms of keys, twins and the map. -/
theorem addEdgeToMap_spec (es : List HalfEdge) (m : EdgeMap) (e : Nat) (k : EdgeKey)
    (hk : keyAt es e = some k) :
    (addEdgeToMap es m e).2 = m.assign k e ∧
    ∀ i, twinAt (addEdgeToMap es m e).1 i =
      match m (k.2, k.1) with
      | some t => if i = t ∧ t < es.length then some e else if i = e then some t else twinAt es i
      | none => twinAt es i := by
  unfold keyAt at hk
  have hlt : e < es.length := by
    by_contra hcon
    rw [List.getElem?_eq_none (by omega)] at hk
    cases hk
  unfold addEdgeToMap
  cases hes : es[e]? with
  | none => rw [hes] at hk; cases hk
  | some h =>
    rw [hes] at hk
    simp only [Option.map_some', Option.some.injEq] at hk
    subst hk
    dsimp only [EdgeMap.find]
    refine ⟨rfl, ?_⟩
    intro i
    cases hm : m (h.toIndex, h.fromIndex) with
    | none => rfl
    | some t =>
      dsimp only
      rw [twinAt_setTwin, twinAt_setTwin, setTwin_length]
      simp [hlt]

theorem buildFace_faces (st : BuildState F) (t : FaceIndex) :
    (buildFace st t).faces = st.faces ++ [{ edge := some st.edges.length }] := rfl

theorem buildFace_edges_strip (st : BuildState F) (t : FaceIndex) :
    (buildFace st t).edges.map stripTwin
      = st.edges.map stripTwin ++ triEdges st.faces.length st.edges.length t := by
  unfold buildFace
  simp only [map_stripTwin_addEdgeToMap, List.map_append]
  rfl

theorem buildFace_edges_length (st : BuildState F) (t : FaceIndex) :
    (buildFace st t).edges.length = st.edges.length + 3 := by
  have h := congrArg List.length (buildFace_edges_strip st t)
  simpa [triEdges] using h

theorem foldl_buildFace_faces (ts : List FaceIndex) (st : BuildState F) :
    (ts.foldl buildFace st).faces = st.faces ++ faceList st.edges.length ts := by
  induction ts generalizing st with
  | nil => simp [faceList]
  | cons t ts ih =>
    rw [List.foldl_cons, ih, buildFace_faces, buildFace_edges_length]
    simp [faceList]

theorem foldl_buildFace_edges_strip (ts : List FaceIndex) (st : BuildState F) :
    (ts.foldl buildFace st).edges.map stripTwin
      = st.edges.map stripTwin ++ skeleton st.faces.length st.edges.length ts := by
  induction ts generalizing st with
  | nil => simp [skeleton]
  | cons t ts ih =>
    rw [List.foldl_cons, ih, buildFace_edges_strip, buildFace_faces, buildFace_edges_length]
    simp [skeleton]

theorem buildState_faces (ps : List (Vec3 F)) (fs : List FaceIndex) :
    (buildState ps fs).faces = faceList 0 fs := by
  unfold buildState
  rw [foldl_buildFace_faces]
  rfl

theorem buildState_edges_strip (ps : List (Vec3 F)) (fs : List FaceIndex) :
    (buildState ps fs).edges.map stripTwin = skeleton 0 0 fs := by
  unfold buildState
  rw [foldl_buildFace_edges_strip]
  rfl

theorem skeleton_length (f b : Nat) (ts : List FaceIndex) :
    (skeleton f b ts).length = 3 * ts.length := by
  induction ts generalizing f b with
  | nil => rfl
  | cons t ts ih => simp [skeleton, ih, triEdges]; omega

theorem faceList_length (b : Nat) (ts : List FaceIndex) : (faceList b ts).length = ts.length := by
  induction ts generalizing b with
  | nil => rfl
  | cons t ts ih => simp [faceList, ih]

theorem faceList_getElem? (b : Nat) (ts : List FaceIndex) (k : Nat) (t : FaceIndex)
    (hk : ts[k]? = some t) : (faceList b ts)[k]? = some { edge := some (b + 3 * k) } := by
  induction ts generalizing b k with
  | nil => simp at hk
  | cons u ts ih =>
    cases k with
    | zero => simp [faceList]
    | succ k =>
      simp only [List.getElem?_cons_succ] at hk
      simp only [faceList, List.getElem?_cons_succ]
      rw [ih (b + 3) k hk]
      congr 3
      omega

theorem skeleton_getElem? (f b : Nat) (ts : List FaceIndex) (k j : Nat) (t : FaceIndex)
    (hk : ts[k]? = some t) (hj : j < 3) :
    (skeleton f b ts)[3 * k + j]? = (triEdges (f + k) (b + 3 * k) t)[j]? := by
  induction ts generalizing f b k with
  | nil => simp at hk
  | cons u ts ih =>
    cases k with
    | zero =>
      simp only [List.getElem?_cons_zero, Option.some.injEq] at hk
      subst hk
      simp only [skeleton, Nat.mul_zero, Nat.zero_add, Nat.add_zero]
      rw [List.getElem?_append_left (by simpa [triEdges] using hj)]
    | succ k =>
      simp only [List.getElem?_cons_succ] at hk
      simp only [skeleton]
      rw [List.getElem?_append_right (by simp [triEdges]; omega)]
      have e1 : 3 * (k + 1) + j - (triEdges f b u).length = 3 * k + j := by
        simp [triEdges]; omega
      rw [e1, ih (f + 1) (b + 3) k hk]
      have e2 : f + 1 + k = f + (k + 1) := by omega
      have e3 : b + 3 + 3 * k = b + 3 * (k + 1) := by omega
      rw [e2, e3]

/-- The half-edge with handle `3 * k + j` of the built mesh is, up to its twin pointer,
the `j`-th half-edge wired for the `k`-th triangle. -/
theorem buildState_edge_strip (ps : List (Vec3 F)) (fs : List FaceIndex) (k j : Nat)
    (t : FaceIndex) (hk : fs[k]? = some t) (hj : j < 3) :
    ((buildState ps fs).edges[3 * k + j]?).map stripTwin = (triEdges k (3 * k) t)[j]? := by
  rw [← List.getElem?_map, buildState_edges_strip, skeleton_getElem? 0 0 fs k j t hk hj]
  simp

theorem buildState_edges_length (ps : List (Vec3 F)) (fs : List FaceIndex) :
    (buildState ps fs).edges.length = 3 * fs.length := by
  have h := congrArg List.length (buildState_edges_strip ps fs)
  simpa [skeleton_length] using h

theorem castI_le (n : Nat) : castI n ≤ (n : Int) := by
  unfold castI
  omega

theorem castI_of_le (n : Nat) (h : n ≤ 2147483647) : castI n = (n : Int) := by
  unfold castI
  omega

theorem castI_le_max (n : Nat) : castI n ≤ 2147483647 := by
  unfold castI
  omega

/-- On an object that `clear` has emptied, the build phase gives `buildMesh`. -/
theorem build_clear (self : Hedge F) (ps : List (Vec3 F)) (fs : List FaceIndex) :
    self.clear.build ps fs = buildMesh ps fs := by
  unfold Hedge.build Hedge.clear buildMesh buildState
  simp only [List.nil_append]

theorem loadFromOBJ_of_valid (pv : List Char → Vec3 F) (self : Hedge F) (file : Option (List Char))
    (ps : List (Vec3 F)) (fs : List FaceIndex) (hp : parseOBJ pv file = some (ps, fs))
    (hv : fs.all (validFace ps.length) = true) :
    Hedge.loadFromOBJ pv self file = (LoadResult.returned true, buildMesh ps fs) := by
  unfold Hedge.loadFromOBJ
  simp only [hp, hv, if_true, build_clear]

theorem loadFromOBJ_true_inv (pv : List Char → Vec3 F) (self : Hedge F) (file : Option (List Char))
    (h : (Hedge.loadFromOBJ pv self file).1 = LoadResult.returned true) :
    ∃ ps fs, parseOBJ pv file = some (ps, fs) ∧ fs.all (validFace ps.length) = true ∧
      (Hedge.loadFromOBJ pv self file).2 = buildMesh ps fs := by
  unfold Hedge.loadFromOBJ at h ⊢
  cases hp : parseOBJ pv file with
  | none => rw [hp] at h; simp at h
  | some r =>
    obtain ⟨ps, fs⟩ := r
    rw [hp] at h
    by_cases hv : fs.all (validFace ps.length) = true
    · exact ⟨ps, fs, rfl, hv, by simp only [hv, if_true, build_clear]⟩
    · simp only [hv] at h
      simp at h

theorem validFace_iff (n : Nat) (f : FaceIndex) :
    validFace n f = true ↔
      (0 ≤ f.v0 ∧ f.v0 < castI n) ∧ (0 ≤ f.v1 ∧ f.v1 < castI n) ∧
        (0 ≤ f.v2 ∧ f.v2 < castI n) := by
  unfold validFace
  simp only [Bool.not_eq_true', Bool.or_eq_false_iff, decide_eq_false_iff_not, not_lt, ge_iff_le,
    not_le]
  omega

theorem fitInt_le (v w : Int) (h : fitInt v = some w) : w ≤ 2147483647 := by
  unfold fitInt at h
  split at h
  · cases h
  · simp only [Option.some.injEq] at h
    omega

theorem stoi_le (s : List Char) (v : Int) (h : stoi s = some v) : v ≤ 2147483647 := by
  unfold stoi at h
  simp only at h
  split at h
  · cases h
  · exact fitInt_le _ _ h

theorem readFaceIdx_le (n : Nat) (s : List Char) (l : List Int) (h : readFaceIdx n s = some l) :
    ∀ x ∈ l, x ≤ 2147483646 := by
  induction n generalizing s l with
  | zero =>
    simp only [readFaceIdx, Option.some.injEq] at h
    subst h
    simp
  | succ n ih =>
    simp only [readFaceIdx] at h
    split at h
    · simp only [Option.some.injEq] at h
      subst h
      simp
    · split at h
      · cases h
      · rename_i v hv
        split at h
        · cases h
        · rename_i vs hvs
          simp only [Option.some.injEq] at h
          subst h
          intro x hx
          rcases List.mem_cons.mp hx with hx | hx
          · have := stoi_le _ _ hv
            omega
          · exact ih _ _ hvs x hx

theorem parseLine_small (pv : List Char → Vec3 F) (acc acc1 : List (Vec3 F) × List FaceIndex)
    (line : List Char) (h : parseLine pv acc line = some acc1)
    (hacc : ∀ t ∈ acc.2, t.Small) : ∀ t ∈ acc1.2, t.Small := by
  unfold parseLine at h
  simp only at h
  split at h
  · simp only [Option.some.injEq] at h
    subst h
    exact hacc
  · split at h
    · split at h
      · cases h
      · rename_i i0 i1 i2 hr
        simp only [Option.some.injEq] at h
        subst h
        intro t ht
        rcases List.mem_append.mp ht with ht | ht
        · exact hacc t ht
        · simp only [List.mem_singleton] at ht
          subst ht
          have hb := readFaceIdx_le _ _ _ hr
          exact ⟨hb i0 (by simp), hb i1 (by simp), hb i2 (by simp)⟩
      · simp only [Option.some.injEq] at h
        subst h
        exact hacc
    · simp only [Option.some.injEq] at h
      subst h
      exact hacc

theorem parseLines_small (pv : List Char → Vec3 F) (ls : List (List Char))
    (acc res : List (Vec3 F) × List FaceIndex) (h : parseLines pv acc ls = some res)
    (hacc : ∀ t ∈ acc.2, t.Small) : ∀ t ∈ res.2, t.Small := by
  induction ls generalizing acc with
  | nil =>
    simp only [parseLines, Option.some.injEq] at h
    subst h
    exact hacc
  | cons l ls ih =>
    simp only [parseLines] at h
    split at h
    · cases h
    · rename_i acc1 h1
      exact ih acc1 h (parseLine_small pv acc acc1 l h1 hacc)

theorem parseOBJ_small (pv : List Char → Vec3 F) (file : Option (List Char))
    (ps : List (Vec3 F)) (fs : List FaceIndex) (h : parseOBJ pv file = some (ps, fs)) :
    ∀ t ∈ fs, t.Small :=
  parseLines_small pv _ ([], []) (ps, fs) h (by simp)

theorem getLines_last (l : List Char) (h : '\n' ∉ l) :
    getLines l = if l = [] then [] else [l] := by
  induction l with
  | nil => rfl
  | cons c l ih =>
    have hc : c ≠ '\n' := fun e => h (by rw [e]; exact List.mem_cons_self _ _)
    have hl : '\n' ∉ l := fun e => h (List.mem_cons_of_mem _ e)
    rw [getLines, if_neg hc, ih hl]
    by_cases hnil : l = []
    · subst hnil
      rfl
    · rw [if_neg hnil]
      simp

theorem getLines_line (l rest : List Char) (h : '\n' ∉ l) :
    getLines (l ++ '\n' :: rest) = l :: getLines rest := by
  induction l with
  | nil => simp [getLines]
  | cons c l ih =>
    have hc : c ≠ '\n' := fun e => h (by rw [e]; exact List.mem_cons_self _ _)
    have hl : '\n' ∉ l := fun e => h (List.mem_cons_of_mem _ e)
    show getLines (c :: (l ++ '\n' :: rest)) = _
    rw [getLines, if_neg hc, ih hl]

theorem getLines_fileOfLines (ls : List (List Char)) (last : List Char)
    (hls : ∀ l ∈ ls, '\n' ∉ l) (hlast : '\n' ∉ last) :
    getLines (fileOfLines ls last) = allLines ls last := by
  induction ls with
  | nil =>
    show getLines ([] ++ last) = [] ++ _
    rw [List.nil_append, List.nil_append]
    exact getLines_last last hlast
  | cons l ls ih =>
    have h1 : fileOfLines (l :: ls) last = l ++ '\n' :: fileOfLines ls last := by
      simp [fileOfLines]
    rw [h1, getLines_line l _ (hls l (List.mem_cons_self _ _)),
      ih (fun x hx => hls x (List.mem_cons_of_mem _ hx))]
    rfl

theorem vRecords_fileOfLines (pv : List Char → Vec3 F) (ls : List (List Char))
    (last : List Char) (hls : ∀ l ∈ ls, '\n' ∉ l) (hlast : '\n' ∉ last) :
    vRecords pv (some (fileOfLines ls last))
      = ((allLines ls last).filter isPositionLine).map (positionOf pv) := by
  unfold vRecords
  simp only [getLines_fileOfLines ls last hls hlast]
  rfl

theorem parseLine_positions (pv : List Char → Vec3 F) (acc acc1 : List (Vec3 F) × List FaceIndex)
    (line : List Char) (h : parseLine pv acc line = some acc1) :
    acc1.1 = acc.1 ++ ([line].filter (fun l => decide ((readToken l).1 = ['v']))).map
      (fun l => pv (readToken l).2) := by
  unfold parseLine at h
  simp only at h
  split at h
  · rename_i hv
    simp only [Option.some.injEq] at h
    subst h
    simp [hv]
  · rename_i hv
    split at h
    · split at h
      · cases h
      · simp only [Option.some.injEq] at h
        subst h
        simp [hv]
      · simp only [Option.some.injEq] at h
        subst h
        simp [hv]
    · simp only [Option.some.injEq] at h
      subst h
      simp [hv]

theorem parseLines_positions (pv : List Char → Vec3 F) (ls : List (List Char))
    (acc res : List (Vec3 F) × List FaceIndex) (h : parseLines pv acc ls = some res) :
    res.1 = acc.1 ++ (ls.filter (fun l => decide ((readToken l).1 = ['v']))).map
      (fun l => pv (readToken l).2) := by
  induction ls generalizing acc with
  | nil =>
    simp only [parseLines, Option.some.injEq] at h
    subst h
    simp
  | cons l ls ih =>
    simp only [parseLines] at h
    split at h
    · cases h
    · rename_i acc1 h1
      rw [ih acc1 h, parseLine_positions pv acc acc1 l h1]
      have : l :: ls = [l] ++ ls := rfl
      rw [this, List.filter_append, List.map_append, List.append_assoc]

theorem parseOBJ_positions (pv : List Char → Vec3 F) (file : Option (List Char))
    (ps : List (Vec3 F)) (fs : List FaceIndex) (h : parseOBJ pv file = some (ps, fs)) :
    ps = vRecords pv file := by
  have := parseLines_positions pv _ ([], []) (ps, fs) h
  simpa [vRecords] using this

theorem giveEdge_getElem? (vs : List (HEVertex F)) (x : Int) (e i : Nat) :
    (giveEdge vs x e)[i]? = vs[i]?.map fun v =>
      if (i : Int) = x ∧ v.edge = none then { v with edge := some e } else v := by
  unfold giveEdge
  by_cases hx : x < 0
  · have hne : ¬ ((i : Int) = x) := by omega
    simp only [hx, if_true, hne, false_and, if_false]
    cases vs[i]? <;> rfl
  · simp only [hx, if_false]
    cases hv : vs[x.toNat]? with
    | none =>
      dsimp only
      by_cases hi : (i : Int) = x
      · have : i = x.toNat := by omega
        subst this
        simp [hv]
      · simp only [hi, false_and, if_false]
        cases vs[i]? <;> rfl
    | some v =>
      dsimp only
      have hlt : x.toNat < vs.length := by
        by_contra hcon
        rw [List.getElem?_eq_none (by omega)] at hv
        cases hv
      by_cases hnone : v.edge = none
      · simp only [hnone, Option.isNone_none, if_true]
        by_cases hi : (i : Int) = x
        · have : i = x.toNat := by omega
          subst this
          simp [List.getElem?_set_self, hlt, hv, hnone, hi]
        · have : x.toNat ≠ i := by omega
          simp only [List.getElem?_set_ne this, hi, false_and, if_false]
          cases vs[i]? <;> rfl
      · have hsome : v.edge.isNone = false := by
          cases hve : v.edge with
          | none => exact absurd hve hnone
          | some _ => rfl
        simp only [hsome, Bool.false_eq_true, if_false]
        by_cases hi : (i : Int) = x
        · have : i = x.toNat := by omega
          subst this
          simp [hv, hnone]
        · simp only [hi, false_and, if_false]
          cases vs[i]? <;> rfl

theorem map_stripEdge_giveEdge (vs : List (HEVertex F)) (x : Int) (e : Nat) :
    (giveEdge vs x e).map stripEdge = vs.map stripEdge := by
  apply List.ext_getElem?
  intro i
  rw [List.getElem?_map, List.getElem?_map, giveEdge_getElem?]
  cases vs[i]? with
  | none => rfl
  | some v =>
    by_cases hc : (i : Int) = x ∧ v.edge = none <;> simp [hc, stripEdge]

theorem buildFace_vertices (st : BuildState F) (t : FaceIndex) :
    (buildFace st t).vertices =
      giveEdge (giveEdge (giveEdge st.vertices t.v0 st.edges.length) t.v1 (st.edges.length + 1))
        t.v2 (st.edges.length + 2) := rfl

theorem foldl_buildFace_vertices_strip (ts : List FaceIndex) (st : BuildState F) :
    (ts.foldl buildFace st).vertices.map stripEdge = st.vertices.map stripEdge := by
  induction ts generalizing st with
  | nil => rfl
  | cons t ts ih =>
    rw [List.foldl_cons, ih, buildFace_vertices]
    simp only [map_stripEdge_giveEdge]

theorem makeVertices_getElem? (ps : List (Vec3 F)) (i k : Nat) :
    (makeVertices i ps)[k]? =
      ps[k]?.map fun p => { position := p, edge := none, index := castI (i + k) } := by
  induction ps generalizing i k with
  | nil => simp [makeVertices]
  | cons p ps ih =>
    cases k with
    | zero => simp [makeVertices]
    | succ k =>
      simp only [makeVertices, List.getElem?_cons_succ, ih]
      have : i + 1 + k = i + (k + 1) := by omega
      rw [this]

theorem buildState_vertices_strip (ps : List (Vec3 F)) (fs : List FaceIndex) :
    (buildState ps fs).vertices.map stripEdge = (makeVertices 0 ps).map stripEdge := by
  unfold buildState
  rw [foldl_buildFace_vertices_strip]

/-- Position and index of the `i`-th vertex of the built mesh. -/
theorem buildState_vertex (ps : List (Vec3 F)) (fs : List FaceIndex) (i : Nat) (v : HEVertex F)
    (hv : (buildState ps fs).vertices[i]? = some v) :
    ps[i]? = some v.position ∧ v.index = castI i := by
  have h := congrArg (fun l => l[i]?) (buildState_vertices_strip ps fs)
  simp only [List.getElem?_map, hv, makeVertices_getElem?, Option.map_some', Nat.zero_add] at h
  cases hp : ps[i]? with
  | none => rw [hp] at h; simp at h
  | some p =>
    rw [hp] at h
    simp only [Option.map_some', Option.some.injEq, stripEdge] at h
    have h1 := congrArg HEVertex.position h
    have h2 := congrArg HEVertex.index h
    simp only at h1 h2
    exact ⟨by rw [h1], h2⟩

theorem buildState_vertices_length (ps : List (Vec3 F)) (fs : List FaceIndex) :
    (buildState ps fs).vertices.length = ps.length := by
  have h := congrArg List.length (buildState_vertices_strip ps fs)
  simp only [List.length_map] at h
  rw [h]
  have : ∀ (i : Nat) (l : List (Vec3 F)), (makeVertices i l).length = l.length := by
    intro i l
    induction l generalizing i with
    | nil => rfl
    | cons p l ih => simp [makeVertices, ih]
  exact this 0 ps

theorem buildState_positions (ps : List (Vec3 F)) (fs : List FaceIndex) :
    (buildState ps fs).vertices.map (fun v => v.position) = ps := by
  apply List.ext_getElem?
  intro i
  rw [List.getElem?_map]
  cases hv : (buildState ps fs).vertices[i]? with
  | none =>
    have hlen := buildState_vertices_length ps fs
    have : (buildState ps fs).vertices.length ≤ i := List.getElem?_eq_none_iff.mp hv
    rw [List.getElem?_eq_none (by omega)]
    rfl
  | some v =>
    rw [(buildState_vertex ps fs i v hv).1]
    rfl

theorem strip_fields (es : List HalfEdge) (i : Nat) (g : HalfEdge)
    (h : (es[i]?).map stripTwin = some g) :
    ∃ e, es[i]? = some e ∧ e.vert = g.vert ∧ e.face = g.face ∧ e.next = g.next ∧
      e.prev = g.prev ∧ e.fromIndex = g.fromIndex ∧ e.toIndex = g.toIndex := by
  cases he : es[i]? with
  | none => rw [he] at h; cases h
  | some e =>
    rw [he] at h
    simp only [Option.map_some', Option.some.injEq] at h
    subst h
    exact ⟨e, rfl, rfl, rfl, rfl, rfl, rfl, rfl⟩

theorem castU_of_small (x : Int) (h0 : 0 ≤ x) (h1 : x ≤ 2147483646) :
    Int.ofNat (castU x) = x := by
  unfold castU
  simp only [Int.ofNat_eq_coe]
  omega

theorem flatTriangles_length (ts : List FaceIndex) : (flatTriangles ts).length = 3 * ts.length := by
  induction ts with
  | nil => rfl
  | cons t ts ih => simp [flatTriangles, ih]; omega

theorem faceIndexLoop_faceList (es : List HalfEdge) (ts : List FaceIndex) (f0 b : Nat)
    (hw : ∀ k t, ts[k]? = some t → ∀ j, j < 3 →
      (es[b + 3 * k + j]?).map stripTwin = (triEdges (f0 + k) (b + 3 * k) t)[j]?)
    (hr : ∀ t ∈ ts, (0 ≤ t.v0 ∧ 0 ≤ t.v1 ∧ 0 ≤ t.v2) ∧ t.Small) :
    ∃ out, faceIndexLoop es (faceList b ts) = some out ∧
      out.map Int.ofNat = flatTriangles ts := by
  induction ts generalizing f0 b with
  | nil => exact ⟨[], rfl, rfl⟩
  | cons t ts ih =>
    have hw' : ∀ k u, ts[k]? = some u → ∀ j, j < 3 →
        (es[b + 3 + 3 * k + j]?).map stripTwin = (triEdges (f0 + 1 + k) (b + 3 + 3 * k) u)[j]? := by
      intro k u hk j hj
      have := hw (k + 1) u (by simpa using hk) j hj
      have e1 : b + 3 * (k + 1) + j = b + 3 + 3 * k + j := by omega
      have e2 : f0 + (k + 1) = f0 + 1 + k := by omega
      have e3 : b + 3 * (k + 1) = b + 3 + 3 * k := by omega
      rw [e1, e2, e3] at this
      exact this
    obtain ⟨rest, hrest, hmap⟩ := ih (f0 + 1) (b + 3) hw' (fun u hu => hr u (List.mem_cons_of_mem _ hu))
    obtain ⟨⟨h0, h1, h2⟩, hs0, hs1, hs2⟩ := hr t (List.mem_cons_self _ _)
    obtain ⟨e0, he0, -, -, hn0, -, hf0, -⟩ := strip_fields es _ _ (hw 0 t (by simp) 0 (by omega))
    obtain ⟨e1, he1, -, -, hn1, -, hf1, -⟩ := strip_fields es _ _ (hw 0 t (by simp) 1 (by omega))
    obtain ⟨e2, he2, -, -, -, -, hf2, -⟩ := strip_fields es _ _ (hw 0 t (by simp) 2 (by omega))
    simp only [Nat.mul_zero, Nat.add_zero, triEdges, List.getElem_cons_zero,
      List.getElem_cons_succ] at he0 he1 he2 hn0 hn1 hf0 hf1 hf2
    refine ⟨[castU t.v0, castU t.v1, castU t.v2] ++ rest, ?_, ?_⟩
    · simp only [faceList, faceIndexLoop, faceCorners, he0, derefEdge, hn0, he1, hn1, he2, hrest,
        hf0, hf1, hf2]
    · simp only [List.map_append, List.map_cons, List.map_nil, hmap, flatTriangles,
        castU_of_small _ h0 hs0, castU_of_small _ h1 hs1, castU_of_small _ h2 hs2]
      rfl

theorem all_validFace (n : Nat) (fs : List FaceIndex) (hv : fs.all (validFace n) = true) :
    ∀ t ∈ fs, (0 ≤ t.v0 ∧ t.v0 < n) ∧ (0 ≤ t.v1 ∧ t.v1 < n) ∧ (0 ≤ t.v2 ∧ t.v2 < n) := by
  intro t ht
  have h := (validFace_iff n t).mp (List.all_eq_true.mp hv t ht)
  have hc := castI_le n
  refine ⟨⟨h.1.1, ?_⟩, ⟨h.2.1.1, ?_⟩, ⟨h.2.2.1, ?_⟩⟩ <;> omega

theorem all_validFace_max (n : Nat) (fs : List FaceIndex) (hv : fs.all (validFace n) = true) :
    ∀ t ∈ fs, t.v0 ≤ 2147483646 ∧ t.v1 ≤ 2147483646 ∧ t.v2 ≤ 2147483646 := by
  intro t ht
  have h := (validFace_iff n t).mp (List.all_eq_true.mp hv t ht)
  have hc := castI_le_max n
  refine ⟨?_, ?_, ?_⟩ <;> omega

/-- C1: when every parsed triangle passes the index validation, `edges` holds exactly
three half-edges per parsed triangle and `faces` holds one face per parsed triangle. -/
theorem loadFromOBJ_edge_face_count (pv : List Char → Vec3 F) (self : Hedge F)
    (file : Option (List Char)) (ps : List (Vec3 F)) (fs : List FaceIndex)
    (hp : parseOBJ pv file = some (ps, fs)) (hv : fs.all (validFace ps.length) = true) :
    (Hedge.loadFromOBJ pv self file).2.edges.length = 3 * fs.length ∧
    (Hedge.loadFromOBJ pv self file).2.faces.length = fs.length := by
  rw [loadFromOBJ_of_valid pv self file ps fs hp hv]
  constructor
  · exact buildState_edges_length ps fs
  · show (buildState ps fs).faces.length = fs.length
    rw [buildState_faces, faceList_length]

theorem loadFromOBJ_edge_face_count_witness :
    (Hedge.loadFromOBJ samplePos {} (some squareFile)).2.edges.length = 3 * 2 ∧
    (Hedge.loadFromOBJ samplePos {} (some squareFile)).2.faces.length = 2 :=
  loadFromOBJ_edge_face_count samplePos {} (some squareFile)
    [⟨6, 0, 0⟩, ⟨6, 0, 0⟩, ⟨6, 0, 0⟩, ⟨6, 0, 0⟩] [⟨0, 1, 2⟩, ⟨1, 3, 2⟩] (by decide) (by decide)

/-- C2: after a successful load, the three half-edges of every face form a cycle of
length exactly three under `next`, and `prev` runs through the same cycle backwards. -/
theorem loadFromOBJ_face_cycle (pv : List Char → Vec3 F) (self : Hedge F)
    (file : Option (List Char))
    (hload : (Hedge.loadFromOBJ pv self file).1 = LoadResult.returned true)
    (f : HEFace) (hf : f ∈ (Hedge.loadFromOBJ pv self file).2.faces) :
    ∃ e0 e1 e2 : Nat, f.edge = some e0 ∧
      (Hedge.loadFromOBJ pv self file).2.nextOf (some e0) = some e1 ∧
      (Hedge.loadFromOBJ pv self file).2.nextOf (some e1) = some e2 ∧
      (Hedge.loadFromOBJ pv self file).2.nextOf (some e2) = some e0 ∧
      (Hedge.loadFromOBJ pv self file).2.prevOf (some e0) = some e2 ∧
      (Hedge.loadFromOBJ pv self file).2.prevOf (some e2) = some e1 ∧
      (Hedge.loadFromOBJ pv self file).2.prevOf (some e1) = some e0 ∧
      e0 ≠ e1 ∧ e1 ≠ e2 ∧ e0 ≠ e2 := by
  obtain ⟨ps, fs, -, -, hm⟩ := loadFromOBJ_true_inv pv self file hload
  rw [hm] at hf ⊢
  change f ∈ (buildState ps fs).faces at hf
  rw [buildState_faces] at hf
  obtain ⟨k, hk⟩ := List.getElem?_of_mem hf
  have hklt : k < fs.length := by
    have := (List.getElem?_eq_some_iff.mp hk).1
    rwa [faceList_length] at this
  have hfk : fs[k]? = some fs[k] := List.getElem?_eq_getElem hklt
  rw [faceList_getElem? 0 fs k _ hfk] at hk
  simp only [Option.some.injEq] at hk
  subst hk
  obtain ⟨e0, he0, -, -, hn0, hp0, -, -⟩ :=
    strip_fields _ _ _ (buildState_edge_strip ps fs k 0 _ hfk (by omega))
  obtain ⟨e1, he1, -, -, hn1, hp1, -, -⟩ :=
    strip_fields _ _ _ (buildState_edge_strip ps fs k 1 _ hfk (by omega))
  obtain ⟨e2, he2, -, -, hn2, hp2, -, -⟩ :=
    strip_fields _ _ _ (buildState_edge_strip ps fs k 2 _ hfk (by omega))
  simp only [triEdges, Nat.add_zero, List.getElem_cons_zero, List.getElem_cons_succ]
    at he0 hn0 hp0 hn1 hp1 hn2 hp2
  refine ⟨3 * k, 3 * k + 1, 3 * k + 2, by simp, ?_, ?_, ?_, ?_, ?_, ?_, by omega, by omega, by omega⟩ <;>
    simp only [Hedge.nextOf, Hedge.prevOf, derefEdge, buildMesh, he0, he1, he2, Option.some_bind,
      hn0, hn1, hn2, hp0, hp1, hp2]

theorem loadFromOBJ_face_cycle_witness :
    ∃ e0 e1 e2 : Nat, ({ edge := some 3 } : HEFace).edge = some e0 ∧
      (Hedge.loadFromOBJ samplePos {} (some squareFile)).2.nextOf (some e0) = some e1 ∧
      (Hedge.loadFromOBJ samplePos {} (some squareFile)).2.nextOf (some e1) = some e2 ∧
      (Hedge.loadFromOBJ samplePos {} (some squareFile)).2.nextOf (some e2) = some e0 ∧
      (Hedge.loadFromOBJ samplePos {} (some squareFile)).2.prevOf (some e0) = some e2 ∧
      (Hedge.loadFromOBJ samplePos {} (some squareFile)).2.prevOf (some e2) = some e1 ∧
      (Hedge.loadFromOBJ samplePos {} (some squareFile)).2.prevOf (some e1) = some e0 ∧
      e0 ≠ e1 ∧ e1 ≠ e2 ∧ e0 ≠ e2 :=
  loadFromOBJ_face_cycle samplePos {} (some squareFile) (by decide) { edge := some 3 } (by decide)

/-- C7, amended: after a successful load of the file with lines `ls` and unterminated
rest `last`, `vertices` has one vertex per position record (line whose first word is
`v`), the `i`-th vertex carries index `i` for every `i` below `2^31`, and
`buildVertexArray` returns the positions of the position records in file order. -/
theorem loadFromOBJ_vertex_roundtrip (pv : List Char → Vec3 F) (self : Hedge F)
    (ls : List (List Char)) (last : List Char)
    (hls : ∀ l ∈ ls, '\n' ∉ l) (hlast : '\n' ∉ last)
    (hload : (Hedge.loadFromOBJ pv self (some (fileOfLines ls last))).1
      = LoadResult.returned true) :
    (Hedge.loadFromOBJ pv self (some (fileOfLines ls last))).2.vertices.length
      = ((allLines ls last).filter isPositionLine).length ∧
    (∀ (i : Nat) (v : HEVertex F),
      (Hedge.loadFromOBJ pv self (some (fileOfLines ls last))).2.vertices[i]? = some v →
        i < 2147483648 → v.index = (i : Int)) ∧
    (Hedge.loadFromOBJ pv self (some (fileOfLines ls last))).2.buildVertexArray
      = ((allLines ls last).filter isPositionLine).map (positionOf pv) := by
  obtain ⟨ps, fs, hp, -, hm⟩ := loadFromOBJ_true_inv pv self _ hload
  have hps := parseOBJ_positions pv _ ps fs hp
  rw [vRecords_fileOfLines pv ls last hls hlast] at hps
  have hlen : ps.length = ((allLines ls last).filter isPositionLine).length := by
    rw [hps, List.length_map]
  rw [hm]
  refine ⟨(buildState_vertices_length ps fs).trans hlen, ?_,
    (buildState_positions ps fs).trans hps⟩
  intro i v hv hi
  rw [(buildState_vertex ps fs i v hv).2]
  exact castI_of_le i (by omega)

theorem loadFromOBJ_vertex_roundtrip_witness :
    (Hedge.loadFromOBJ samplePos {} (some staggeredFile)).2.vertices.length = 3 ∧
    (∀ (i : Nat) (v : HEVertex Nat),
      (Hedge.loadFromOBJ samplePos {} (some staggeredFile)).2.vertices[i]? = some v →
        i < 2147483648 → v.index = (i : Int)) ∧
    (Hedge.loadFromOBJ samplePos {} (some staggeredFile)).2.buildVertexArray
      = [⟨6, 0, 0⟩, ⟨7, 0, 0⟩, ⟨8, 0, 0⟩] :=
  loadFromOBJ_vertex_roundtrip samplePos {}
    ["v 0 0 0".toList, "v 10 0 0".toList, "f 1 2 1".toList] "v 0 100 0".toList
    (by decide) (by decide) (by decide)

/-- C8: when the parsed triangles pass validation, `buildFaceIndexArray` returns the
triangle list flattened, three indices per triangle, in file order. -/
theorem buildFaceIndexArray_roundtrip (pv : List Char → Vec3 F) (self : Hedge F)
    (file : Option (List Char)) (ps : List (Vec3 F)) (fs : List FaceIndex)
    (hp : parseOBJ pv file = some (ps, fs)) (hv : fs.all (validFace ps.length) = true) :
    ∃ out, (Hedge.loadFromOBJ pv self file).2.buildFaceIndexArray = some out ∧
      out.map Int.ofNat = flatTriangles fs ∧ out.length = 3 * fs.length := by
  rw [loadFromOBJ_of_valid pv self file ps fs hp hv]
  have hval := all_validFace _ _ hv
  have hsm := parseOBJ_small pv file ps fs hp
  obtain ⟨out, hout, hmap⟩ := faceIndexLoop_faceList (buildState ps fs).edges fs 0 0
    (fun k t hk j hj => by
      have := buildState_edge_strip ps fs k j t hk hj
      simpa using this)
    (fun t ht => ⟨⟨(hval t ht).1.1, (hval t ht).2.1.1, (hval t ht).2.2.1⟩, hsm t ht⟩)
  refine ⟨out, ?_, hmap, ?_⟩
  · show faceIndexLoop (buildState ps fs).edges (buildState ps fs).faces = some out
    rw [buildState_faces]
    exact hout
  · have := congrArg List.length hmap
    simpa [flatTriangles_length] using this

theorem buildFaceIndexArray_roundtrip_witness :
    ∃ out, (Hedge.loadFromOBJ samplePos {} (some squareFile)).2.buildFaceIndexArray = some out ∧
      out.map Int.ofNat = flatTriangles [⟨0, 1, 2⟩, ⟨1, 3, 2⟩] ∧ out.length = 3 * 2 :=
  buildFaceIndexArray_roundtrip samplePos {} (some squareFile)
    [⟨6, 0, 0⟩, ⟨6, 0, 0⟩, ⟨6, 0, 0⟩, ⟨6, 0, 0⟩] [⟨0, 1, 2⟩, ⟨1, 3, 2⟩] (by decide) (by decide)

theorem firstFrom_append (x : Int) (l1 l2 : List HalfEdge) :
    firstFrom x (l1 ++ l2) =
      match firstFrom x l1 with
      | some j => some j
      | none => (firstFrom x l2).map (· + l1.length) := by
  induction l1 with
  | nil => simp [firstFrom]
  | cons h hs ih =>
    show firstFrom x (h :: (hs ++ l2)) = _
    by_cases hx : h.fromIndex = x
    · simp [firstFrom, hx]
    · simp only [firstFrom, hx, if_false, ih]
      cases firstFrom x hs with
      | some j => simp
      | none =>
        cases firstFrom x l2 with
        | none => simp
        | some j => simp [Nat.add_assoc]

theorem firstFrom_map_strip (x : Int) (l : List HalfEdge) :
    firstFrom x (l.map stripTwin) = firstFrom x l := by
  induction l with
  | nil => rfl
  | cons h hs ih => simp [firstFrom, ih, stripTwin]

theorem firstFrom_some (x : Int) (l : List HalfEdge) (j : Nat) (hj : firstFrom x l = some j) :
    ∃ h, l[j]? = some h ∧ h.fromIndex = x ∧
      ∀ (j2 : Nat) (h2 : HalfEdge), j2 < j → l[j2]? = some h2 → h2.fromIndex ≠ x := by
  induction l generalizing j with
  | nil => cases hj
  | cons h hs ih =>
    simp only [firstFrom] at hj
    by_cases hx : h.fromIndex = x
    · simp only [hx, if_true, Option.some.injEq] at hj
      subst hj
      exact ⟨h, by simp, hx, fun j2 h2 hlt _ => absurd hlt (Nat.not_lt_zero _)⟩
    · simp only [hx, if_false] at hj
      cases hr : firstFrom x hs with
      | none => rw [hr] at hj; cases hj
      | some j1 =>
        rw [hr] at hj
        simp only [Option.map_some', Option.some.injEq] at hj
        subst hj
        obtain ⟨g, hg, hgx, hmin⟩ := ih j1 hr
        refine ⟨g, by simpa using hg, hgx, ?_⟩
        intro j2 h2 hlt hj2
        cases j2 with
        | zero =>
          simp only [List.getElem?_cons_zero, Option.some.injEq] at hj2
          subst hj2
          exact hx
        | succ j2 =>
          simp only [List.getElem?_cons_succ] at hj2
          exact hmin j2 h2 (by omega) hj2

theorem firstFrom_none (x : Int) (l : List HalfEdge) :
    firstFrom x l = none ↔ ∀ h ∈ l, h.fromIndex ≠ x := by
  induction l with
  | nil => simp [firstFrom]
  | cons h hs ih =>
    simp only [firstFrom, List.mem_cons, forall_eq_or_imp]
    by_cases hx : h.fromIndex = x
    · simp [hx]
    · simp only [hx, if_false, Option.map_eq_none', ih, ne_eq, not_false_eq_true, true_and]

theorem firstFrom_skeleton_none (x : Int) (f b : Nat) (ts : List FaceIndex) :
    firstFrom x (skeleton f b ts) = none ↔ ∀ t ∈ ts, t.v0 ≠ x ∧ t.v1 ≠ x ∧ t.v2 ≠ x := by
  induction ts generalizing f b with
  | nil => simp [skeleton, firstFrom]
  | cons t ts ih =>
    simp only [skeleton, List.mem_cons, forall_eq_or_imp, ← ih (f + 1) (b + 3)]
    rw [firstFrom_append]
    by_cases h0 : t.v0 = x
    · simp [triEdges, firstFrom, h0]
    · by_cases h1 : t.v1 = x
      · simp [triEdges, firstFrom, h0, h1]
      · by_cases h2 : t.v2 = x
        · simp [triEdges, firstFrom, h0, h1, h2]
        · simp [triEdges, firstFrom, h0, h1, h2]

theorem buildFace_vertexEdgeInv (st : BuildState F) (t : FaceIndex) (h : VertexEdgeInv st) :
    VertexEdgeInv (buildFace st t) := by
  intro i v hv
  rw [buildFace_vertices, giveEdge_getElem?, giveEdge_getElem?, giveEdge_getElem?] at hv
  rw [buildFace_edges_strip, firstFrom_append]
  cases hw : st.vertices[i]? with
  | none => rw [hw] at hv; cases hv
  | some w =>
    rw [hw] at hv
    simp only [Option.map_some', Option.some.injEq] at hv
    have hwi := h i w hw
    rw [← hwi]
    subst hv
    cases hwe : w.edge with
    | some y => simp [hwe]
    | none =>
      simp only [List.length_map]
      by_cases h0 : t.v0 = (i : Int)
      · simp [triEdges, firstFrom, h0, hwe]
      · have h0' : ¬ ((i : Int) = t.v0) := fun h => h0 h.symm
        by_cases h1 : t.v1 = (i : Int)
        · simp [triEdges, firstFrom, h0, h0', h1, hwe, Nat.add_comm]
        · have h1' : ¬ ((i : Int) = t.v1) := fun h => h1 h.symm
          by_cases h2 : t.v2 = (i : Int)
          · simp [triEdges, firstFrom, h0, h0', h1, h1', h2, hwe, Nat.add_comm]
          · have h2' : ¬ ((i : Int) = t.v2) := fun h => h2 h.symm
            simp [triEdges, firstFrom, h0, h0', h1, h1', h2, h2', hwe]

theorem foldl_buildFace_vertexEdgeInv (ts : List FaceIndex) (st : BuildState F)
    (h : VertexEdgeInv st) : VertexEdgeInv (ts.foldl buildFace st) := by
  induction ts generalizing st with
  | nil => exact h
  | cons t ts ih => exact ih _ (buildFace_vertexEdgeInv st t h)

theorem buildState_vertexEdgeInv (ps : List (Vec3 F)) (fs : List FaceIndex) :
    VertexEdgeInv (buildState ps fs) := by
  apply foldl_buildFace_vertexEdgeInv
  intro i v hv
  simp only [makeVertices_getElem?] at hv
  cases hp : ps[i]? with
  | none => rw [hp] at hv; cases hv
  | some p =>
    rw [hp] at hv
    simp only [Option.map_some', Option.some.injEq] at hv
    subst hv
    rfl

theorem keyAt_lt (es : List HalfEdge) (e : Nat) (k : EdgeKey) (h : keyAt es e = some k) :
    e < es.length := by
  unfold keyAt at h
  by_contra hcon
  rw [List.getElem?_eq_none (by omega)] at h
  cases h

theorem keyAt_of_lt (es : List HalfEdge) (e : Nat) (h : e < es.length) :
    ∃ k, keyAt es e = some k := by
  unfold keyAt
  rw [List.getElem?_eq_getElem h]
  exact ⟨_, rfl⟩

theorem keyAt_append_left (es new : List HalfEdge) (e : Nat) (h : e < es.length) :
    keyAt (es ++ new) e = keyAt es e := by
  unfold keyAt
  rw [List.getElem?_append_left h]

theorem twinAt_append_left (es new : List HalfEdge) (e : Nat) (h : e < es.length) :
    twinAt (es ++ new) e = twinAt es e := by
  unfold twinAt
  rw [List.getElem?_append_left h]

theorem twinAt_append_right (es new : List HalfEdge) (e : Nat) (h : es.length ≤ e)
    (hnew : ∀ g ∈ new, g.twin = none) : twinAt (es ++ new) e = none := by
  unfold twinAt
  rw [List.getElem?_append_right h]
  cases hg : new[e - es.length]? with
  | none => rfl
  | some g => exact hnew g (List.getElem?_mem hg)

theorem twinAt_lt (es : List HalfEdge) (e t : Nat) (h : twinAt es e = some t) :
    e < es.length := by
  unfold twinAt at h
  by_contra hcon
  rw [List.getElem?_eq_none (by omega)] at h
  cases h

theorem twinKeyInv_append (es new : List HalfEdge) (m : EdgeMap) (h : TwinKeyInv es m)
    (hnew : ∀ g ∈ new, g.twin = none) : TwinKeyInv (es ++ new) m := by
  obtain ⟨hm, ht⟩ := h
  constructor
  · intro k e hke
    have := hm k e hke
    rw [keyAt_append_left _ _ _ (keyAt_lt _ _ _ this)]
    exact this
  · intro e t het
    by_cases hlt : e < es.length
    · rw [twinAt_append_left _ _ _ hlt] at het
      obtain ⟨k, hk1, hk2⟩ := ht e t het
      refine ⟨k, ?_, ?_⟩
      · rw [keyAt_append_left _ _ _ hlt]; exact hk1
      · rw [keyAt_append_left _ _ _ (keyAt_lt _ _ _ hk2)]; exact hk2
    · rw [twinAt_append_right _ _ _ (by omega) hnew] at het
      cases het

theorem twinKeyInv_addEdge (es : List HalfEdge) (m : EdgeMap) (e : Nat) (h : TwinKeyInv es m)
    (he : e < es.length) : TwinKeyInv (addEdgeToMap es m e).1 (addEdgeToMap es m e).2 := by
  obtain ⟨hm, ht⟩ := h
  obtain ⟨k, hk⟩ := keyAt_of_lt es e he
  obtain ⟨hmap, htw⟩ := addEdgeToMap_spec es m e k hk
  constructor
  · intro q x hq
    rw [keyAt_addEdgeToMap]
    rw [hmap] at hq
    unfold EdgeMap.assign at hq
    by_cases hqk : q = k
    · simp only [hqk, if_true, Option.some.injEq] at hq
      subst hq
      rw [hqk]
      exact hk
    · simp only [hqk, if_false] at hq
      exact hm q x hq
  · intro i t hit
    simp only [keyAt_addEdgeToMap]
    rw [htw i] at hit
    cases hmk : m (k.2, k.1) with
    | none =>
      rw [hmk] at hit
      exact ht i t hit
    | some t0 =>
      rw [hmk] at hit
      have ht0 := hm _ _ hmk
      have ht0lt := keyAt_lt _ _ _ ht0
      simp only [ht0lt, and_true] at hit
      by_cases hi0 : i = t0
      · simp only [hi0, if_true, Option.some.injEq] at hit
        subst hit
        subst hi0
        exact ⟨(k.2, k.1), ht0, hk⟩
      · simp only [hi0, if_false] at hit
        by_cases hie : i = e
        · simp only [hie, if_true, Option.some.injEq] at hit
          subst hit
          subst hie
          exact ⟨k, hk, ht0⟩
        · simp only [hie, if_false] at hit
          exact ht i t hit

theorem buildFace_edges_eq (st : BuildState F) (t : FaceIndex) :
    ∃ new : List HalfEdge, new.length = 3 ∧ (∀ g ∈ new, g.twin = none) ∧
      (buildFace st t).edges =
        (addEdgeToMap (addEdgeToMap (addEdgeToMap (st.edges ++ new) st.edgeMap st.edges.length).1
          (addEdgeToMap (st.edges ++ new) st.edgeMap st.edges.length).2 (st.edges.length + 1)).1
          (addEdgeToMap (addEdgeToMap (st.edges ++ new) st.edgeMap st.edges.length).1
          (addEdgeToMap (st.edges ++ new) st.edgeMap st.edges.length).2 (st.edges.length + 1)).2
          (st.edges.length + 2)).1 ∧
      (buildFace st t).edgeMap =
        (addEdgeToMap (addEdgeToMap (addEdgeToMap (st.edges ++ new) st.edgeMap st.edges.length).1
          (addEdgeToMap (st.edges ++ new) st.edgeMap st.edges.length).2 (st.edges.length + 1)).1
          (addEdgeToMap (addEdgeToMap (st.edges ++ new) st.edgeMap st.edges.length).1
          (addEdgeToMap (st.edges ++ new) st.edgeMap st.edges.length).2 (st.edges.length + 1)).2
          (st.edges.length + 2)).2 := by
  refine ⟨_, ?_, ?_, rfl, rfl⟩
  · rfl
  · intro g hg
    simp only [List.mem_cons, List.mem_singleton, List.not_mem_nil, or_false] at hg
    rcases hg with hg | hg | hg <;> rw [hg]

theorem buildFace_twinKeyInv (st : BuildState F) (t : FaceIndex)
    (h : TwinKeyInv st.edges st.edgeMap) :
    TwinKeyInv (buildFace st t).edges (buildFace st t).edgeMap := by
  obtain ⟨new, hlen, hnew, hes, hmp⟩ := buildFace_edges_eq st t
  rw [hes, hmp]
  have h0 := twinKeyInv_append st.edges new st.edgeMap h hnew
  have h1 := twinKeyInv_addEdge _ _ st.edges.length h0 (by simp [hlen])
  have h2 := twinKeyInv_addEdge _ _ (st.edges.length + 1) h1
    (by simp [addEdgeToMap_length, hlen])
  exact twinKeyInv_addEdge _ _ (st.edges.length + 2) h2
    (by simp [addEdgeToMap_length, hlen])

theorem buildState_twinKeyInv (ps : List (Vec3 F)) (fs : List FaceIndex) :
    TwinKeyInv (buildState ps fs).edges (buildState ps fs).edgeMap := by
  unfold buildState
  have : ∀ (ts : List FaceIndex) (st : BuildState F), TwinKeyInv st.edges st.edgeMap →
      TwinKeyInv (ts.foldl buildFace st).edges (ts.foldl buildFace st).edgeMap := by
    intro ts
    induction ts with
    | nil => intro st h; exact h
    | cons t ts ih => intro st h; exact ih _ (buildFace_twinKeyInv st t h)
  apply this
  constructor
  · intro k e hke
    cases hke
  · intro e t het
    simp [twinAt] at het

/-- C4: for every validated triangle list, duplicate and degenerate triangles included, a
half-edge that has a twin starts where the twin ends and ends where the twin starts. -/
theorem loadFromOBJ_twin_endpoints (pv : List Char → Vec3 F) (self : Hedge F)
    (file : Option (List Char)) (ps : List (Vec3 F)) (fs : List FaceIndex)
    (hp : parseOBJ pv file = some (ps, fs)) (hv : fs.all (validFace ps.length) = true)
    (e t : Nat) (h : HalfEdge)
    (he : (Hedge.loadFromOBJ pv self file).2.edges[e]? = some h) (ht : h.twin = some t) :
    ∃ g, (Hedge.loadFromOBJ pv self file).2.edges[t]? = some g ∧
      h.fromIndex = g.toIndex ∧ h.toIndex = g.fromIndex := by
  rw [loadFromOBJ_of_valid pv self file ps fs hp hv] at he ⊢
  change (buildState ps fs).edges[e]? = some h at he
  show ∃ g, (buildState ps fs).edges[t]? = some g ∧ _
  have hinv := (buildState_twinKeyInv ps fs).2 e t (by simp [twinAt, he, ht])
  obtain ⟨k, hk1, hk2⟩ := hinv
  unfold keyAt at hk1 hk2
  rw [he] at hk1
  cases hg : (buildState ps fs).edges[t]? with
  | none => rw [hg] at hk2; cases hk2
  | some g =>
    rw [hg] at hk2
    simp only [Option.map_some', Option.some.injEq] at hk1 hk2
    subst hk1
    simp only [Prod.mk.injEq] at hk2
    exact ⟨g, rfl, hk2.2.symm, hk2.1.symm⟩

theorem loadFromOBJ_twin_endpoints_witness :
    ∃ g, (Hedge.loadFromOBJ samplePos {} (some foldedFile)).2.edges[1]? = some g ∧
      ({ vert := some 1, face := some 0, next := some 1, prev := some 2, twin := some 1,
         fromIndex := 0, toIndex := 1 } : HalfEdge).fromIndex = g.toIndex ∧
      ({ vert := some 1, face := some 0, next := some 1, prev := some 2, twin := some 1,
         fromIndex := 0, toIndex := 1 } : HalfEdge).toIndex = g.fromIndex :=
  loadFromOBJ_twin_endpoints samplePos {} (some foldedFile)
    [⟨6, 0, 0⟩, ⟨6, 0, 0⟩, ⟨6, 0, 0⟩] [⟨0, 1, 0⟩, ⟨0, 1, 2⟩, ⟨0, 1, 2⟩] (by decide) (by decide)
    0 1 _ (by decide) (by decide)

theorem pairInv_append (es new : List HalfEdge) (m : EdgeMap) (p : Nat) (h : PairInv es m p)
    (hp : p ≤ es.length) (hnew : ∀ g ∈ new, g.twin = none) : PairInv (es ++ new) m p := by
  obtain ⟨hm, ht⟩ := h
  constructor
  · intro k e
    rw [hm k e]
    constructor
    · rintro ⟨h1, h2⟩
      exact ⟨h1, by rw [keyAt_append_left _ _ _ (by omega)]; exact h2⟩
    · rintro ⟨h1, h2⟩
      exact ⟨h1, by rw [keyAt_append_left _ _ _ (by omega)] at h2; exact h2⟩
  · intro e t
    by_cases hlt : e < es.length
    · rw [twinAt_append_left _ _ _ hlt, ht e t]
      constructor
      · rintro ⟨h1, h2, h3, k, h4, h5⟩
        refine ⟨h1, h2, h3, k, ?_, ?_⟩
        · rw [keyAt_append_left _ _ _ (by omega)]; exact h4
        · rw [keyAt_append_left _ _ _ (by omega)]; exact h5
      · rintro ⟨h1, h2, h3, k, h4, h5⟩
        refine ⟨h1, h2, h3, k, ?_, ?_⟩
        · rw [keyAt_append_left _ _ _ (by omega)] at h4; exact h4
        · rw [keyAt_append_left _ _ _ (by omega)] at h5; exact h5
    · rw [twinAt_append_right _ _ _ (by omega) hnew]
      constructor
      · intro h; cases h
      · rintro ⟨h1, -⟩
        omega

theorem pairInv_addEdge (es : List HalfEdge) (m : EdgeMap) (p : Nat) (h : PairInv es m p)
    (hp : p < es.length) (hinj : KeysInj es) :
    PairInv (addEdgeToMap es m p).1 (addEdgeToMap es m p).2 (p + 1) := by
  obtain ⟨hm, ht⟩ := h
  obtain ⟨k, hk⟩ := keyAt_of_lt es p hp
  obtain ⟨hmap, htw⟩ := addEdgeToMap_spec es m p k hk
  constructor
  · intro q x
    rw [keyAt_addEdgeToMap, hmap]
    unfold EdgeMap.assign
    by_cases hqk : q = k
    · simp only [hqk, if_true, Option.some.injEq]
      constructor
      · intro hx
        subst hx
        exact ⟨by omega, hk⟩
      · rintro ⟨-, hx⟩
        exact hinj _ _ _ hk hx
    · simp only [hqk, if_false, hm q x]
      constructor
      · rintro ⟨h1, h2⟩
        exact ⟨by omega, h2⟩
      · rintro ⟨h1, h2⟩
        refine ⟨?_, h2⟩
        by_contra hcon
        have hxp : x = p := by omega
        subst hxp
        rw [hk] at h2
        exact hqk (Option.some.inj h2).symm
  · intro e t
    simp only [keyAt_addEdgeToMap]
    rw [htw e]
    cases hmk : m (k.2, k.1) with
    | none =>
      dsimp only
      rw [ht e t]
      constructor
      · rintro ⟨h1, h2, h3, k1, h4, h5⟩
        exact ⟨by omega, by omega, h3, k1, h4, h5⟩
      · rintro ⟨h1, h2, h3, k1, h4, h5⟩
        have hnone : ∀ x, x < p → keyAt es x ≠ some (k.2, k.1) := by
          intro x hx hkx
          have := (hm (k.2, k.1) x).mpr ⟨hx, hkx⟩
          rw [hmk] at this
          cases this
        by_cases hep : e = p
        · subst hep
          rw [hk] at h4
          have hkk : k1 = k := (Option.some.inj h4).symm
          subst hkk
          exact absurd h5 (hnone t (by omega))
        · by_cases htp : t = p
          · subst htp
            rw [hk] at h5
            have hkk : k = (k1.2, k1.1) := Option.some.inj h5
            have : keyAt es e = some (k.2, k.1) := by rw [h4, hkk]
            exact absurd this (hnone e (by omega))
          · exact ⟨by omega, by omega, h3, k1, h4, h5⟩
    | some t0 =>
      dsimp only
      obtain ⟨ht0p, ht0k⟩ := (hm _ _).mp hmk
      have ht0lt := keyAt_lt _ _ _ ht0k
      simp only [ht0lt, and_true]
      by_cases he0 : e = t0
      · subst he0
        simp only [if_true, Option.some.injEq]
        constructor
        · intro hpt
          subst hpt
          exact ⟨by omega, by omega, by omega, (k.2, k.1), ht0k, hk⟩
        · rintro ⟨-, -, -, k1, h4, h5⟩
          rw [ht0k] at h4
          have hkk : k1 = (k.2, k.1) := (Option.some.inj h4).symm
          subst hkk
          exact hinj _ _ _ hk h5
      · simp only [he0, if_false]
        by_cases hep : e = p
        · subst hep
          simp only [if_true, Option.some.injEq]
          constructor
          · intro htt
            subst htt
            exact ⟨by omega, by omega, by omega, k, hk, ht0k⟩
          · rintro ⟨-, -, -, k1, h4, h5⟩
            rw [hk] at h4
            have hkk : k1 = k := (Option.some.inj h4).symm
            subst hkk
            exact hinj _ _ _ ht0k h5
        · simp only [hep, if_false]
          rw [ht e t]
          constructor
          · rintro ⟨h1, h2, h3, k1, h4, h5⟩
            exact ⟨by omega, by omega, h3, k1, h4, h5⟩
          · rintro ⟨h1, h2, h3, k1, h4, h5⟩
            refine ⟨by omega, ?_, h3, k1, h4, h5⟩
            by_contra hcon
            have htp : t = p := by omega
            subst htp
            rw [hk] at h5
            have hkk : k = (k1.2, k1.1) := Option.some.inj h5
            have : keyAt es e = some (k.2, k.1) := by rw [h4, hkk]
            exact he0 (hinj _ _ _ this ht0k)

theorem keysInj_of_keyAt_eq (es es2 : List HalfEdge) (h : KeysInj es)
    (heq : ∀ i, keyAt es2 i = keyAt es i) : KeysInj es2 := by
  intro i j k hi hj
  rw [heq] at hi hj
  exact h i j k hi hj

theorem buildFace_keyAt_mono (st : BuildState F) (t : FaceIndex) (i : Nat) (k : EdgeKey)
    (h : keyAt st.edges i = some k) : keyAt (buildFace st t).edges i = some k := by
  obtain ⟨new, -, -, hes, -⟩ := buildFace_edges_eq st t
  rw [hes, keyAt_addEdgeToMap, keyAt_addEdgeToMap, keyAt_addEdgeToMap,
    keyAt_append_left _ _ _ (keyAt_lt _ _ _ h)]
  exact h

theorem foldl_buildFace_keyAt_mono (ts : List FaceIndex) (st : BuildState F) (i : Nat)
    (k : EdgeKey) (h : keyAt st.edges i = some k) :
    keyAt (ts.foldl buildFace st).edges i = some k := by
  induction ts generalizing st with
  | nil => exact h
  | cons t ts ih => exact ih _ (buildFace_keyAt_mono st t i k h)

theorem buildFace_pairInv (st : BuildState F) (t : FaceIndex)
    (h : PairInv st.edges st.edgeMap st.edges.length) (hinj : KeysInj (buildFace st t).edges) :
    PairInv (buildFace st t).edges (buildFace st t).edgeMap (buildFace st t).edges.length := by
  rw [buildFace_edges_length]
  obtain ⟨new, hlen, hnew, hes, hmp⟩ := buildFace_edges_eq st t
  rw [hes] at hinj
  rw [hes, hmp]
  have hinj0 : KeysInj (st.edges ++ new) :=
    keysInj_of_keyAt_eq _ _ hinj (fun i => by
      rw [keyAt_addEdgeToMap, keyAt_addEdgeToMap, keyAt_addEdgeToMap])
  have h0 := pairInv_append st.edges new st.edgeMap _ h (Nat.le_refl _) hnew
  have h1 := pairInv_addEdge _ _ _ h0 (by simp [hlen]) hinj0
  have hinj1 := keysInj_of_keyAt_eq _ _ hinj0
    (keyAt_addEdgeToMap (st.edges ++ new) st.edgeMap st.edges.length)
  have h2 := pairInv_addEdge _ _ _ h1 (by simp [addEdgeToMap_length, hlen]) hinj1
  have hinj2 := keysInj_of_keyAt_eq _ _ hinj1
    (keyAt_addEdgeToMap (addEdgeToMap (st.edges ++ new) st.edgeMap st.edges.length).1
      (addEdgeToMap (st.edges ++ new) st.edgeMap st.edges.length).2 (st.edges.length + 1))
  exact pairInv_addEdge _ _ _ h2 (by simp [addEdgeToMap_length, hlen]) hinj2

theorem foldl_buildFace_pairInv (ts : List FaceIndex) (st : BuildState F)
    (h : PairInv st.edges st.edgeMap st.edges.length)
    (hinj : KeysInj (ts.foldl buildFace st).edges) :
    PairInv (ts.foldl buildFace st).edges (ts.foldl buildFace st).edgeMap
      (ts.foldl buildFace st).edges.length := by
  induction ts generalizing st with
  | nil => exact h
  | cons t ts ih =>
    rw [List.foldl_cons] at hinj ⊢
    apply ih _ _ hinj
    apply buildFace_pairInv st t h
    intro i j k hi hj
    exact hinj i j k (foldl_buildFace_keyAt_mono ts _ i k hi)
      (foldl_buildFace_keyAt_mono ts _ j k hj)

theorem buildState_pairInv (ps : List (Vec3 F)) (fs : List FaceIndex)
    (hinj : KeysInj (buildState ps fs).edges) :
    PairInv (buildState ps fs).edges (buildState ps fs).edgeMap (buildState ps fs).edges.length := by
  unfold buildState at hinj ⊢
  apply foldl_buildFace_pairInv _ _ _ hinj
  constructor
  · intro k e
    simp [EdgeMap.empty]
  · intro e t
    simp [twinAt]

theorem skeleton_keys (f b : Nat) (ts : List FaceIndex) :
    (skeleton f b ts).map (fun h => (h.fromIndex, h.toIndex)) = edgeKeys ts := by
  induction ts generalizing f b with
  | nil => rfl
  | cons t ts ih =>
    simp only [skeleton, edgeKeys, List.map_append, ih]
    rfl

theorem keyAt_eq_map (es : List HalfEdge) (i : Nat) :
    keyAt es i = ((es.map stripTwin).map (fun h => (h.fromIndex, h.toIndex)))[i]? := by
  unfold keyAt
  rw [List.getElem?_map, List.getElem?_map]
  cases es[i]? <;> rfl

theorem buildState_keyAt (ps : List (Vec3 F)) (fs : List FaceIndex) (i : Nat) :
    keyAt (buildState ps fs).edges i = (edgeKeys fs)[i]? := by
  rw [keyAt_eq_map, buildState_edges_strip, skeleton_keys]

theorem getElem?_inj_of_nodup {α : Type} (l : List α) (hnd : l.Nodup) (i j : Nat) (a : α)
    (hi : l[i]? = some a) (hj : l[j]? = some a) : i = j := by
  have h := List.nodup_iff_getElem?_ne_getElem?.mp hnd
  have hil := (List.getElem?_eq_some_iff.mp hi).1
  have hjl := (List.getElem?_eq_some_iff.mp hj).1
  rcases Nat.lt_trichotomy i j with hlt | heq | hgt
  · exact absurd (hi.trans hj.symm) (h i j hlt hjl)
  · exact heq
  · exact absurd (hj.trans hi.symm) (h j i hgt hil)

theorem buildState_keysInj (ps : List (Vec3 F)) (fs : List FaceIndex)
    (hnd : (edgeKeys fs).Nodup) : KeysInj (buildState ps fs).edges := by
  intro i j k hi hj
  rw [buildState_keyAt] at hi hj
  exact getElem?_inj_of_nodup _ hnd i j k hi hj

/-- The twins of the built mesh when no ordered pair is used twice: two half-edges are
twins exactly when they are distinct and carry reversed pairs. -/
theorem buildState_twinAt_iff (ps : List (Vec3 F)) (fs : List FaceIndex)
    (hnd : (edgeKeys fs).Nodup) (e t : Nat) :
    twinAt (buildState ps fs).edges e = some t ↔
      (e ≠ t ∧ ∃ k, (edgeKeys fs)[e]? = some k ∧ (edgeKeys fs)[t]? = some (k.2, k.1)) := by
  have h := (buildState_pairInv ps fs (buildState_keysInj ps fs hnd)).2 e t
  simp only [buildState_keyAt] at h
  rw [h]
  constructor
  · rintro ⟨-, -, h3, h4⟩
    exact ⟨h3, h4⟩
  · rintro ⟨h3, k, h4, h5⟩
    have h1 := (List.getElem?_eq_some_iff.mp h4).1
    have h2 := (List.getElem?_eq_some_iff.mp h5).1
    have hlen : (buildState ps fs).edges.length = (edgeKeys fs).length := by
      have := congrArg List.length (skeleton_keys 0 0 fs)
      rw [List.length_map, skeleton_length] at this
      rw [buildState_edges_length, this]
    exact ⟨by omega, by omega, h3, k, h4, h5⟩

theorem twinAt_eq (es : List HalfEdge) (e : Nat) (h : HalfEdge) (he : es[e]? = some h) :
    twinAt es e = h.twin := by
  simp [twinAt, he]

theorem twinAt_some_elim (es : List HalfEdge) (t e : Nat) (h : twinAt es t = some e) :
    ∃ g, es[t]? = some g ∧ g.twin = some e := by
  unfold twinAt at h
  cases hg : es[t]? with
  | none => rw [hg] at h; cases h
  | some g => rw [hg] at h; exact ⟨g, rfl, h⟩

/-- C3, amended: when no ordered vertex pair occurs on more than one half-edge of a
validated triangle list, the twin relation of the loaded mesh is symmetric. -/
theorem loadFromOBJ_twin_symmetric (pv : List Char → Vec3 F) (self : Hedge F)
    (file : Option (List Char)) (ps : List (Vec3 F)) (fs : List FaceIndex)
    (hp : parseOBJ pv file = some (ps, fs)) (hv : fs.all (validFace ps.length) = true)
    (hnd : (edgeKeys fs).Nodup) : TwinSymmetric (Hedge.loadFromOBJ pv self file).2 := by
  rw [loadFromOBJ_of_valid pv self file ps fs hp hv]
  intro e t h he ht
  change (buildState ps fs).edges[e]? = some h at he
  show ∃ g, (buildState ps fs).edges[t]? = some g ∧ _
  have h1 : twinAt (buildState ps fs).edges e = some t := by rw [twinAt_eq _ _ _ he, ht]
  obtain ⟨hne, k, hk1, hk2⟩ := (buildState_twinAt_iff ps fs hnd e t).mp h1
  exact twinAt_some_elim _ _ _
    ((buildState_twinAt_iff ps fs hnd t e).mpr ⟨fun h => hne h.symm, (k.2, k.1), hk2, hk1⟩)

theorem loadFromOBJ_twin_symmetric_witness :
    TwinSymmetric (Hedge.loadFromOBJ samplePos {} (some squareFile)).2 :=
  loadFromOBJ_twin_symmetric samplePos {} (some squareFile)
    [⟨6, 0, 0⟩, ⟨6, 0, 0⟩, ⟨6, 0, 0⟩, ⟨6, 0, 0⟩] [⟨0, 1, 2⟩, ⟨1, 3, 2⟩] (by decide) (by decide)
    (by decide)

/-- C3 as stated fails: in the mesh loaded from `fanFile` every triangle passes
validation, half-edge 0 has twin 3, and the twin of half-edge 3 is half-edge 6. -/
theorem loadFromOBJ_twin_not_symmetric :
    (Hedge.loadFromOBJ samplePos {} (some fanFile)).1 = LoadResult.returned true ∧
    ¬ TwinSymmetric (Hedge.loadFromOBJ samplePos {} (some fanFile)).2 := by
  refine ⟨by decide, ?_⟩
  intro hsym
  obtain ⟨g, hg, hgt⟩ := hsym 0 3
    { vert := some 1, face := some 0, next := some 1, prev := some 2, twin := some 3,
      fromIndex := 0, toIndex := 1 } (by decide) rfl
  have h3 : (Hedge.loadFromOBJ samplePos {} (some fanFile)).2.edges[3]? =
      some { vert := some 0, face := some 1, next := some 4, prev := some 5, twin := some 6,
             fromIndex := 1, toIndex := 0 } := by decide
  rw [h3] at hg
  cases hg
  cases hgt

theorem keyCount_of_nodup (a : EdgeKey) (l : List EdgeKey) (h : l.Nodup) :
    keyCount a l = if a ∈ l then 1 else 0 := by
  induction l with
  | nil => rfl
  | cons k l ih =>
    obtain ⟨hk, hl⟩ := List.nodup_cons.mp h
    unfold keyCount at ih ⊢
    rw [List.countP_cons, ih hl]
    by_cases hka : k = a
    · subst hka
      simp [hk]
    · have : ¬ a = k := fun h => hka h.symm
      simp [hka, this]

theorem keyCount_append (a : EdgeKey) (l1 l2 : List EdgeKey) :
    keyCount a (l1 ++ l2) = keyCount a l1 + keyCount a l2 := by
  simp [keyCount]

theorem edgeKeys_mem (fs : List FaceIndex) (k : EdgeKey) :
    k ∈ edgeKeys fs ↔ ∃ t ∈ fs, k ∈ triKeys t := by
  induction fs with
  | nil => simp [edgeKeys]
  | cons t ts ih => simp [edgeKeys, ih]

theorem triKeys_ne (t : FaceIndex) (hd : t.Proper) (k : EdgeKey) (hk : k ∈ triKeys t) :
    k.1 ≠ k.2 := by
  obtain ⟨h0, h1, h2⟩ := hd
  simp only [triKeys, List.mem_cons, List.mem_singleton, List.not_mem_nil, or_false] at hk
  rcases hk with hk | hk | hk <;> subst hk <;> assumption

theorem triKeys_nodup (t : FaceIndex) (hd : t.Proper) : (triKeys t).Nodup := by
  obtain ⟨h0, h1, h2⟩ := hd
  simp only [triKeys, List.nodup_cons, List.mem_cons, List.mem_singleton, Prod.mk.injEq,
    List.not_mem_nil, or_false, not_false_eq_true, List.nodup_nil, and_true, not_or, not_and]
  refine ⟨⟨fun h => absurd h h0, fun h => absurd h.symm h2⟩, fun h => absurd h h1⟩

theorem triKeys_not_both (t : FaceIndex) (hd : t.Proper) (u v : Int)
    (h1 : (u, v) ∈ triKeys t) (h2 : (v, u) ∈ triKeys t) : False := by
  obtain ⟨d0, d1, d2⟩ := hd
  simp only [triKeys, List.mem_cons, List.mem_singleton, Prod.mk.injEq, List.not_mem_nil,
    or_false] at h1 h2
  omega

theorem refsPair_count (t : FaceIndex) (hd : t.Proper) (u v : Int) :
    (if refsPair u v t = true then 1 else 0) =
      keyCount (u, v) (triKeys t) + keyCount (v, u) (triKeys t) := by
  have hnd := triKeys_nodup t hd
  rw [keyCount_of_nodup _ _ hnd, keyCount_of_nodup _ _ hnd]
  unfold refsPair
  by_cases h1 : (u, v) ∈ triKeys t
  · have h2 : (v, u) ∉ triKeys t := fun h2 => triKeys_not_both t hd u v h1 h2
    simp [h1, h2]
  · by_cases h2 : (v, u) ∈ triKeys t
    · simp [h1, h2]
    · simp [h1, h2]

theorem countP_refsPair (fs : List FaceIndex) (hd : ∀ t ∈ fs, t.Proper) (u v : Int) :
    fs.countP (refsPair u v) =
      keyCount (u, v) (edgeKeys fs) + keyCount (v, u) (edgeKeys fs) := by
  induction fs with
  | nil => rfl
  | cons t ts ih =>
    rw [List.countP_cons, ih (fun x hx => hd x (List.mem_cons_of_mem _ hx)),
      refsPair_count t (hd t (List.mem_cons_self _ _))]
    simp only [edgeKeys, keyCount_append]
    omega

/-- C5, amended: when no ordered vertex pair occurs on more than one half-edge and every
triangle has three pairwise distinct corners, a half-edge of the loaded mesh has no twin
exactly when one triangle of the input references its pair of end points. -/
theorem loadFromOBJ_unpaired_iff_boundary (pv : List Char → Vec3 F) (self : Hedge F)
    (file : Option (List Char)) (ps : List (Vec3 F)) (fs : List FaceIndex)
    (hp : parseOBJ pv file = some (ps, fs)) (hv : fs.all (validFace ps.length) = true)
    (hnd : (edgeKeys fs).Nodup) (hd : ∀ t ∈ fs, t.Proper) :
    UnpairedIffBoundary fs (Hedge.loadFromOBJ pv self file).2 := by
  rw [loadFromOBJ_of_valid pv self file ps fs hp hv]
  intro e h he
  change (buildState ps fs).edges[e]? = some h at he
  have hkey : (edgeKeys fs)[e]? = some (h.fromIndex, h.toIndex) := by
    rw [← buildState_keyAt ps fs e]
    simp [keyAt, he]
  have hmem : (h.fromIndex, h.toIndex) ∈ edgeKeys fs := List.getElem?_mem hkey
  have hne : h.fromIndex ≠ h.toIndex := by
    obtain ⟨t, ht, hk⟩ := (edgeKeys_mem fs _).mp hmem
    exact triKeys_ne t (hd t ht) _ hk
  rw [countP_refsPair fs hd, keyCount_of_nodup _ _ hnd, keyCount_of_nodup _ _ hnd, if_pos hmem,
    ← twinAt_eq _ _ _ he]
  constructor
  · intro hnone
    have hnot : (h.toIndex, h.fromIndex) ∉ edgeKeys fs := by
      intro hin
      obtain ⟨t, ht⟩ := List.getElem?_of_mem hin
      have hte : e ≠ t := by
        intro hEq
        subst hEq
        rw [hkey] at ht
        simp only [Option.some.injEq, Prod.mk.injEq] at ht
        exact hne ht.1
      have := (buildState_twinAt_iff ps fs hnd e t).mpr ⟨hte, _, hkey, ht⟩
      rw [hnone] at this
      cases this
    simp [hnot]
  · intro hcount
    have hnot : (h.toIndex, h.fromIndex) ∉ edgeKeys fs := by
      intro hin
      simp [hin] at hcount
    cases htw : twinAt (buildState ps fs).edges e with
    | none => rfl
    | some t =>
      obtain ⟨-, k, hk1, hk2⟩ := (buildState_twinAt_iff ps fs hnd e t).mp htw
      rw [hkey] at hk1
      have hkk : k = (h.fromIndex, h.toIndex) := (Option.some.inj hk1).symm
      subst hkk
      exact absurd (List.getElem?_mem hk2) hnot

theorem loadFromOBJ_unpaired_iff_boundary_witness :
    UnpairedIffBoundary [⟨0, 1, 2⟩, ⟨1, 3, 2⟩]
      (Hedge.loadFromOBJ samplePos {} (some squareFile)).2 :=
  loadFromOBJ_unpaired_iff_boundary samplePos {} (some squareFile)
    [⟨6, 0, 0⟩, ⟨6, 0, 0⟩, ⟨6, 0, 0⟩, ⟨6, 0, 0⟩] [⟨0, 1, 2⟩, ⟨1, 3, 2⟩] (by decide) (by decide)
    (by decide) (by decide)

/-- C5 as stated fails in both directions. In `needleFile` the only triangle `(0,1,0)`
references the pair `{0,1}` and its half-edge `0→1` has a twin. In `sameSideFile` two
triangles reference `{0,1}` and the half-edge `0→1` of the first has no twin. -/
theorem loadFromOBJ_unpaired_not_iff_boundary :
    (parseOBJ samplePos (some needleFile) = some ([⟨6, 0, 0⟩, ⟨6, 0, 0⟩], [⟨0, 1, 0⟩]) ∧
      (Hedge.loadFromOBJ samplePos {} (some needleFile)).1 = LoadResult.returned true ∧
      ¬ UnpairedIffBoundary [⟨0, 1, 0⟩] (Hedge.loadFromOBJ samplePos {} (some needleFile)).2) ∧
    (parseOBJ samplePos (some sameSideFile)
        = some ([⟨6, 0, 0⟩, ⟨6, 0, 0⟩, ⟨6, 0, 0⟩, ⟨6, 0, 0⟩], [⟨0, 1, 2⟩, ⟨0, 1, 3⟩]) ∧
      (Hedge.loadFromOBJ samplePos {} (some sameSideFile)).1 = LoadResult.returned true ∧
      ¬ UnpairedIffBoundary [⟨0, 1, 2⟩, ⟨0, 1, 3⟩]
        (Hedge.loadFromOBJ samplePos {} (some sameSideFile)).2) := by
  refine ⟨⟨by decide, by decide, ?_⟩, ⟨by decide, by decide, ?_⟩⟩
  · intro hb
    have h := (hb 0
      { vert := some 1, face := some 0, next := some 1, prev := some 2, twin := some 1,
        fromIndex := 0, toIndex := 1 } (by decide)).mpr (by decide)
    cases h
  · intro hb
    have h := (hb 0
      { vert := some 1, face := some 0, next := some 1, prev := some 2, twin := none,
        fromIndex := 0, toIndex := 1 } (by decide)).mp rfl
    revert h
    decide

theorem pairsOf_edgeIndexLoop (addr : Nat → Nat) (i : Nat) (es : List HalfEdge) :
    pairsOf (edgeIndexLoop addr i es) = emitPairs addr i es := by
  induction es generalizing i with
  | nil => rfl
  | cons h hs ih =>
    simp only [edgeIndexLoop, emitPairs]
    cases skipsEdge addr i h with
    | true => simpa using ih (i + 1)
    | false => simp [pairsOf, ih (i + 1)]

theorem edgeIndexLoop_length (addr : Nat → Nat) (i : Nat) (es : List HalfEdge) :
    (edgeIndexLoop addr i es).length = 2 * (emitPairs addr i es).length := by
  induction es generalizing i with
  | nil => rfl
  | cons h hs ih =>
    simp only [edgeIndexLoop, emitPairs]
    cases skipsEdge addr i h with
    | true => simpa using ih (i + 1)
    | false => simp [ih (i + 1)]; omega

theorem emitPairs_append (addr : Nat → Nat) (i : Nat) (l1 l2 : List HalfEdge) :
    emitPairs addr i (l1 ++ l2) = emitPairs addr i l1 ++ emitPairs addr (i + l1.length) l2 := by
  induction l1 generalizing i with
  | nil => simp [emitPairs]
  | cons h hs ih =>
    have : i + 1 + hs.length = i + (hs.length + 1) := by omega
    show emitPairs addr i (h :: (hs ++ l2)) = emitPairs addr i (h :: hs) ++ _
    rw [emitPairs, emitPairs, ih (i + 1), List.append_assoc, List.length_cons, this]

theorem countP_emitPairs (addr : Nat → Nat) (Q : Nat × Nat → Bool) (es : List HalfEdge) :
    (emitPairs addr 0 es).countP Q =
      ∑ j ∈ Finset.range es.length, (if emitsAt addr Q es j = true then 1 else 0) := by
  induction es using List.reverseRecOn with
  | nil => simp [emitPairs]
  | append_singleton l a ih =>
    rw [emitPairs_append, List.countP_append, ih, List.length_append, List.length_singleton,
      Finset.sum_range_succ]
    congr 1
    · apply Finset.sum_congr rfl
      intro j hj
      have hj' : j < l.length := Finset.mem_range.mp hj
      simp only [emitsAt, List.getElem?_append_left hj']
    · have hget : (l ++ [a])[l.length]? = some a := by simp
      simp only [emitsAt, Nat.zero_add, emitPairs, List.append_nil, hget]
      cases skipsEdge addr l.length a with
      | true => simp
      | false =>
        cases hq : Q (castU a.fromIndex, castU a.toIndex) with
        | true => simp [hq]
        | false => simp [hq]

theorem emitsAt_iff (addr : Nat → Nat) (Q : Nat × Nat → Bool) (es : List HalfEdge) (j : Nat) :
    emitsAt addr Q es j = true ↔
      ∃ k, keyAt es j = some k ∧ Q (castU k.1, castU k.2) = true ∧
        ∀ t, twinAt es j = some t → ¬ addr t < addr j := by
  unfold emitsAt keyAt twinAt
  cases hj : es[j]? with
  | none => simp
  | some h =>
    simp only [Option.map_some', Option.some.injEq, Option.some_bind, Bool.and_eq_true,
      Bool.not_eq_true', exists_eq_left']
    unfold skipsEdge
    cases h.twin with
    | none => simp
    | some t => simp [and_comm]

theorem sum_indicator_eq_one (n : Nat) (c : Nat → Bool) (x : Nat) (hx : x < n)
    (hcx : c x = true) (huniq : ∀ j, j < n → c j = true → j = x) :
    (∑ j ∈ Finset.range n, (if c j = true then 1 else 0)) = 1 := by
  rw [Finset.sum_eq_single_of_mem x (Finset.mem_range.mpr hx)]
  · simp [hcx]
  · intro j hj hne
    have : ¬ c j = true := fun h => hne (huniq j (Finset.mem_range.mp hj) h)
    simp [this]

theorem castU_inj_of_small (a b : Int) (ha0 : 0 ≤ a) (ha1 : a ≤ 2147483646) (hb0 : 0 ≤ b)
    (hb1 : b ≤ 2147483646) (h : castU a = castU b) : a = b := by
  rw [← castU_of_small a ha0 ha1, ← castU_of_small b hb0 hb1, h]

theorem edgeKeys_small (fs : List FaceIndex)
    (hr : ∀ t ∈ fs, (0 ≤ t.v0 ∧ 0 ≤ t.v1 ∧ 0 ≤ t.v2) ∧ t.Small) :
    ∀ k ∈ edgeKeys fs, KeySmall k := by
  intro k hk
  obtain ⟨t, ht, hkt⟩ := (edgeKeys_mem fs k).mp hk
  obtain ⟨⟨h0, h1, h2⟩, s0, s1, s2⟩ := hr t ht
  simp only [triKeys, List.mem_cons, List.mem_singleton, List.not_mem_nil, or_false] at hkt
  rcases hkt with hkt | hkt | hkt <;> subst hkt <;> exact ⟨⟨by assumption, by assumption⟩, by assumption, by assumption⟩

theorem pair_match_iff (u v : Int) (k : EdgeKey) (hu : KeySmall (u, v)) (hk : KeySmall k) :
    decide ((castU k.1, castU k.2) = (castU u, castU v) ∨
      (castU k.1, castU k.2) = (castU v, castU u)) = true ↔ (k = (u, v) ∨ k = (v, u)) := by
  obtain ⟨⟨u0, u1⟩, v0, v1⟩ := hu
  obtain ⟨⟨a0, a1⟩, b0, b1⟩ := hk
  obtain ⟨a, b⟩ := k
  simp only [decide_eq_true_eq, Prod.mk.injEq] at *
  constructor
  · rintro (⟨h1, h2⟩ | ⟨h1, h2⟩)
    · exact Or.inl ⟨castU_inj_of_small _ _ a0 a1 u0 u1 h1, castU_inj_of_small _ _ b0 b1 v0 v1 h2⟩
    · exact Or.inr ⟨castU_inj_of_small _ _ a0 a1 v0 v1 h1, castU_inj_of_small _ _ b0 b1 u0 u1 h2⟩
  · rintro (⟨h1, h2⟩ | ⟨h1, h2⟩)
    · exact Or.inl ⟨by rw [h1], by rw [h2]⟩
    · exact Or.inr ⟨by rw [h1], by rw [h2]⟩

theorem buildState_eachEdgeOnce (ps : List (Vec3 F)) (fs : List FaceIndex)
    (hr : ∀ t ∈ fs, (0 ≤ t.v0 ∧ 0 ≤ t.v1 ∧ 0 ≤ t.v2) ∧ t.Small)
    (hnd : (edgeKeys fs).Nodup) (addr : Nat → Nat) (haddr : Function.Injective addr) :
    EachEdgeOnce fs (edgeIndexLoop addr 0 (buildState ps fs).edges) := by
  intro u v huv
  rw [pairsOf_edgeIndexLoop, countP_emitPairs]
  have hsmall := edgeKeys_small fs hr
  have hlen : (buildState ps fs).edges.length = (edgeKeys fs).length := by
    have := congrArg List.length (skeleton_keys 0 0 fs)
    rw [List.length_map, skeleton_length] at this
    rw [buildState_edges_length, this]
  obtain ⟨e1, he1⟩ := List.getElem?_of_mem huv
  have he1lt : e1 < (buildState ps fs).edges.length := by
    rw [hlen]; exact (List.getElem?_eq_some_iff.mp he1).1
  -- what it means for the half-edge `j` to be pushed with a matching pair
  have hcond : ∀ j, emitsAt addr
      (fun p => decide (p = (castU u, castU v) ∨ p = (castU v, castU u)))
      (buildState ps fs).edges j = true ↔
      ∃ k, (edgeKeys fs)[j]? = some k ∧ (k = (u, v) ∨ k = (v, u)) ∧
        ∀ t, twinAt (buildState ps fs).edges j = some t → ¬ addr t < addr j := by
    intro j
    rw [emitsAt_iff]
    simp only [buildState_keyAt]
    constructor
    · rintro ⟨k, hk, hq, ht⟩
      exact ⟨k, hk, (pair_match_iff u v k (hsmall _ huv) (hsmall k (List.getElem?_mem hk))).mp hq, ht⟩
    · rintro ⟨k, hk, hq, ht⟩
      exact ⟨k, hk, (pair_match_iff u v k (hsmall _ huv) (hsmall k (List.getElem?_mem hk))).mpr hq, ht⟩
  by_cases hrev : ∃ e2, e2 ≠ e1 ∧ (edgeKeys fs)[e2]? = some (v, u)
  · obtain ⟨e2, hne, he2⟩ := hrev
    have he2lt : e2 < (buildState ps fs).edges.length := by
      rw [hlen]; exact (List.getElem?_eq_some_iff.mp he2).1
    have ht1 : twinAt (buildState ps fs).edges e1 = some e2 :=
      (buildState_twinAt_iff ps fs hnd e1 e2).mpr ⟨fun h => hne h.symm, (u, v), he1, he2⟩
    have ht2 : twinAt (buildState ps fs).edges e2 = some e1 :=
      (buildState_twinAt_iff ps fs hnd e2 e1).mpr ⟨hne, (v, u), he2, he1⟩
    have hadd : addr e1 ≠ addr e2 := fun h => hne (haddr h).symm
    by_cases hlt : addr e2 < addr e1
    · apply sum_indicator_eq_one _ _ e2 he2lt
      · rw [hcond]
        refine ⟨(v, u), he2, Or.inr rfl, ?_⟩
        intro t ht
        rw [ht2] at ht
        cases ht
        omega
      · intro j _ hj
        obtain ⟨k, hk, hq, ht⟩ := (hcond j).mp hj
        rcases hq with hq | hq
        · subst hq
          have : j = e1 := getElem?_inj_of_nodup _ hnd j e1 _ hk he1
          subst this
          exact absurd hlt (ht e2 ht1)
        · subst hq
          exact getElem?_inj_of_nodup _ hnd j e2 _ hk he2
    · apply sum_indicator_eq_one _ _ e1 he1lt
      · rw [hcond]
        refine ⟨(u, v), he1, Or.inl rfl, ?_⟩
        intro t ht
        rw [ht1] at ht
        cases ht
        exact hlt
      · intro j _ hj
        obtain ⟨k, hk, hq, ht⟩ := (hcond j).mp hj
        rcases hq with hq | hq
        · subst hq
          exact getElem?_inj_of_nodup _ hnd j e1 _ hk he1
        · subst hq
          have : j = e2 := getElem?_inj_of_nodup _ hnd j e2 _ hk he2
          subst this
          exact absurd (by omega : addr e1 < addr j) (ht e1 ht2)
  · apply sum_indicator_eq_one _ _ e1 he1lt
    · rw [hcond]
      refine ⟨(u, v), he1, Or.inl rfl, ?_⟩
      intro t ht
      obtain ⟨hne, k, hk1, hk2⟩ := (buildState_twinAt_iff ps fs hnd e1 t).mp ht
      rw [he1] at hk1
      have hkk : k = (u, v) := (Option.some.inj hk1).symm
      subst hkk
      exact absurd ⟨t, fun h => hne h.symm, hk2⟩ hrev
    · intro j _ hj
      obtain ⟨k, hk, hq, ht⟩ := (hcond j).mp hj
      rcases hq with hq | hq
      · subst hq
        exact getElem?_inj_of_nodup _ hnd j e1 _ hk he1
      · subst hq
        by_contra hne
        exact hrev ⟨j, hne, hk⟩

/-- When no ordered vertex pair occurs on more than one half-edge of a validated triangle
list, `buildEdgeIndexArray` pushes every undirected edge exactly once, whatever the
addresses of the half-edges are. -/
theorem buildEdgeIndexArray_each_edge_once (pv : List Char → Vec3 F) (self : Hedge F)
    (file : Option (List Char)) (ps : List (Vec3 F)) (fs : List FaceIndex)
    (hp : parseOBJ pv file = some (ps, fs)) (hv : fs.all (validFace ps.length) = true)
    (hnd : (edgeKeys fs).Nodup) (addr : Nat → Nat) (haddr : Function.Injective addr) :
    EachEdgeOnce fs ((Hedge.loadFromOBJ pv self file).2.buildEdgeIndexArray addr) := by
  rw [loadFromOBJ_of_valid pv self file ps fs hp hv]
  have hval := all_validFace _ _ hv
  have hsm := parseOBJ_small pv file ps fs hp
  exact buildState_eachEdgeOnce ps fs
    (fun t ht => ⟨⟨(hval t ht).1.1, (hval t ht).2.1.1, (hval t ht).2.2.1⟩, hsm t ht⟩)
    hnd addr haddr

theorem buildEdgeIndexArray_each_edge_once_witness :
    EachEdgeOnce [⟨0, 1, 2⟩, ⟨1, 3, 2⟩]
      ((Hedge.loadFromOBJ samplePos {} (some squareFile)).2.buildEdgeIndexArray id) :=
  buildEdgeIndexArray_each_edge_once samplePos {} (some squareFile)
    [⟨6, 0, 0⟩, ⟨6, 0, 0⟩, ⟨6, 0, 0⟩, ⟨6, 0, 0⟩] [⟨0, 1, 2⟩, ⟨1, 3, 2⟩] (by decide) (by decide)
    (by decide) id (fun _ _ h => h)

/-- C9: the export does not keep what `hedge.h` promises for it ("each edge only once")
and what the comment in `buildEdgeIndexArray` announces ("Avoid adding each undirected edge
twice"). `sameSideFile` passes validation and the load returns true, and with the
half-edges laid out in allocation order the export holds the pair `(0, 1)` twice: both
half-edges from 0 to 1 are left without a twin, so the address test is skipped for each. -/
theorem buildEdgeIndexArray_edge_twice :
    parseOBJ samplePos (some sameSideFile)
      = some ([⟨6, 0, 0⟩, ⟨6, 0, 0⟩, ⟨6, 0, 0⟩, ⟨6, 0, 0⟩], [⟨0, 1, 2⟩, ⟨0, 1, 3⟩]) ∧
    (Hedge.loadFromOBJ samplePos {} (some sameSideFile)).1 = LoadResult.returned true ∧
    (Hedge.loadFromOBJ samplePos {} (some sameSideFile)).2.buildEdgeIndexArray id
      = [0, 1, 1, 2, 2, 0, 0, 1, 1, 3, 3, 0] ∧
    ¬ EachEdgeOnce [⟨0, 1, 2⟩, ⟨0, 1, 3⟩]
      ((Hedge.loadFromOBJ samplePos {} (some sameSideFile)).2.buildEdgeIndexArray id) := by
  refine ⟨by decide, by decide, by decide, ?_⟩
  intro h
  have h01 := h 0 1 (by decide)
  revert h01
  decide

theorem sum_involution_half (n : Nat) (f : Nat → Nat) (tw : Nat → Nat)
    (htw : ∀ j, j < n → tw j < n) (hinv : ∀ j, j < n → tw (tw j) = j)
    (hone : ∀ j, j < n → f j + f (tw j) = 1) :
    2 * (∑ j ∈ Finset.range n, f j) = n := by
  have hre : (∑ j ∈ Finset.range n, f j) = ∑ j ∈ Finset.range n, f (tw j) := by
    apply Finset.sum_nbij' tw tw
    · intro a ha; exact Finset.mem_range.mpr (htw a (Finset.mem_range.mp ha))
    · intro a ha; exact Finset.mem_range.mpr (htw a (Finset.mem_range.mp ha))
    · intro a ha; exact hinv a (Finset.mem_range.mp ha)
    · intro a ha; exact hinv a (Finset.mem_range.mp ha)
    · intro a ha; rw [hinv a (Finset.mem_range.mp ha)]
  have hsum : (∑ j ∈ Finset.range n, (f j + f (tw j))) = n := by
    rw [Finset.sum_congr rfl (fun j hj => hone j (Finset.mem_range.mp hj))]
    simp
  rw [Finset.sum_add_distrib, ← hre] at hsum
  omega

theorem buildState_closed_count (ps : List (Vec3 F)) (fs : List FaceIndex)
    (hnd : (edgeKeys fs).Nodup) (hcl : Closed fs) (addr : Nat → Nat)
    (haddr : Function.Injective addr) :
    2 * (emitPairs addr 0 (buildState ps fs).edges).length = 3 * fs.length := by
  have hlen : (buildState ps fs).edges.length = (edgeKeys fs).length := by
    have := congrArg List.length (skeleton_keys 0 0 fs)
    rw [List.length_map, skeleton_length] at this
    rw [buildState_edges_length, this]
  have hcount : (emitPairs addr 0 (buildState ps fs).edges).length =
      (emitPairs addr 0 (buildState ps fs).edges).countP (fun _ => true) := by
    simp
  rw [hcount, countP_emitPairs, ← buildState_edges_length ps fs]
  -- every half-edge has a twin, which is another half-edge and points back
  have htwin : ∀ j, j < (buildState ps fs).edges.length →
      ∃ t, twinAt (buildState ps fs).edges j = some t ∧ t < (buildState ps fs).edges.length ∧
        t ≠ j ∧ twinAt (buildState ps fs).edges t = some j := by
    intro j hj
    rw [hlen] at hj
    obtain ⟨t, hne, ht⟩ := hcl j _ (List.getElem?_eq_getElem hj)
    refine ⟨t, ?_, ?_, hne, ?_⟩
    · exact (buildState_twinAt_iff ps fs hnd j t).mpr
        ⟨fun h => hne h.symm, _, List.getElem?_eq_getElem hj, ht⟩
    · rw [hlen]; exact (List.getElem?_eq_some_iff.mp ht).1
    · exact (buildState_twinAt_iff ps fs hnd t j).mpr
        ⟨hne, _, ht, by simp [List.getElem?_eq_getElem hj]⟩
  apply sum_involution_half _ _ (fun j => (twinAt (buildState ps fs).edges j).getD 0)
  · intro j hj
    obtain ⟨t, h1, h2, -, -⟩ := htwin j hj
    simp only [h1, Option.getD_some]
    exact h2
  · intro j hj
    obtain ⟨t, h1, -, -, h4⟩ := htwin j hj
    simp only [h1, Option.getD_some, h4]
  · intro j hj
    obtain ⟨t, h1, h2, h3, h4⟩ := htwin j hj
    have hadd : addr t ≠ addr j := fun h => h3 (haddr h)
    obtain ⟨kj, hkj⟩ := keyAt_of_lt _ j hj
    obtain ⟨kt, hkt⟩ := keyAt_of_lt _ t h2
    have ej : emitsAt addr (fun _ => true) (buildState ps fs).edges j = true ↔ ¬ addr t < addr j := by
      rw [emitsAt_iff]
      constructor
      · rintro ⟨k, -, -, hk⟩
        exact hk t h1
      · intro hk
        refine ⟨kj, hkj, rfl, ?_⟩
        intro t2 ht2
        rw [h1] at ht2
        cases ht2
        exact hk
    have et : emitsAt addr (fun _ => true) (buildState ps fs).edges t = true ↔ ¬ addr j < addr t := by
      rw [emitsAt_iff]
      constructor
      · rintro ⟨k, -, -, hk⟩
        exact hk j h4
      · intro hk
        refine ⟨kt, hkt, rfl, ?_⟩
        intro t2 ht2
        rw [h4] at ht2
        cases ht2
        exact hk
    simp only [h1, Option.getD_some]
    by_cases hlt : addr t < addr j
    · have h5 : ¬ emitsAt addr (fun _ => true) (buildState ps fs).edges j = true := by
        rw [ej]; omega
      have h6 : emitsAt addr (fun _ => true) (buildState ps fs).edges t = true := by
        rw [et]; omega
      simp [h5, h6]
    · have h5 : emitsAt addr (fun _ => true) (buildState ps fs).edges j = true := by
        rw [ej]; exact hlt
      have h6 : ¬ emitsAt addr (fun _ => true) (buildState ps fs).edges t = true := by
        rw [et]; omega
      simp [h5, h6]

/-- C10: for a closed input, where no ordered vertex pair occurs on more than one
half-edge and every half-edge has an oppositely directed counterpart, the unique-edge
export holds `3T` indices, that is `3T/2` index pairs, whatever the order of the
half-edge addresses is. -/
theorem buildEdgeIndexArray_closed_count (pv : List Char → Vec3 F) (self : Hedge F)
    (file : Option (List Char)) (ps : List (Vec3 F)) (fs : List FaceIndex)
    (hp : parseOBJ pv file = some (ps, fs)) (hv : fs.all (validFace ps.length) = true)
    (hnd : (edgeKeys fs).Nodup) (hcl : Closed fs) (addr : Nat → Nat)
    (haddr : Function.Injective addr) :
    ((Hedge.loadFromOBJ pv self file).2.buildEdgeIndexArray addr).length = 3 * fs.length ∧
    2 * (pairsOf ((Hedge.loadFromOBJ pv self file).2.buildEdgeIndexArray addr)).length
      = 3 * fs.length := by
  rw [loadFromOBJ_of_valid pv self file ps fs hp hv]
  have h := buildState_closed_count ps fs hnd hcl addr haddr
  constructor
  · show (edgeIndexLoop addr 0 (buildState ps fs).edges).length = _
    rw [edgeIndexLoop_length]
    exact h
  · show 2 * (pairsOf (edgeIndexLoop addr 0 (buildState ps fs).edges)).length = _
    rw [pairsOf_edgeIndexLoop]
    exact h

theorem tetra_closed :
    Closed [⟨0, 2, 1⟩, ⟨0, 1, 3⟩, ⟨1, 2, 3⟩, ⟨2, 0, 3⟩] := by
  have hfin : ∀ i : Fin 12, ∃ j : Fin 12, j.1 ≠ i.1 ∧
      (edgeKeys [⟨0, 2, 1⟩, ⟨0, 1, 3⟩, ⟨1, 2, 3⟩, ⟨2, 0, 3⟩])[j.1]? =
        ((edgeKeys [⟨0, 2, 1⟩, ⟨0, 1, 3⟩, ⟨1, 2, 3⟩, ⟨2, 0, 3⟩])[i.1]?).map
          (fun k => (k.2, k.1)) := by
    decide
  intro i k hk
  have hi : i < 12 := (List.getElem?_eq_some_iff.mp hk).1
  obtain ⟨j, hne, hj⟩ := hfin ⟨i, hi⟩
  refine ⟨j.1, hne, ?_⟩
  rw [hj]
  simp only [hk, Option.map_some']

theorem reverseAddr_injective : Function.Injective reverseAddr := by
  intro a b h
  unfold reverseAddr at h
  split_ifs at h <;> omega

theorem buildEdgeIndexArray_closed_count_witness :
    ((Hedge.loadFromOBJ samplePos {} (some tetraFile)).2.buildEdgeIndexArray reverseAddr).length
      = 3 * 4 ∧
    2 * (pairsOf ((Hedge.loadFromOBJ samplePos {} (some tetraFile)).2.buildEdgeIndexArray
        reverseAddr)).length = 3 * 4 :=
  buildEdgeIndexArray_closed_count samplePos {} (some tetraFile)
    [⟨6, 0, 0⟩, ⟨6, 0, 0⟩, ⟨6, 0, 0⟩, ⟨6, 0, 0⟩]
    [⟨0, 2, 1⟩, ⟨0, 1, 3⟩, ⟨1, 2, 3⟩, ⟨2, 0, 3⟩] (by decide) (by decide) (by decide)
    tetra_closed reverseAddr reverseAddr_injective

theorem undirected_swap (k : EdgeKey) : undirected (k.2, k.1) = undirected k := by
  obtain ⟨a, b⟩ := k
  unfold undirected
  simp only
  by_cases h1 : b ≤ a
  · by_cases h2 : a ≤ b
    · have : a = b := by omega
      subst this
      simp
    · simp [h1, h2]
  · have h2 : a ≤ b := by omega
    simp [h1, h2]

theorem undirected_eq (k1 k2 : EdgeKey) (h : undirected k1 = undirected k2) :
    k1 = k2 ∨ k1 = (k2.2, k2.1) := by
  obtain ⟨a, b⟩ := k1
  obtain ⟨c, d⟩ := k2
  unfold undirected at h
  simp only at h
  by_cases h1 : a ≤ b
  · by_cases h2 : c ≤ d
    · simp only [h1, h2, if_true] at h
      exact Or.inl h
    · simp only [h1, h2, if_true, if_false] at h
      exact Or.inr h
  · by_cases h2 : c ≤ d
    · simp only [h1, h2, if_true, if_false, Prod.mk.injEq] at h
      exact Or.inr (by simp [h.1, h.2])
    · simp only [h1, h2, if_false, Prod.mk.injEq] at h
      exact Or.inl (by simp [h.1, h.2])

theorem emitPairs_mem (addr : Nat → Nat) (i : Nat) (es : List HalfEdge) (p : Nat × Nat)
    (hp : p ∈ emitPairs addr i es) :
    ∃ h ∈ es, p = (castU h.fromIndex, castU h.toIndex) := by
  induction es generalizing i with
  | nil => simp [emitPairs] at hp
  | cons h hs ih =>
    simp only [emitPairs, List.mem_append] at hp
    rcases hp with hp | hp
    · cases hsk : skipsEdge addr i h with
      | true => simp [hsk] at hp
      | false =>
        simp only [hsk, Bool.false_eq_true, if_false, List.mem_singleton] at hp
        exact ⟨h, List.mem_cons_self _ _, hp⟩
    · obtain ⟨g, hg, hgp⟩ := ih (i + 1) hp
      exact ⟨g, List.mem_cons_of_mem _ hg, hgp⟩

theorem buildState_edges_len_keys (ps : List (Vec3 F)) (fs : List FaceIndex) :
    (buildState ps fs).edges.length = (edgeKeys fs).length := by
  have := congrArg List.length (skeleton_keys 0 0 fs)
  rw [List.length_map, skeleton_length] at this
  rw [buildState_edges_length, this]

theorem buildState_edge_key_mem (ps : List (Vec3 F)) (fs : List FaceIndex) (h : HalfEdge)
    (hh : h ∈ (buildState ps fs).edges) : (h.fromIndex, h.toIndex) ∈ edgeKeys fs := by
  obtain ⟨i, hi⟩ := List.getElem?_of_mem hh
  have : keyAt (buildState ps fs).edges i = some (h.fromIndex, h.toIndex) := by
    simp [keyAt, hi]
  rw [buildState_keyAt] at this
  exact List.getElem?_mem this

/-- The number of pushed pairs is the number of distinct unordered vertex pairs. -/
theorem buildState_emitted_count (ps : List (Vec3 F)) (fs : List FaceIndex)
    (hnd : (edgeKeys fs).Nodup) (addr : Nat → Nat) (haddr : Function.Injective addr) :
    (emitPairs addr 0 (buildState ps fs).edges).length = (distinctEdges fs).length := by
  have hlen := buildState_edges_len_keys ps fs
  have hcount : (emitPairs addr 0 (buildState ps fs).edges).length =
      (emitPairs addr 0 (buildState ps fs).edges).countP (fun _ => true) := by
    simp
  rw [hcount, countP_emitPairs, ← Finset.card_filter]
  unfold distinctEdges
  rw [← List.card_toFinset]
  -- when the half-edge `j` is pushed
  have hem : ∀ j, emitsAt addr (fun _ => true) (buildState ps fs).edges j = true ↔
      ∃ k, (edgeKeys fs)[j]? = some k ∧
        ∀ t, twinAt (buildState ps fs).edges j = some t → ¬ addr t < addr j := by
    intro j
    rw [emitsAt_iff]
    simp only [buildState_keyAt, true_and]
  have himg : ((Finset.range (buildState ps fs).edges.length).filter
      (fun j => emitsAt addr (fun _ => true) (buildState ps fs).edges j = true)).image
      (fun j => undirected (((edgeKeys fs)[j]?).getD (0, 0)))
        = ((edgeKeys fs).map undirected).toFinset := by
    ext x
    simp only [Finset.mem_image, Finset.mem_filter, Finset.mem_range, List.mem_toFinset,
      List.mem_map]
    constructor
    · rintro ⟨j, ⟨-, hj⟩, hx⟩
      obtain ⟨k, hk, -⟩ := (hem j).mp hj
      refine ⟨k, List.getElem?_mem hk, ?_⟩
      rw [← hx, hk]
      rfl
    · rintro ⟨k, hk, hx⟩
      obtain ⟨j, hj⟩ := List.getElem?_of_mem hk
      have hjlt : j < (buildState ps fs).edges.length := by
        rw [hlen]; exact (List.getElem?_eq_some_iff.mp hj).1
      by_cases hemj : emitsAt addr (fun _ => true) (buildState ps fs).edges j = true
      · refine ⟨j, ⟨hjlt, hemj⟩, ?_⟩
        rw [hj]
        exact hx
      · have hnot : ¬ ∀ t, twinAt (buildState ps fs).edges j = some t → ¬ addr t < addr j :=
          fun hall => hemj ((hem j).mpr ⟨k, hj, hall⟩)
        simp only [not_forall, not_not] at hnot
        obtain ⟨t, ht, hlt⟩ := hnot
        obtain ⟨hne, k1, hk1, hk2⟩ := (buildState_twinAt_iff ps fs hnd j t).mp ht
        rw [hj] at hk1
        have hkk : k1 = k := (Option.some.inj hk1).symm
        subst hkk
        have htj : twinAt (buildState ps fs).edges t = some j :=
          (buildState_twinAt_iff ps fs hnd t j).mpr ⟨fun h => hne h.symm, _, hk2, hj⟩
        have htlt : t < (buildState ps fs).edges.length := by
          rw [hlen]; exact (List.getElem?_eq_some_iff.mp hk2).1
        refine ⟨t, ⟨htlt, (hem t).mpr ⟨_, hk2, ?_⟩⟩, ?_⟩
        · intro t2 ht2
          rw [htj] at ht2
          cases ht2
          omega
        · rw [hk2]
          show undirected (k1.2, k1.1) = x
          rw [undirected_swap]
          exact hx
  rw [← himg]
  symm
  apply Finset.card_image_of_injOn
  intro j1 hj1 j2 hj2 hg
  simp only [Finset.coe_filter, Finset.mem_range, Set.mem_setOf_eq] at hj1 hj2
  obtain ⟨k1, hk1, ht1⟩ := (hem j1).mp hj1.2
  obtain ⟨k2, hk2, ht2⟩ := (hem j2).mp hj2.2
  simp only [hk1, hk2, Option.getD_some] at hg
  rcases undirected_eq k1 k2 hg with h | h
  · subst h
    exact getElem?_inj_of_nodup _ hnd j1 j2 _ hk1 hk2
  · by_contra hne
    have hk2' : (edgeKeys fs)[j2]? = some (k1.2, k1.1) := by
      rw [hk2, h]
    have h12 := (buildState_twinAt_iff ps fs hnd j1 j2).mpr ⟨hne, k1, hk1, hk2'⟩
    have h21 := (buildState_twinAt_iff ps fs hnd j2 j1).mpr
      ⟨fun h => hne h.symm, (k1.2, k1.1), hk2', hk1⟩
    have a1 := ht1 j2 h12
    have a2 := ht2 j1 h21
    have : addr j1 = addr j2 := by omega
    exact hne (haddr this)

/-- C11: when no ordered vertex pair occurs on more than one half-edge of a validated
triangle list, `buildEdgeIndexArray` pushes exactly one index pair for every distinct
unordered vertex pair used by the triangles, and nothing else, whatever the order of
the half-edge addresses is. -/
theorem buildEdgeIndexArray_one_pair_per_edge (pv : List Char → Vec3 F) (self : Hedge F)
    (file : Option (List Char)) (ps : List (Vec3 F)) (fs : List FaceIndex)
    (hp : parseOBJ pv file = some (ps, fs)) (hv : fs.all (validFace ps.length) = true)
    (hnd : (edgeKeys fs).Nodup) (addr : Nat → Nat) (haddr : Function.Injective addr) :
    EachEdgeOnce fs ((Hedge.loadFromOBJ pv self file).2.buildEdgeIndexArray addr) ∧
    (∀ p ∈ pairsOf ((Hedge.loadFromOBJ pv self file).2.buildEdgeIndexArray addr),
      ∃ k ∈ edgeKeys fs, p = (castU k.1, castU k.2)) ∧
    (pairsOf ((Hedge.loadFromOBJ pv self file).2.buildEdgeIndexArray addr)).length
      = (distinctEdges fs).length := by
  rw [loadFromOBJ_of_valid pv self file ps fs hp hv]
  have hval := all_validFace _ _ hv
  have hsm := parseOBJ_small pv file ps fs hp
  refine ⟨?_, ?_, ?_⟩
  · exact buildState_eachEdgeOnce ps fs
      (fun t ht => ⟨⟨(hval t ht).1.1, (hval t ht).2.1.1, (hval t ht).2.2.1⟩, hsm t ht⟩)
      hnd addr haddr
  · intro p hp
    change p ∈ pairsOf (edgeIndexLoop addr 0 (buildState ps fs).edges) at hp
    rw [pairsOf_edgeIndexLoop] at hp
    obtain ⟨h, hh, hph⟩ := emitPairs_mem addr 0 _ p hp
    exact ⟨(h.fromIndex, h.toIndex), buildState_edge_key_mem ps fs h hh, hph⟩
  · show (pairsOf (edgeIndexLoop addr 0 (buildState ps fs).edges)).length = _
    rw [pairsOf_edgeIndexLoop]
    exact buildState_emitted_count ps fs hnd addr haddr

/-- The two scenarios of C11, with the half-edges laid out in reverse allocation order:
the square gives five pairs, the pair of `1` and `2` once; the single triangle gives
three pairs and none of its half-edges has a twin. -/
theorem buildEdgeIndexArray_one_pair_per_edge_witness :
    (EachEdgeOnce [⟨0, 1, 2⟩, ⟨1, 3, 2⟩]
        ((Hedge.loadFromOBJ samplePos {} (some squareFile)).2.buildEdgeIndexArray reverseAddr) ∧
      (∀ p ∈ pairsOf
          ((Hedge.loadFromOBJ samplePos {} (some squareFile)).2.buildEdgeIndexArray reverseAddr),
        ∃ k ∈ edgeKeys [⟨0, 1, 2⟩, ⟨1, 3, 2⟩], p = (castU k.1, castU k.2)) ∧
      (pairsOf ((Hedge.loadFromOBJ samplePos {} (some squareFile)).2.buildEdgeIndexArray
          reverseAddr)).length = (distinctEdges [⟨0, 1, 2⟩, ⟨1, 3, 2⟩]).length) ∧
    (distinctEdges [⟨0, 1, 2⟩, ⟨1, 3, 2⟩]).length = 5 ∧
    (pairsOf ((Hedge.loadFromOBJ samplePos {} (some squareFile)).2.buildEdgeIndexArray
        reverseAddr)).countP (fun p => decide (p = (1, 2) ∨ p = (2, 1))) = 1 ∧
    (pairsOf ((Hedge.loadFromOBJ samplePos {} (some triangleFile)).2.buildEdgeIndexArray
        reverseAddr)).length = (distinctEdges [⟨0, 1, 2⟩]).length ∧
    (distinctEdges [⟨0, 1, 2⟩]).length = 3 ∧
    (Hedge.loadFromOBJ samplePos {} (some triangleFile)).2.edges.map (fun h => h.twin)
      = [none, none, none] :=
  ⟨buildEdgeIndexArray_one_pair_per_edge samplePos {} (some squareFile)
      [⟨6, 0, 0⟩, ⟨6, 0, 0⟩, ⟨6, 0, 0⟩, ⟨6, 0, 0⟩] [⟨0, 1, 2⟩, ⟨1, 3, 2⟩] (by decide) (by decide)
      (by decide) reverseAddr reverseAddr_injective,
    by decide, by decide,
    (buildEdgeIndexArray_one_pair_per_edge samplePos {} (some triangleFile)
      [⟨6, 0, 0⟩, ⟨6, 0, 0⟩, ⟨6, 0, 0⟩] [⟨0, 1, 2⟩] (by decide) (by decide)
      (by decide) reverseAddr reverseAddr_injective).2.2,
    by decide, by decide⟩

theorem validFace_false_of_outOfRange (n : Nat) (t : FaceIndex) (h : t.OutOfRange n) :
    validFace n t = false := by
  rw [← Bool.not_eq_true, validFace_iff]
  unfold FaceIndex.OutOfRange at h
  have := castI_le n
  omega

theorem validFace_false_iff (n : Nat) (hn : n ≤ 2147483647) (t : FaceIndex) :
    validFace n t = false ↔ t.OutOfRange n := by
  rw [← Bool.not_eq_true, validFace_iff, castI_of_le n hn]
  unfold FaceIndex.OutOfRange
  omega

theorem loadFromOBJ_result (pv : List Char → Vec3 F) (self : Hedge F)
    (file : Option (List Char)) (ps : List (Vec3 F)) (fs : List FaceIndex)
    (hp : parseOBJ pv file = some (ps, fs)) :
    Hedge.loadFromOBJ pv self file =
      if fs.all (validFace ps.length) = true then (LoadResult.returned true, buildMesh ps fs)
      else (LoadResult.returned false, { vertices := [], faces := [], edges := [] }) := by
  unfold Hedge.loadFromOBJ
  simp only [hp]
  rfl

theorem all_validFace_inRange (n : Nat) (fs : List FaceIndex)
    (h : fs.all (validFace n) = true) : ∀ t ∈ fs, ¬ t.OutOfRange n := by
  rw [List.all_eq_true] at h
  intro t ht hout
  have := validFace_false_of_outOfRange n t hout
  rw [h t ht] at this
  cases this

theorem all_validFace_iff (n : Nat) (hn : n ≤ 2147483647) (fs : List FaceIndex) :
    fs.all (validFace n) = true ↔ ∀ t ∈ fs, ¬ t.OutOfRange n := by
  constructor
  · exact all_validFace_inRange n fs
  · intro h
    rw [List.all_eq_true]
    intro t ht
    cases hvt : validFace n t with
    | true => rfl
    | false => exact absurd ((validFace_false_iff n hn t).mp hvt) (h t ht)

/-- C12, amended: when the face references of an input parse and the number `N` of
position records of the whole file is at most `2^31 - 1`, `loadFromOBJ` returns false
exactly when some parsed triangle has an index that is negative or not below `N`, and
returns true otherwise; nothing else (duplicate triangles, duplicate directed edges,
repeated indices) makes it fail. -/
theorem loadFromOBJ_false_iff (pv : List Char → Vec3 F) (self : Hedge F)
    (file : Option (List Char)) (ps : List (Vec3 F)) (fs : List FaceIndex)
    (hp : parseOBJ pv file = some (ps, fs))
    (hN : (vRecords pv file).length ≤ 2147483647) :
    ((Hedge.loadFromOBJ pv self file).1 = LoadResult.returned false ↔
      ∃ t ∈ fs, t.OutOfRange (vRecords pv file).length) ∧
    ((Hedge.loadFromOBJ pv self file).1 = LoadResult.returned true ↔
      ∀ t ∈ fs, ¬ t.OutOfRange (vRecords pv file).length) := by
  rw [← parseOBJ_positions pv file ps fs hp] at hN
  rw [loadFromOBJ_result pv self file ps fs hp, ← parseOBJ_positions pv file ps fs hp]
  by_cases hv : fs.all (validFace ps.length) = true
  · have hall := (all_validFace_iff _ hN _).mp hv
    rw [if_pos hv]
    show (LoadResult.returned true = LoadResult.returned false ↔ _) ∧
      (LoadResult.returned true = LoadResult.returned true ↔ _)
    constructor
    · constructor
      · intro h; cases h
      · rintro ⟨t, ht, hout⟩
        exact absurd hout (hall t ht)
    · exact ⟨fun _ => hall, fun _ => rfl⟩
  · have hnall : ¬ ∀ t ∈ fs, ¬ t.OutOfRange ps.length :=
      fun h => hv ((all_validFace_iff _ hN _).mpr h)
    rw [if_neg hv]
    show (LoadResult.returned false = LoadResult.returned false ↔ _) ∧
      (LoadResult.returned false = LoadResult.returned true ↔ _)
    constructor
    · constructor
      · intro _
        by_contra hcon
        exact hnall (fun t ht hout => hcon ⟨t, ht, hout⟩)
      · intro _; rfl
    · constructor
      · intro h; cases h
      · intro h; exact absurd h hnall

/-- The scenarios of C12: a face may refer to positions declared later, and degenerate or
duplicated triangles load. -/
theorem loadFromOBJ_false_iff_witness :
    (((Hedge.loadFromOBJ samplePos {} (some lateFile)).1 = LoadResult.returned false ↔
        ∃ t ∈ [(⟨0, 1, 2⟩ : FaceIndex)], t.OutOfRange (vRecords samplePos (some lateFile)).length) ∧
      ((Hedge.loadFromOBJ samplePos {} (some lateFile)).1 = LoadResult.returned true ↔
        ∀ t ∈ [(⟨0, 1, 2⟩ : FaceIndex)],
          ¬ t.OutOfRange (vRecords samplePos (some lateFile)).length)) ∧
    (Hedge.loadFromOBJ samplePos {} (some lateFile)).1 = LoadResult.returned true ∧
    (Hedge.loadFromOBJ samplePos {} (some foldedFile)).1 = LoadResult.returned true ∧
    (Hedge.loadFromOBJ samplePos {} (some rangeFile)).1 = LoadResult.returned false :=
  ⟨loadFromOBJ_false_iff samplePos {} (some lateFile) [⟨6, 0, 0⟩, ⟨6, 0, 0⟩, ⟨6, 0, 0⟩]
      [⟨0, 1, 2⟩] (by decide) (by decide), by decide, by decide, by decide⟩

/-- C13, amended: a load whose input has a face index that is not below the vertex count
returns failure and leaves the object with an empty mesh; the mesh held before the call
is discarded, so the state is what it was only when the object was empty. -/
theorem loadFromOBJ_failure_clears (pv : List Char → Vec3 F) (self : Hedge F)
    (file : Option (List Char)) (ps : List (Vec3 F)) (fs : List FaceIndex)
    (hp : parseOBJ pv file = some (ps, fs))
    (hbad : ∃ t ∈ fs, (ps.length : Int) ≤ t.v0 ∨ (ps.length : Int) ≤ t.v1 ∨
      (ps.length : Int) ≤ t.v2) :
    (Hedge.loadFromOBJ pv self file).1 = LoadResult.returned false ∧
    (Hedge.loadFromOBJ pv self file).2.vertices = [] ∧
    (Hedge.loadFromOBJ pv self file).2.faces = [] ∧
    (Hedge.loadFromOBJ pv self file).2.edges = [] ∧
    ((Hedge.loadFromOBJ pv self file).2 = self ↔
      self = { vertices := [], faces := [], edges := [] }) := by
  rw [loadFromOBJ_result pv self file ps fs hp]
  have hv : ¬ fs.all (validFace ps.length) = true := by
    intro hv
    obtain ⟨t, ht, hout⟩ := hbad
    exact all_validFace_inRange _ _ hv t ht (by unfold FaceIndex.OutOfRange; omega)
  rw [if_neg hv]
  exact ⟨rfl, rfl, rfl, rfl, eq_comm⟩

theorem loadFromOBJ_failure_clears_witness :
    (Hedge.loadFromOBJ samplePos (Hedge.loadFromOBJ samplePos {} (some squareFile)).2
        (some rangeFile)).1 = LoadResult.returned false ∧
    (Hedge.loadFromOBJ samplePos (Hedge.loadFromOBJ samplePos {} (some squareFile)).2
        (some rangeFile)).2.vertices = [] ∧
    (Hedge.loadFromOBJ samplePos (Hedge.loadFromOBJ samplePos {} (some squareFile)).2
        (some rangeFile)).2.faces = [] ∧
    (Hedge.loadFromOBJ samplePos (Hedge.loadFromOBJ samplePos {} (some squareFile)).2
        (some rangeFile)).2.edges = [] ∧
    ((Hedge.loadFromOBJ samplePos (Hedge.loadFromOBJ samplePos {} (some squareFile)).2
        (some rangeFile)).2 = (Hedge.loadFromOBJ samplePos {} (some squareFile)).2 ↔
      (Hedge.loadFromOBJ samplePos {} (some squareFile)).2
        = { vertices := [], faces := [], edges := [] }) :=
  loadFromOBJ_failure_clears samplePos _ (some rangeFile) [⟨6, 0, 0⟩, ⟨6, 0, 0⟩, ⟨6, 0, 0⟩]
    [⟨0, 1, 4⟩] (by decide) ⟨⟨0, 1, 4⟩, by decide, by decide⟩

/-- C13 as stated fails: an object that holds the square mesh and loads three positions
with the face `1 2 5` gets failure, and its four vertices, two faces and six half-edges
are gone. -/
theorem loadFromOBJ_failure_not_atomic :
    (Hedge.loadFromOBJ samplePos {} (some squareFile)).2.vertices.length = 4 ∧
    (Hedge.loadFromOBJ samplePos {} (some squareFile)).2.faces.length = 2 ∧
    (Hedge.loadFromOBJ samplePos {} (some squareFile)).2.edges.length = 6 ∧
    (Hedge.loadFromOBJ samplePos (Hedge.loadFromOBJ samplePos {} (some squareFile)).2
        (some rangeFile)).1 = LoadResult.returned false ∧
    (Hedge.loadFromOBJ samplePos (Hedge.loadFromOBJ samplePos {} (some squareFile)).2
        (some rangeFile)).2 ≠ (Hedge.loadFromOBJ samplePos {} (some squareFile)).2 := by
  decide

/-- C14, amended: when the file cannot be opened, `loadFromOBJ` discards the mesh held by
the object: the object is left as `clear` leaves it, with the build phase pushing
nothing, so its vertices, faces and half-edges are empty afterwards. -/
theorem loadFromOBJ_unopened_clears (pv : List Char → Vec3 F) (self : Hedge F) :
    (Hedge.loadFromOBJ pv self none).2 = self.clear ∧
    (Hedge.loadFromOBJ pv self none).2 = { vertices := [], faces := [], edges := [] } := by
  have h : (Hedge.loadFromOBJ pv self none).2 = self.clear.build [] [] := rfl
  rw [h, build_clear]
  exact ⟨rfl, rfl⟩

/-- C14 as stated fails: on a file that cannot be opened, an object that holds the square
mesh gets the result `true`, and its mesh is gone. -/
theorem loadFromOBJ_unopened_returns_true :
    (Hedge.loadFromOBJ samplePos (Hedge.loadFromOBJ samplePos {} (some squareFile)).2 none).1
      = LoadResult.returned true ∧
    (Hedge.loadFromOBJ samplePos (Hedge.loadFromOBJ samplePos {} (some squareFile)).2 none).2
      ≠ (Hedge.loadFromOBJ samplePos {} (some squareFile)).2 := by
  decide

theorem loadFromOBJ_self_indep (pv : List Char → Vec3 F) (self other : Hedge F)
    (file : Option (List Char)) :
    Hedge.loadFromOBJ pv self file = Hedge.loadFromOBJ pv other file := by
  have hc : self.clear = other.clear := rfl
  unfold Hedge.loadFromOBJ
  rw [hc]

theorem buildMesh_wellLinked (ps : List (Vec3 F)) (fs : List FaceIndex)
    (hv : fs.all (validFace ps.length) = true) : (buildMesh ps fs).WellLinked := by
  have hval := all_validFace _ _ hv
  have helen := buildState_edges_length ps fs
  have hvlen := buildState_vertices_length ps fs
  have hflen : (buildState ps fs).faces.length = fs.length := by
    rw [buildState_faces, faceList_length]
  refine ⟨?_, ?_, ?_⟩
  · intro h hh
    change h ∈ (buildState ps fs).edges at hh
    show (∃ v, h.vert = some v ∧ v < (buildState ps fs).vertices.length) ∧
      (∃ f, h.face = some f ∧ f < (buildState ps fs).faces.length) ∧
      (∃ e, h.next = some e ∧ e < (buildState ps fs).edges.length) ∧
      (∃ e, h.prev = some e ∧ e < (buildState ps fs).edges.length) ∧
      (∀ t, h.twin = some t → t < (buildState ps fs).edges.length)
    obtain ⟨i, hi⟩ := List.getElem?_of_mem hh
    have hilt : i < 3 * fs.length := by
      rw [← helen]; exact (List.getElem?_eq_some_iff.mp hi).1
    have hklt : i / 3 < fs.length := by omega
    have hfk : fs[i / 3]? = some fs[i / 3] := List.getElem?_eq_getElem hklt
    have hi3 : 3 * (i / 3) + i % 3 = i := by omega
    have hstrip := buildState_edge_strip ps fs (i / 3) (i % 3) _ hfk (by omega)
    rw [hi3] at hstrip
    obtain ⟨⟨a0, a1⟩, ⟨b0, b1⟩, c0, c1⟩ := hval _ (List.getElem_mem hklt)
    have htwin : ∀ t, h.twin = some t → t < (buildState ps fs).edges.length := by
      intro t ht
      obtain ⟨k, -, hk2⟩ := (buildState_twinKeyInv ps fs).2 i t (by simp [twinAt, hi, ht])
      exact keyAt_lt _ _ _ hk2
    have hj : i % 3 = 0 ∨ i % 3 = 1 ∨ i % 3 = 2 := by omega
    rcases hj with hj | hj | hj <;> rw [hj] at hstrip <;>
      simp only [triEdges, List.getElem?_cons_zero, List.getElem?_cons_succ] at hstrip <;>
      obtain ⟨e, he, h1, h2, h3, h4, -, -⟩ := strip_fields _ _ _ hstrip <;>
      rw [hi] at he <;> cases he <;>
      refine ⟨?_, ⟨_, h2, by omega⟩, ⟨_, h3, by omega⟩, ⟨_, h4, by omega⟩, htwin⟩ <;>
      rw [h1] <;> unfold vertexPtr
    · exact ⟨_, by rw [if_neg (by omega)], by omega⟩
    · exact ⟨_, by rw [if_neg (by omega)], by omega⟩
    · exact ⟨_, by rw [if_neg (by omega)], by omega⟩
  · intro v hvm e he
    change v ∈ (buildState ps fs).vertices at hvm
    show e < (buildState ps fs).edges.length
    obtain ⟨i, hi⟩ := List.getElem?_of_mem hvm
    have hinv := buildState_vertexEdgeInv ps fs i v hi
    rw [he, firstFrom_map_strip] at hinv
    obtain ⟨g, hg, -, -⟩ := firstFrom_some _ _ e hinv.symm
    exact (List.getElem?_eq_some_iff.mp hg).1
  · intro f hf
    change f ∈ (buildState ps fs).faces at hf
    show ∃ e, f.edge = some e ∧ e < (buildState ps fs).edges.length
    rw [buildState_faces] at hf
    obtain ⟨k, hk⟩ := List.getElem?_of_mem hf
    have hklt : k < fs.length := by
      have := (List.getElem?_eq_some_iff.mp hk).1
      rwa [faceList_length] at this
    rw [faceList_getElem? 0 fs k _ (List.getElem?_eq_getElem hklt)] at hk
    cases hk
    exact ⟨_, rfl, by omega⟩

theorem wellLinked_freshSince (old m : Hedge F) (hm : m.WellLinked)
    (hv : old.vertices.length = 0) (hf : old.faces.length = 0) (he : old.edges.length = 0) :
    m.FreshSince old := by
  obtain ⟨h1, h2, h3⟩ := hm
  rw [Hedge.FreshSince, hv, hf, he]
  refine ⟨?_, ?_, ?_⟩
  · intro i h _ hi
    obtain ⟨⟨v, a1, a2⟩, ⟨f, b1, b2⟩, ⟨e, c1, c2⟩, ⟨e2, d1, d2⟩, ht⟩ :=
      h1 h (List.getElem?_mem hi)
    exact ⟨⟨v, a1, Nat.zero_le _, a2⟩, ⟨f, b1, Nat.zero_le _, b2⟩, ⟨e, c1, Nat.zero_le _, c2⟩,
      ⟨e2, d1, Nat.zero_le _, d2⟩, fun t htw => ⟨Nat.zero_le _, ht t htw⟩⟩
  · intro i v _ hi e hve
    exact ⟨Nat.zero_le _, h2 v (List.getElem?_mem hi) e hve⟩
  · intro i f _ hi
    obtain ⟨e, a1, a2⟩ := h3 f (List.getElem?_mem hi)
    exact ⟨e, a1, Nat.zero_le _, a2⟩

/-- Without `clear` the build phase would refer to the old entities: built on top of an
object that still holds a triangle, the first new half-edge points to an old vertex. -/
theorem build_on_kept_mesh_not_fresh :
    ¬ ((buildMesh [(⟨0, 0, 0⟩ : Vec3 Nat), ⟨1, 0, 0⟩, ⟨2, 0, 0⟩] [⟨0, 1, 2⟩]).build
        [⟨3, 0, 0⟩, ⟨4, 0, 0⟩, ⟨5, 0, 0⟩] [⟨0, 1, 2⟩]).FreshSince
      (buildMesh [(⟨0, 0, 0⟩ : Vec3 Nat), ⟨1, 0, 0⟩, ⟨2, 0, 0⟩] [⟨0, 1, 2⟩]) := by
  intro h
  obtain ⟨⟨v, hv, hle, -⟩, -⟩ := h.1 3
    { vert := some 1, face := some 1, next := some 4, prev := some 5, twin := none,
      fromIndex := 0, toIndex := 1 } (by decide) (by decide)
  have hv1 : v = 1 := (Option.some.inj hv).symm
  subst hv1
  revert hle
  decide

/-- C15: a load that succeeds yields the same mesh whatever the object held before, in
particular after an earlier load of any other input; `clear` has released every entity
of the earlier mesh before the build starts, and every pointer of the result points to
an entity pushed by this load. -/
theorem loadFromOBJ_reload (pv : List Char → Vec3 F) (self : Hedge F)
    (fileA fileB : Option (List Char))
    (hB : (Hedge.loadFromOBJ pv {} fileB).1 = LoadResult.returned true) :
    Hedge.loadFromOBJ pv (Hedge.loadFromOBJ pv self fileA).2 fileB
      = Hedge.loadFromOBJ pv {} fileB ∧
    (Hedge.loadFromOBJ pv self fileA).2.clear = { vertices := [], faces := [], edges := [] } ∧
    (Hedge.loadFromOBJ pv (Hedge.loadFromOBJ pv self fileA).2 fileB).2.FreshSince
      (Hedge.loadFromOBJ pv self fileA).2.clear ∧
    (Hedge.loadFromOBJ pv (Hedge.loadFromOBJ pv self fileA).2 fileB).2.WellLinked := by
  obtain ⟨ps, fs, -, hv, hm⟩ := loadFromOBJ_true_inv pv {} fileB hB
  have hw : (Hedge.loadFromOBJ pv (Hedge.loadFromOBJ pv self fileA).2 fileB).2.WellLinked := by
    rw [loadFromOBJ_self_indep pv _ {} fileB, hm]
    exact buildMesh_wellLinked ps fs hv
  exact ⟨loadFromOBJ_self_indep pv _ {} fileB, rfl,
    wellLinked_freshSince _ _ hw rfl rfl rfl, hw⟩

theorem loadFromOBJ_reload_witness :
    Hedge.loadFromOBJ samplePos (Hedge.loadFromOBJ samplePos {} (some squareFile)).2
        (some tetraFile) = Hedge.loadFromOBJ samplePos {} (some tetraFile) ∧
    (Hedge.loadFromOBJ samplePos {} (some squareFile)).2.clear
      = { vertices := [], faces := [], edges := [] } ∧
    (Hedge.loadFromOBJ samplePos (Hedge.loadFromOBJ samplePos {} (some squareFile)).2
        (some tetraFile)).2.FreshSince (Hedge.loadFromOBJ samplePos {} (some squareFile)).2.clear ∧
    (Hedge.loadFromOBJ samplePos (Hedge.loadFromOBJ samplePos {} (some squareFile)).2
        (some tetraFile)).2.WellLinked :=
  loadFromOBJ_reload samplePos {} (some squareFile) (some tetraFile) (by decide)

theorem isSpace_cases (c : Char) (h : isSpace c = true) :
    c = ' ' ∨ c = '\t' ∨ c = '\n' ∨ c = '\r' ∨ c = Char.ofNat 11 ∨ c = Char.ofNat 12 := by
  unfold isSpace at h
  simp only [Bool.or_eq_true, decide_eq_true_eq] at h
  tauto

theorem isSpace_of_isDigit (c : Char) (h : c.isDigit = true) : isSpace c = false := by
  cases hs : isSpace c with
  | false => rfl
  | true =>
    exfalso
    rcases isSpace_cases c hs with h1 | h1 | h1 | h1 | h1 | h1 <;> subst h1 <;> revert h <;> decide

theorem ne_slash_of_isDigit (c : Char) (h : c.isDigit = true) : c ≠ '/' := by
  intro h1; subst h1; revert h; decide

theorem ne_minus_of_isDigit (c : Char) (h : c.isDigit = true) : c ≠ '-' := by
  intro h1; subst h1; revert h; decide

theorem ne_plus_of_isDigit (c : Char) (h : c.isDigit = true) : c ≠ '+' := by
  intro h1; subst h1; revert h; decide

theorem takeWhile_delimited (r : List Char) (hr : Delimited r) :
    r.takeWhile (fun c => !isSpace c) = [] ∧ r.dropWhile (fun c => !isSpace c) = r := by
  cases r with
  | nil => exact ⟨rfl, rfl⟩
  | cons c r =>
    have hc : isSpace c = true := hr c rfl
    constructor
    · rw [List.takeWhile_cons_of_neg (by simp [hc])]
    · rw [List.dropWhile_cons_of_neg (by simp [hc])]

theorem readToken_token (ws t r : List Char) (hws : AllSpace ws) (ht : Token t)
    (hr : Delimited r) : readToken (ws ++ (t ++ r)) = (t, r) := by
  obtain ⟨hne, hns⟩ := ht
  unfold readToken
  have h1 : (ws ++ (t ++ r)).dropWhile isSpace = t ++ r := by
    rw [List.dropWhile_append_of_pos hws]
    cases t with
    | nil => exact absurd rfl hne
    | cons c t =>
      have hc : isSpace c = false := hns c (List.mem_cons_self _ _)
      rw [List.cons_append, List.dropWhile_cons_of_neg (by simp [hc])]
  have hns' : ∀ c ∈ t, (fun c => !isSpace c) c = true := by
    intro c hc
    simp [hns c hc]
  simp only [h1]
  rw [List.takeWhile_append_of_pos hns', List.dropWhile_append_of_pos hns',
    (takeWhile_delimited r hr).1, (takeWhile_delimited r hr).2, List.append_nil]

theorem readToken_blank (ws : List Char) (hws : AllSpace ws) : readToken ws = ([], []) := by
  unfold readToken
  have h1 : ws.dropWhile isSpace = [] := by
    have h : (ws ++ []).dropWhile isSpace = ([] : List Char).dropWhile isSpace :=
      List.dropWhile_append_of_pos hws
    simpa using h
  simp only [h1]
  rfl

theorem delimited_of_blank_append (ws r : List Char) (h : Blank ws) : Delimited (ws ++ r) := by
  obtain ⟨hne, hall⟩ := h
  cases ws with
  | nil => exact absurd rfl hne
  | cons c ws =>
    intro d hd
    simp only [List.cons_append, List.head?_cons, Option.some.injEq] at hd
    subst hd
    exact hall _ (List.mem_cons_self _ _)

theorem delimited_of_allSpace (ws : List Char) (h : AllSpace ws) : Delimited ws := by
  intro c hc
  cases ws with
  | nil => cases hc
  | cons d ws =>
    simp only [List.head?_cons, Option.some.injEq] at hc
    subst hc
    exact h _ (List.mem_cons_self _ _)

theorem readFaceIdx_token (n : Nat) (ws t r : List Char) (hws : AllSpace ws) (ht : Token t)
    (hr : Delimited r) :
    readFaceIdx (n + 1) (ws ++ (t ++ r)) =
      match stoi (beforeSlash t) with
      | none => none
      | some v =>
        match readFaceIdx n r with
        | none => none
        | some vs => some ((v - 1) :: vs) := by
  rw [readFaceIdx]
  simp only [readToken_token ws t r hws ht hr, if_neg ht.1]
  rfl

theorem readFaceIdx_blank (n : Nat) (ws : List Char) (hws : AllSpace ws) :
    readFaceIdx (n + 1) ws = some [] := by
  rw [readFaceIdx]
  simp only [readToken_blank ws hws, if_true]

theorem parseLine_face (pv : List Char → Vec3 F) (acc : List (Vec3 F) × List FaceIndex)
    (ws0 body : List Char) (h0 : AllSpace ws0) (hb : Delimited body) :
    parseLine pv acc (ws0 ++ 'f' :: body) =
      match readFaceIdx 3 body with
      | none => none
      | some [i0, i1, i2] => some (acc.1, acc.2 ++ [{ v0 := i0, v1 := i1, v2 := i2 }])
      | some _ => some acc := by
  have htok : readToken (ws0 ++ (['f'] ++ body)) = (['f'], body) :=
    readToken_token ws0 ['f'] body h0 ⟨by simp, by decide⟩ hb
  simp only [List.singleton_append] at htok
  have hne : (['f'] : List Char) ≠ ['v'] := by decide
  unfold parseLine
  simp only [htok, hne, if_false, if_true]

theorem parseLine_other (pv : List Char → Vec3 F) (acc : List (Vec3 F) × List FaceIndex)
    (l : List Char) (h : isRecordLine l = false) : parseLine pv acc l = some acc := by
  unfold isRecordLine at h
  simp only [Bool.or_eq_false_iff, decide_eq_false_iff_not] at h
  unfold parseLine
  simp only [h.1, h.2, if_false]

theorem parseLines_append (pv : List Char → Vec3 F) (l1 l2 : List (List Char))
    (acc : List (Vec3 F) × List FaceIndex) :
    parseLines pv acc (l1 ++ l2) =
      match parseLines pv acc l1 with
      | none => none
      | some a => parseLines pv a l2 := by
  induction l1 generalizing acc with
  | nil => rfl
  | cons l ls ih =>
    show parseLines pv acc (l :: (ls ++ l2)) = _
    rw [parseLines, parseLines]
    cases parseLine pv acc l with
    | none => rfl
    | some a => exact ih a

theorem parseLines_remove (pv : List Char → Vec3 F) (ls1 ls2 : List (List Char))
    (l : List Char) (h : ∀ acc, parseLine pv acc l = some acc)
    (acc : List (Vec3 F) × List FaceIndex) :
    parseLines pv acc (ls1 ++ l :: ls2) = parseLines pv acc (ls1 ++ ls2) := by
  rw [parseLines_append, parseLines_append]
  cases parseLines pv acc ls1 with
  | none => rfl
  | some a =>
    show parseLines pv a (l :: ls2) = parseLines pv a ls2
    rw [parseLines, h a]

theorem parseLines_throw (pv : List Char → Vec3 F) (ls1 ls2 : List (List Char))
    (l : List Char) (h : ∀ acc, parseLine pv acc l = none)
    (acc : List (Vec3 F) × List FaceIndex) :
    parseLines pv acc (ls1 ++ l :: ls2) = none := by
  rw [parseLines_append]
  cases parseLines pv acc ls1 with
  | none => rfl
  | some a =>
    show parseLines pv a (l :: ls2) = none
    rw [parseLines, h a]

theorem parseLines_filter (pv : List Char → Vec3 F) (ls : List (List Char))
    (acc : List (Vec3 F) × List FaceIndex) :
    parseLines pv acc ls = parseLines pv acc (ls.filter isRecordLine) := by
  induction ls generalizing acc with
  | nil => rfl
  | cons l ls ih =>
    cases hl : isRecordLine l with
    | true =>
      rw [List.filter_cons_of_pos hl, parseLines, parseLines]
      cases parseLine pv acc l with
      | none => rfl
      | some a => exact ih a
    | false =>
      rw [List.filter_cons_of_neg (by simp [hl]), parseLines, parseLine_other pv acc l hl]
      exact ih acc

theorem loadFromOBJ_congr (pv : List Char → Vec3 F) (self : Hedge F)
    (f1 f2 : Option (List Char)) (h : parseOBJ pv f1 = parseOBJ pv f2) :
    Hedge.loadFromOBJ pv self f1 = Hedge.loadFromOBJ pv self f2 := by
  unfold Hedge.loadFromOBJ
  rw [h]

theorem loadFromOBJ_of_lines (pv : List Char → Vec3 F) (self : Hedge F) (cs cs2 : List Char)
    (h : parseLines pv ([], []) (getLines cs) = parseLines pv ([], []) (getLines cs2)) :
    Hedge.loadFromOBJ pv self (some cs) = Hedge.loadFromOBJ pv self (some cs2) :=
  loadFromOBJ_congr pv self _ _ h

theorem stoi_numeral (d s : List Char) (v : Int) (hd : IsNumeral d v) (hs : IsAttrSuffix s) :
    stoi (beforeSlash (d ++ s)) = some v := by
  obtain ⟨sg, ds, hdeq, hsg, hne, hdig, hv, hlo, hhi⟩ := hd
  obtain ⟨hshape, -⟩ := hs
  subst hdeq
  -- the part before the slash is the numeral
  have hsgns : ∀ c ∈ sg, c ≠ '/' := by
    rcases hsg with h | h | h <;> subst h <;> decide
  have hcut : beforeSlash (sg ++ ds ++ s) = sg ++ ds := by
    unfold beforeSlash
    have hall : ∀ c ∈ sg ++ ds, (fun c => decide (c ≠ '/')) c = true := by
      intro c hc
      rcases List.mem_append.mp hc with hc | hc
      · simpa using hsgns c hc
      · simpa using ne_slash_of_isDigit c (hdig c hc)
    rw [List.takeWhile_append_of_pos hall]
    rcases hshape with h | ⟨r, h⟩
    · subst h; simp
    · subst h
      rw [List.takeWhile_cons_of_neg (by simp)]
      simp
  rw [hcut]
  have hdsTake : ds.takeWhile Char.isDigit = ds := List.takeWhile_eq_self_iff.mpr hdig
  have hfit : fitInt v = some v := by
    unfold fitInt
    rw [if_neg (by omega)]
  cases ds with
  | nil => exact absurd rfl hne
  | cons c cs =>
    have hcd := hdig c (List.mem_cons_self _ _)
    have hcsp : isSpace c = false := isSpace_of_isDigit c hcd
    rcases hsg with h | h | h <;> subst h
    · -- no sign
      have hdrop : (c :: cs).dropWhile isSpace = c :: cs :=
        List.dropWhile_cons_of_neg (by simp [hcsp])
      unfold stoi
      simp only [List.nil_append, hdrop]
      have hm : (match c :: cs with
          | '-' :: r => (true, r)
          | '+' :: r => (false, r)
          | _ => (false, c :: cs)) = (false, c :: cs) := by
        split
        · rename_i r heq
          exact absurd (List.cons.inj heq).1 (ne_minus_of_isDigit c hcd)
        · rename_i r heq
          exact absurd (List.cons.inj heq).1 (ne_plus_of_isDigit c hcd)
        · rfl
      simp only [hm, hdsTake]
      rw [if_neg (by simp)]
      simp only [Bool.false_eq_true, if_false] at hv ⊢
      have : v = (digitsValue (c :: cs) : Int) := by simpa using hv
      rw [this] at hfit
      exact hfit.trans (by rw [this])
    · -- minus sign
      unfold stoi
      have hdrop : (['-'] ++ c :: cs).dropWhile isSpace = '-' :: c :: cs :=
        List.dropWhile_cons_of_neg (by decide)
      simp only [hdrop, hdsTake]
      rw [if_neg (by simp)]
      simp only [if_true] at hv ⊢
      rw [hv] at hfit
      exact hfit.trans (by rw [hv])
    · -- plus sign
      unfold stoi
      have hdrop : (['+'] ++ c :: cs).dropWhile isSpace = '+' :: c :: cs :=
        List.dropWhile_cons_of_neg (by decide)
      simp only [hdrop, hdsTake]
      rw [if_neg (by simp)]
      have hvv : v = (digitsValue (c :: cs) : Int) := by
        rw [hv, if_neg (by decide)]
      simp only [Bool.false_eq_true, if_false]
      rw [hvv] at hfit
      exact hfit.trans (by rw [hvv])

theorem token_of_reference (d s : List Char) (v : Int) (hd : IsNumeral d v)
    (hs : IsAttrSuffix s) : Token (d ++ s) := by
  obtain ⟨sg, ds, hdeq, hsg, hne, hdig, -, -, -⟩ := hd
  obtain ⟨-, hsns⟩ := hs
  subst hdeq
  constructor
  · cases ds with
    | nil => exact absurd rfl hne
    | cons c cs => simp
  · intro c hc
    rcases List.mem_append.mp hc with hc | hc
    · rcases List.mem_append.mp hc with hc | hc
      · rcases hsg with h | h | h <;> subst h
        · cases hc
        · simp only [List.mem_singleton] at hc; subst hc; decide
        · simp only [List.mem_singleton] at hc; subst hc; decide
      · exact isSpace_of_isDigit c (hdig c hc)
    · exact hsns c hc

theorem blank_space : Blank [' '] := ⟨by decide, by unfold AllSpace; decide⟩

theorem allSpace_nil : AllSpace [] := by
  intro c hc
  cases hc

theorem numeral_one : IsNumeral ['1'] 1 :=
  ⟨[], ['1'], rfl, Or.inl rfl, by decide, by decide, by decide, by decide, by decide⟩

theorem numeral_two : IsNumeral ['2'] 2 :=
  ⟨[], ['2'], rfl, Or.inl rfl, by decide, by decide, by decide, by decide, by decide⟩

theorem token_of_chars (t : List Char) (hne : t ≠ [])
    (h : t.all (fun c => !isSpace c) = true) : Token t := by
  refine ⟨hne, ?_⟩
  intro c hc
  have := List.all_eq_true.mp h c hc
  simpa using this

theorem readFaceIdx_reference (n : Nat) (ws t r : List Char) (hws : AllSpace ws)
    (ht : IsReference t) (hr : Delimited r) :
    ∃ v : Int, readFaceIdx (n + 1) (ws ++ (t ++ r)) =
      match readFaceIdx n r with
      | none => none
      | some vs => some ((v - 1) :: vs) := by
  obtain ⟨d, s, v, rfl, hd, hs⟩ := ht
  refine ⟨v, ?_⟩
  rw [readFaceIdx_token n ws _ r hws (token_of_reference d s v hd hs) hr, stoi_numeral d s v hd hs]

/-- C18: a face line with zero, one or two references, each with a parseable integer,
leaves `tmpPositions` and `tmpFaces` as they are, and a load gives the same result as
the load of the input without that line. -/
theorem parseLine_short_face_dropped (pv : List Char → Vec3 F) (ws0 body : List Char)
    (h0 : AllSpace ws0) (hb : FewRefs body) :
    (∀ acc, parseLine pv acc (ws0 ++ 'f' :: body) = some acc) ∧
    (∀ (self : Hedge F) (cs cs2 : List Char) (ls1 ls2 : List (List Char)),
      getLines cs = ls1 ++ (ws0 ++ 'f' :: body) :: ls2 → getLines cs2 = ls1 ++ ls2 →
      Hedge.loadFromOBJ pv self (some cs) = Hedge.loadFromOBJ pv self (some cs2)) := by
  have hdrop : ∀ acc, parseLine pv acc (ws0 ++ 'f' :: body) = some acc := by
    intro acc
    rcases hb with hb | ⟨ws1, t1, w, rfl, h1, r1, hw⟩ | ⟨ws1, t1, ws2, t2, w, rfl, h1, r1, h2, r2, hw⟩
    · rw [parseLine_face pv acc ws0 body h0 (delimited_of_allSpace body hb),
        readFaceIdx_blank 2 body hb]
    · obtain ⟨v, hv⟩ := readFaceIdx_reference 2 ws1 t1 w h1.2 r1 (delimited_of_allSpace w hw)
      rw [parseLine_face pv acc ws0 _ h0 (delimited_of_blank_append _ _ h1), hv,
        readFaceIdx_blank 1 w hw]
    · obtain ⟨v2, hv2⟩ := readFaceIdx_reference 1 ws2 t2 w h2.2 r2 (delimited_of_allSpace w hw)
      obtain ⟨v1, hv1⟩ := readFaceIdx_reference 2 ws1 t1 (ws2 ++ (t2 ++ w)) h1.2 r1
        (delimited_of_blank_append _ _ h2)
      rw [parseLine_face pv acc ws0 _ h0 (delimited_of_blank_append _ _ h1), hv1, hv2,
        readFaceIdx_blank 0 w hw]
  refine ⟨hdrop, ?_⟩
  intro self cs cs2 ls1 ls2 hcs hcs2
  apply loadFromOBJ_of_lines
  rw [hcs, hcs2]
  exact parseLines_remove pv ls1 ls2 _ hdrop ([], [])

theorem parseLine_short_face_dropped_witness :
    (∀ acc, parseLine samplePos acc "f 1/5 2 ".toList = some acc) ∧
    (∀ (self : Hedge Nat) (cs cs2 : List Char) (ls1 ls2 : List (List Char)),
      getLines cs = ls1 ++ "f 1/5 2 ".toList :: ls2 → getLines cs2 = ls1 ++ ls2 →
      Hedge.loadFromOBJ samplePos self (some cs) = Hedge.loadFromOBJ samplePos self (some cs2)) :=
  parseLine_short_face_dropped samplePos [] ([' '] ++ (['1', '/', '5'] ++ ([' '] ++ (['2'] ++ [' ']))))
    allSpace_nil
    (Or.inr (Or.inr ⟨[' '], ['1', '/', '5'], [' '], ['2'], [' '], rfl, blank_space,
      ⟨['1'], ['/', '5'], 1, rfl, numeral_one, Or.inr ⟨_, rfl⟩, by decide⟩, blank_space,
      ⟨['2'], [], 2, rfl, numeral_two, Or.inl rfl, by decide⟩, blank_space.2⟩))

/-- C19: lines whose first token is neither `v` nor `f` are ignored: two inputs whose
`v` and `f` lines are the same, in the same order, give the same return value and the
same mesh, wherever the other lines are put or left out. -/
theorem loadFromOBJ_ignores_other_tags (pv : List Char → Vec3 F) (self : Hedge F)
    (cs cs2 : List Char)
    (h : (getLines cs).filter isRecordLine = (getLines cs2).filter isRecordLine) :
    Hedge.loadFromOBJ pv self (some cs) = Hedge.loadFromOBJ pv self (some cs2) := by
  apply loadFromOBJ_of_lines
  rw [parseLines_filter pv (getLines cs), parseLines_filter pv (getLines cs2), h]

theorem loadFromOBJ_ignores_other_tags_witness :
    Hedge.loadFromOBJ samplePos {}
        (some "# c\nv 0 0 0\n\nvn 0 0 1\nv 1 0 0\nv 0 1 0\n   \nvt 1\nf 1 2 3\nfoo\n".toList)
      = Hedge.loadFromOBJ samplePos {} (some "v 0 0 0\nv 1 0 0\nv 0 1 0\nf 1 2 3\n".toList) :=
  loadFromOBJ_ignores_other_tags samplePos {} _ _ (by decide)

theorem readFaceIdx_token_none (n : Nat) (ws t r : List Char) (hws : AllSpace ws)
    (ht : Token t) (hr : Delimited r) (h : stoi (beforeSlash t) = none ∨ readFaceIdx n r = none) :
    readFaceIdx (n + 1) (ws ++ (t ++ r)) = none := by
  rw [readFaceIdx_token n ws t r hws ht hr]
  rcases h with h | h
  · rw [h]
  · rw [h]
    cases stoi (beforeSlash t) <;> rfl

/-- C20, amended: a face line in which one of the first three references cannot be parsed
by `std::stoi` is not skipped: the exception of `std::stoi` leaves `loadFromOBJ`, so the
call returns nothing, no later line is read, and the object keeps the empty mesh left
by `clear`. -/
theorem loadFromOBJ_malformed_face_throws (pv : List Char → Vec3 F) (ws0 body : List Char)
    (h0 : AllSpace ws0) (hb : MalformedRefs body) :
    (∀ acc, parseLine pv acc (ws0 ++ 'f' :: body) = none) ∧
    (∀ (self : Hedge F) (cs : List Char) (ls1 ls2 : List (List Char)),
      getLines cs = ls1 ++ (ws0 ++ 'f' :: body) :: ls2 →
      Hedge.loadFromOBJ pv self (some cs)
        = (LoadResult.threw, { vertices := [], faces := [], edges := [] })) := by
  have hthrow : ∀ acc, parseLine pv acc (ws0 ++ 'f' :: body) = none := by
    intro acc
    rcases hb with ⟨ws1, t1, r, rfl, h1, k1, hr, hs⟩ |
      ⟨ws1, t1, ws2, t2, r, rfl, h1, k1, h2, k2, hr, hs⟩ |
      ⟨ws1, t1, ws2, t2, ws3, t3, r, rfl, h1, k1, h2, k2, h3, k3, hr, hs⟩
    · rw [parseLine_face pv acc ws0 _ h0 (delimited_of_blank_append _ _ h1),
        readFaceIdx_token_none 2 ws1 t1 r h1.2 k1 hr (Or.inl hs)]
    · rw [parseLine_face pv acc ws0 _ h0 (delimited_of_blank_append _ _ h1),
        readFaceIdx_token_none 2 ws1 t1 _ h1.2 k1 (delimited_of_blank_append _ _ h2)
          (Or.inr (readFaceIdx_token_none 1 ws2 t2 r h2.2 k2 hr (Or.inl hs)))]
    · rw [parseLine_face pv acc ws0 _ h0 (delimited_of_blank_append _ _ h1),
        readFaceIdx_token_none 2 ws1 t1 _ h1.2 k1 (delimited_of_blank_append _ _ h2)
          (Or.inr (readFaceIdx_token_none 1 ws2 t2 _ h2.2 k2 (delimited_of_blank_append _ _ h3)
            (Or.inr (readFaceIdx_token_none 0 ws3 t3 r h3.2 k3 hr (Or.inl hs)))))]
  refine ⟨hthrow, ?_⟩
  intro self cs ls1 ls2 hcs
  have hparse : parseOBJ pv (some cs) = none := by
    show parseLines pv ([], []) (getLines cs) = none
    rw [hcs]
    exact parseLines_throw pv ls1 ls2 _ hthrow ([], [])
  unfold Hedge.loadFromOBJ
  rw [hparse]
  rfl

theorem loadFromOBJ_malformed_face_throws_witness :
    (∀ acc, parseLine samplePos acc "f 1 /2 3".toList = none) ∧
    (∀ (self : Hedge Nat) (cs : List Char) (ls1 ls2 : List (List Char)),
      getLines cs = ls1 ++ "f 1 /2 3".toList :: ls2 →
      Hedge.loadFromOBJ samplePos self (some cs)
        = (LoadResult.threw, { vertices := [], faces := [], edges := [] })) :=
  loadFromOBJ_malformed_face_throws samplePos [] ([' '] ++ (['1'] ++ ([' '] ++ (['/', '2'] ++ [' ', '3']))))
    allSpace_nil
    (Or.inr (Or.inl ⟨[' '], ['1'], [' '], ['/', '2'], [' ', '3'], rfl, blank_space,
      token_of_chars _ (by decide) (by decide), blank_space,
      token_of_chars _ (by decide) (by decide),
      delimited_of_blank_append [' '] ['3'] blank_space, by decide⟩))

/-- C20 as stated fails: `lettersFile` holds the face line `f a b c`; its load ends with
the exception of `std::stoi`, whereas the same input without that line loads a mesh with
one face. -/
theorem loadFromOBJ_malformed_face_not_skipped :
    getLines lettersFile = ["v 0 0 0".toList, "v 1 0 0".toList, "v 0 1 0".toList]
      ++ "f a b c".toList :: ["f 1 2 3".toList] ∧
    getLines triangleFile = ["v 0 0 0".toList, "v 1 0 0".toList, "v 0 1 0".toList]
      ++ ["f 1 2 3".toList] ∧
    (Hedge.loadFromOBJ samplePos {} (some lettersFile)).1 = LoadResult.threw ∧
    (Hedge.loadFromOBJ samplePos {} (some triangleFile)).1 = LoadResult.returned true ∧
    (Hedge.loadFromOBJ samplePos {} (some triangleFile)).2.faces.length = 1 ∧
    Hedge.loadFromOBJ samplePos {} (some lettersFile)
      ≠ Hedge.loadFromOBJ samplePos {} (some triangleFile) := by
  decide

theorem edgeKeys_perm (fs fs2 : List FaceIndex) (h : fs.Perm fs2) :
    (edgeKeys fs).Perm (edgeKeys fs2) := by
  induction h with
  | nil => exact List.Perm.refl _
  | cons x _ ih => exact List.Perm.append_left _ ih
  | swap x y l =>
    show (triKeys y ++ (triKeys x ++ edgeKeys l)).Perm (triKeys x ++ (triKeys y ++ edgeKeys l))
    rw [← List.append_assoc, ← List.append_assoc]
    exact List.Perm.append_right _ List.perm_append_comm
  | trans _ _ ih1 ih2 => exact ih1.trans ih2

theorem buildState_edge_of_key (ps : List (Vec3 F)) (fs : List FaceIndex) (e : Nat)
    (k : EdgeKey) (hk : (edgeKeys fs)[e]? = some k) :
    ∃ h, (buildState ps fs).edges[e]? = some h ∧ (h.fromIndex, h.toIndex) = k := by
  rw [← buildState_keyAt ps fs e] at hk
  unfold keyAt at hk
  cases hh : (buildState ps fs).edges[e]? with
  | none => rw [hh] at hk; cases hk
  | some h =>
    rw [hh] at hk
    exact ⟨h, rfl, Option.some.inj hk⟩

theorem buildState_key_of_edge (ps : List (Vec3 F)) (fs : List FaceIndex) (e : Nat)
    (h : HalfEdge) (he : (buildState ps fs).edges[e]? = some h) :
    (edgeKeys fs)[e]? = some (h.fromIndex, h.toIndex) := by
  rw [← buildState_keyAt ps fs e]
  simp [keyAt, he]

theorem buildMesh_twinIsOtherReverse (ps : List (Vec3 F)) (fs : List FaceIndex)
    (hnd : (edgeKeys fs).Nodup) : TwinIsOtherReverse (buildMesh ps fs) := by
  constructor
  · intro e h he
    change (buildState ps fs).edges[e]? = some h at he
    have hke := buildState_key_of_edge ps fs e h he
    have htw := twinAt_eq _ _ _ he
    constructor
    · intro t g hg
      change (buildState ps fs).edges[t]? = some g at hg
      have hkt := buildState_key_of_edge ps fs t g hg
      rw [← htw, buildState_twinAt_iff ps fs hnd e t]
      constructor
      · rintro ⟨hne, k, hk1, hk2⟩
        rw [hke] at hk1
        rw [hkt] at hk2
        have e1 := Option.some.inj hk1
        have e2 := Option.some.inj hk2
        subst e1
        simp only [Prod.mk.injEq] at e2
        exact ⟨fun h => hne h.symm, e2.1, e2.2⟩
      · rintro ⟨hne, h1, h2⟩
        refine ⟨fun h => hne h.symm, _, hke, ?_⟩
        rw [hkt, h1, h2]
    · rw [← htw]
      constructor
      · intro hnone
        rintro ⟨t, g, hne, hg, h1, h2⟩
        change (buildState ps fs).edges[t]? = some g at hg
        have hkt := buildState_key_of_edge ps fs t g hg
        have := (buildState_twinAt_iff ps fs hnd e t).mpr
          ⟨fun h => hne h.symm, _, hke, by rw [hkt, h1, h2]⟩
        rw [hnone] at this
        cases this
      · intro hno
        cases htt : twinAt (buildState ps fs).edges e with
        | none => rfl
        | some t =>
          exfalso
          obtain ⟨hne, k, hk1, hk2⟩ := (buildState_twinAt_iff ps fs hnd e t).mp htt
          obtain ⟨g, hg, hgk⟩ := buildState_edge_of_key ps fs t _ hk2
          rw [hke] at hk1
          have e1 := Option.some.inj hk1
          subst e1
          simp only [Prod.mk.injEq] at hgk
          exact hno ⟨t, g, fun h => hne h.symm, hg, hgk.1, hgk.2⟩
  · intro e1 e2 h1 h2 he1 he2 hf ht
    change (buildState ps fs).edges[e1]? = some h1 at he1
    change (buildState ps fs).edges[e2]? = some h2 at he2
    have k1 := buildState_key_of_edge ps fs e1 h1 he1
    have k2 := buildState_key_of_edge ps fs e2 h2 he2
    rw [hf, ht] at k1
    exact getElem?_inj_of_nodup _ hnd e1 e2 _ k1 k2

theorem buildMesh_twinnedPairs_iff (ps : List (Vec3 F)) (fs : List FaceIndex)
    (hnd : (edgeKeys fs).Nodup) (k k2 : EdgeKey) :
    twinnedPairs (buildMesh ps fs) k k2 ↔
      (k ∈ edgeKeys fs ∧ k2 ∈ edgeKeys fs ∧ k2 = (k.2, k.1) ∧ k ≠ k2) := by
  constructor
  · rintro ⟨e, t, h, g, he, hg, htw, hk, hk2⟩
    change (buildState ps fs).edges[e]? = some h at he
    change (buildState ps fs).edges[t]? = some g at hg
    have hke := buildState_key_of_edge ps fs e h he
    have hkt := buildState_key_of_edge ps fs t g hg
    rw [hk] at hke
    rw [hk2] at hkt
    have h1 : twinAt (buildState ps fs).edges e = some t := by rw [twinAt_eq _ _ _ he, htw]
    obtain ⟨hne, k1, a1, a2⟩ := (buildState_twinAt_iff ps fs hnd e t).mp h1
    rw [hke] at a1
    have e1 := Option.some.inj a1
    subst e1
    rw [hkt] at a2
    have e2 := Option.some.inj a2
    refine ⟨List.getElem?_mem hke, List.getElem?_mem hkt, e2, ?_⟩
    intro heq
    rw [← heq] at hkt
    exact hne (getElem?_inj_of_nodup _ hnd e t _ hke hkt)
  · rintro ⟨hk, hk2, hrev, hne⟩
    obtain ⟨e, he⟩ := List.getElem?_of_mem hk
    obtain ⟨t, ht⟩ := List.getElem?_of_mem hk2
    obtain ⟨h, hh, hhk⟩ := buildState_edge_of_key ps fs e k he
    obtain ⟨g, hg, hgk⟩ := buildState_edge_of_key ps fs t k2 ht
    have hne2 : e ≠ t := by
      intro heq
      subst heq
      rw [he] at ht
      exact hne (Option.some.inj ht)
    have htw := (buildState_twinAt_iff ps fs hnd e t).mpr ⟨hne2, k, he, by rw [ht, hrev]⟩
    rw [twinAt_eq _ _ _ hh] at htw
    exact ⟨e, t, h, g, hh, hg, htw, hhk, hgk⟩

/-- C21, amended: when no ordered vertex pair occurs on more than one half-edge of a
validated triangle list, a half-edge `e` has twin `t` exactly when `t` is the half-edge
other than `e` that runs from the end of `e` to its start, and no twin exactly when
there is no such other half-edge; the twin relation is the same for every order of the
triangles in the file. -/
theorem loadFromOBJ_twin_is_other_reverse (pv : List Char → Vec3 F) (self : Hedge F)
    (file file2 : Option (List Char)) (ps ps2 : List (Vec3 F)) (fs fs2 : List FaceIndex)
    (hp : parseOBJ pv file = some (ps, fs)) (hv : fs.all (validFace ps.length) = true)
    (hnd : (edgeKeys fs).Nodup)
    (hp2 : parseOBJ pv file2 = some (ps2, fs2)) (hv2 : fs2.all (validFace ps2.length) = true)
    (hperm : fs.Perm fs2) :
    TwinIsOtherReverse (Hedge.loadFromOBJ pv self file).2 ∧
    ∀ k k2, twinnedPairs (Hedge.loadFromOBJ pv self file).2 k k2 ↔
      twinnedPairs (Hedge.loadFromOBJ pv self file2).2 k k2 := by
  rw [loadFromOBJ_of_valid pv self file ps fs hp hv,
    loadFromOBJ_of_valid pv self file2 ps2 fs2 hp2 hv2]
  have hkp := edgeKeys_perm fs fs2 hperm
  have hnd2 : (edgeKeys fs2).Nodup := hkp.nodup_iff.mp hnd
  refine ⟨buildMesh_twinIsOtherReverse ps fs hnd, ?_⟩
  intro k k2
  show twinnedPairs (buildMesh ps fs) k k2 ↔ twinnedPairs (buildMesh ps2 fs2) k k2
  rw [buildMesh_twinnedPairs_iff ps fs hnd, buildMesh_twinnedPairs_iff ps2 fs2 hnd2,
    hkp.mem_iff, hkp.mem_iff]

theorem loadFromOBJ_twin_is_other_reverse_witness :
    TwinIsOtherReverse (Hedge.loadFromOBJ samplePos {} (some squareFile)).2 ∧
    ∀ k k2, twinnedPairs (Hedge.loadFromOBJ samplePos {} (some squareFile)).2 k k2 ↔
      twinnedPairs (Hedge.loadFromOBJ samplePos {} (some squareFileSwapped)).2 k k2 :=
  loadFromOBJ_twin_is_other_reverse samplePos {} (some squareFile) (some squareFileSwapped)
    [⟨6, 0, 0⟩, ⟨6, 0, 0⟩, ⟨6, 0, 0⟩, ⟨6, 0, 0⟩] [⟨6, 0, 0⟩, ⟨6, 0, 0⟩, ⟨6, 0, 0⟩, ⟨6, 0, 0⟩]
    [⟨0, 1, 2⟩, ⟨1, 3, 2⟩] [⟨1, 3, 2⟩, ⟨0, 1, 2⟩] (by decide) (by decide) (by decide)
    (by decide) (by decide) (List.Perm.swap _ _ _)

/-- C21 as stated fails: the triangle `(0, 0, 1)` of `loopFile` passes validation and has
three distinct ordered pairs; its half-edge `0 → 0` runs from its own end to its own
start, and it has no twin. -/
theorem loadFromOBJ_self_reverse_untwinned :
    parseOBJ samplePos (some loopFile) = some ([⟨6, 0, 0⟩, ⟨6, 0, 0⟩], [⟨0, 0, 1⟩]) ∧
    (Hedge.loadFromOBJ samplePos {} (some loopFile)).1 = LoadResult.returned true ∧
    (edgeKeys [⟨0, 0, 1⟩]).Nodup ∧
    ¬ TwinIsReverse (Hedge.loadFromOBJ samplePos {} (some loopFile)).2 := by
  refine ⟨by decide, by decide, by decide, ?_⟩
  intro hrev
  have h := (hrev 0 0
    { vert := some 0, face := some 0, next := some 1, prev := some 2, twin := none,
      fromIndex := 0, toIndex := 0 }
    { vert := some 0, face := some 0, next := some 1, prev := some 2, twin := none,
      fromIndex := 0, toIndex := 0 } (by decide) (by decide)).mpr ⟨rfl, rfl⟩
  cases h

theorem pairRun_append (l1 l2 : List EdgeKey) (p : Nat) (s : PairState) :
    pairRun (l1 ++ l2) p s = pairRun l2 (p + l1.length) (pairRun l1 p s) := by
  induction l1 generalizing p s with
  | nil => rfl
  | cons k ks ih =>
    show pairRun (ks ++ l2) (p + 1) (pairStep s p k) = _
    rw [ih]
    simp only [List.length_cons, pairRun]
    congr 1
    omega

theorem addEdgeToMap_pairStep (es : List HalfEdge) (m : EdgeMap) (e : Nat) (k : EdgeKey)
    (hinv : TwinKeyInv es m) (hk : keyAt es e = some k) :
    (twinAt (addEdgeToMap es m e).1, (addEdgeToMap es m e).2) = pairStep (twinAt es, m) e k := by
  obtain ⟨hmap, htw⟩ := addEdgeToMap_spec es m e k hk
  unfold pairStep
  refine Prod.ext ?_ hmap
  funext i
  show twinAt (addEdgeToMap es m e).1 i =
    (match m (k.2, k.1) with
      | some t => fun i => if i = t then some e else if i = e then some t else twinAt es i
      | none => twinAt es) i
  rw [htw i]
  cases hm : m (k.2, k.1) with
  | none => rfl
  | some t =>
    have hlt := keyAt_lt _ _ _ (hinv.1 _ _ hm)
    simp [hlt]

theorem keyAt_append_add (es new : List HalfEdge) (j : Nat) :
    keyAt (es ++ new) (es.length + j) = keyAt new j := by
  unfold keyAt
  rw [List.getElem?_append_right (by omega)]
  simp

theorem twinAt_append_new (es new : List HalfEdge) (hnew : ∀ g ∈ new, g.twin = none) :
    twinAt (es ++ new) = twinAt es := by
  funext i
  by_cases hlt : i < es.length
  · exact twinAt_append_left _ _ _ hlt
  · rw [twinAt_append_right _ _ _ (by omega) hnew]
    unfold twinAt
    rw [List.getElem?_eq_none (by omega)]
    rfl

theorem buildFace_pairRun (st : BuildState F) (t : FaceIndex)
    (hinv : TwinKeyInv st.edges st.edgeMap) :
    (twinAt (buildFace st t).edges, (buildFace st t).edgeMap) =
      pairRun (triKeys t) st.edges.length (twinAt st.edges, st.edgeMap) := by
  have hnew : ∀ g ∈ triEdges st.faces.length st.edges.length t, g.twin = none := by
    intro g hg
    simp only [triEdges, List.mem_cons, List.mem_singleton, List.not_mem_nil, or_false] at hg
    rcases hg with hg | hg | hg <;> rw [hg]
  have h0 := twinKeyInv_append st.edges _ st.edgeMap hinv hnew
  have hlen : (st.edges ++ triEdges st.faces.length st.edges.length t).length
      = st.edges.length + 3 := by simp [triEdges]
  have k0 : keyAt (st.edges ++ triEdges st.faces.length st.edges.length t) st.edges.length
      = some (t.v0, t.v1) := keyAt_append_add _ _ 0
  have k1 : keyAt (st.edges ++ triEdges st.faces.length st.edges.length t)
      (st.edges.length + 1) = some (t.v1, t.v2) := keyAt_append_add _ _ 1
  have k2 : keyAt (st.edges ++ triEdges st.faces.length st.edges.length t)
      (st.edges.length + 2) = some (t.v2, t.v0) := keyAt_append_add _ _ 2
  have s0 := addEdgeToMap_pairStep _ _ st.edges.length _ h0 k0
  have h1 := twinKeyInv_addEdge _ _ st.edges.length h0 (by omega)
  have s1 := addEdgeToMap_pairStep _ _ (st.edges.length + 1) (t.v1, t.v2) h1
    (by rw [keyAt_addEdgeToMap]; exact k1)
  have h2 := twinKeyInv_addEdge _ _ (st.edges.length + 1) h1
    (by rw [addEdgeToMap_length]; omega)
  have s2 := addEdgeToMap_pairStep _ _ (st.edges.length + 2) (t.v2, t.v0) h2
    (by rw [keyAt_addEdgeToMap, keyAt_addEdgeToMap]; exact k2)
  rw [twinAt_append_new _ _ hnew] at s0
  refine Eq.trans s2 ?_
  rw [s1, s0]
  rfl

theorem foldl_buildFace_pairRun (ts : List FaceIndex) (st : BuildState F)
    (hinv : TwinKeyInv st.edges st.edgeMap) :
    (twinAt (ts.foldl buildFace st).edges, (ts.foldl buildFace st).edgeMap) =
      pairRun (edgeKeys ts) st.edges.length (twinAt st.edges, st.edgeMap) := by
  induction ts generalizing st with
  | nil => rfl
  | cons t ts ih =>
    show (twinAt (ts.foldl buildFace (buildFace st t)).edges,
      (ts.foldl buildFace (buildFace st t)).edgeMap) =
        pairRun (triKeys t ++ edgeKeys ts) st.edges.length (twinAt st.edges, st.edgeMap)
    rw [ih _ (buildFace_twinKeyInv st t hinv), pairRun_append, buildFace_pairRun st t hinv,
      buildFace_edges_length]
    rfl

theorem buildState_pairRun (ps : List (Vec3 F)) (fs : List FaceIndex) :
    (twinAt (buildState ps fs).edges, (buildState ps fs).edgeMap) =
      pairRun (edgeKeys fs) 0 pairInit := by
  unfold buildState
  rw [foldl_buildFace_pairRun]
  · congr 1
  · constructor
    · intro k e hke
      cases hke
    · intro e t het
      simp [twinAt] at het

theorem pairRun_snoc (l : List EdgeKey) (k : EdgeKey) (s : PairState) :
    pairRun (l ++ [k]) 0 s = pairStep (pairRun l 0 s) l.length k := by
  rw [pairRun_append]
  simp [pairRun]

theorem pairRun_take_succ (K : List EdgeKey) (p : Nat) (q : EdgeKey) (hq : K[p]? = some q) :
    pairRun (K.take (p + 1)) 0 pairInit = pairStep (pairRun (K.take p) 0 pairInit) p q := by
  have hlt : p < K.length := by
    by_contra hcon
    rw [List.getElem?_eq_none (by omega)] at hq
    cases hq
  rw [List.take_succ, hq]
  show pairRun (K.take p ++ [q]) 0 pairInit = _
  rw [pairRun_snoc, List.length_take, Nat.min_eq_left (Nat.le_of_lt hlt)]

theorem pairRun_map_key (l : List EdgeKey) (q : EdgeKey) (x : Nat)
    (h : (pairRun l 0 pairInit).2 q = some x) : l[x]? = some q := by
  induction l using List.reverseRecOn generalizing q x with
  | nil => cases h
  | append_singleton l k ih =>
    rw [pairRun_snoc] at h
    change (if q = k then some l.length else (pairRun l 0 pairInit).2 q) = some x at h
    by_cases hqk : q = k
    · rw [if_pos hqk] at h
      have := Option.some.inj h
      subst this
      subst hqk
      simp
    · rw [if_neg hqk] at h
      have h1 := ih q x h
      have hlt : x < l.length := by
        by_contra hcon
        rw [List.getElem?_eq_none (by omega)] at h1
        cases h1
      rw [List.getElem?_append_left hlt]
      exact h1

theorem pairRun_take_map_key (K : List EdgeKey) (p : Nat) (q : EdgeKey) (x : Nat)
    (h : (pairRun (K.take p) 0 pairInit).2 q = some x) : x < p ∧ K[x]? = some q := by
  have h1 := pairRun_map_key _ _ _ h
  rw [List.getElem?_take] at h1
  by_cases hx : x < p
  · rw [if_pos hx] at h1
    exact ⟨hx, h1⟩
  · rw [if_neg hx] at h1
    cases h1

/-- The pairing state of two half-edges `e < g` with the pair `(a, b)` and the single
half-edge `t` with the pair `(b, a)`, once the half-edges with handle below `p` are paired. -/
theorem pairRun_dup (K : List EdgeKey) (a b : Int) (e g t : Nat) (hab : a ≠ b) (heg : e < g)
    (he : K[e]? = some (a, b)) (hg : K[g]? = some (a, b)) (ht : K[t]? = some (b, a))
    (H1 : ∀ i, K[i]? = some (a, b) → i = e ∨ i = g) (H2 : ∀ i, K[i]? = some (b, a) → i = t)
    (p : Nat) (hp : p ≤ K.length) :
    (pairRun (K.take p) 0 pairInit).2 (a, b)
      = (if g < p then some g else if e < p then some e else none) ∧
    (pairRun (K.take p) 0 pairInit).2 (b, a) = (if t < p then some t else none) ∧
    (pairRun (K.take p) 0 pairInit).1 e = (if e < p ∧ t < p ∧ t < g then some t else none) ∧
    (pairRun (K.take p) 0 pairInit).1 g = (if g < p ∧ t < p then some t else none) ∧
    (pairRun (K.take p) 0 pairInit).1 t
      = (if t < p ∧ g < p then some g else if t < p ∧ e < p then some e else none) := by
  have hba : b ≠ a := fun h => hab h.symm
  have hte : t ≠ e := by
    intro h
    rw [h, he] at ht
    simp only [Option.some.injEq, Prod.mk.injEq] at ht
    exact hab ht.1
  have htg : t ≠ g := by
    intro h
    rw [h, hg] at ht
    simp only [Option.some.injEq, Prod.mk.injEq] at ht
    exact hab ht.1
  induction p with
  | zero =>
    simp [pairRun, pairInit, EdgeMap.empty]
  | succ p ih =>
    obtain ⟨i1, i2, i3, i4, i5⟩ := ih (by omega)
    obtain ⟨q, hq⟩ : ∃ q, K[p]? = some q := ⟨K[p], List.getElem?_eq_getElem (by omega)⟩
    rw [pairRun_take_succ K p q hq]
    generalize hs : pairRun (K.take p) 0 pairInit = s at i1 i2 i3 i4 i5
    by_cases hq1 : q = (a, b)
    · subst hq1
      have hpeg := H1 p hq
      have hpt : p ≠ t := by
        intro h
        rw [h, ht] at hq
        simp only [Option.some.injEq, Prod.mk.injEq] at hq
        exact hab hq.2
      by_cases htp : t < p
      · have hl : s.2 (b, a) = some t := by rw [i2, if_pos htp]
        simp only [pairStep, hl, EdgeMap.assign, Prod.mk.injEq, hab, hba, and_self, if_true,
          if_false, false_and, and_false]
        simp only [i1, i2, i3, i4, i5]
        rcases hpeg with rfl | rfl
        · refine ⟨?_, ?_, ?_, ?_, ?_⟩ <;> split_ifs <;> first | rfl | omega
        · refine ⟨?_, ?_, ?_, ?_, ?_⟩ <;> split_ifs <;> first | rfl | omega
      · have hl : s.2 (b, a) = none := by rw [i2, if_neg htp]
        simp only [pairStep, hl, EdgeMap.assign, Prod.mk.injEq, hab, hba, and_self, if_true,
          if_false, false_and, and_false]
        simp only [i1, i2, i3, i4, i5]
        rcases hpeg with rfl | rfl
        · refine ⟨?_, ?_, ?_, ?_, ?_⟩ <;> split_ifs <;> first | rfl | omega
        · refine ⟨?_, ?_, ?_, ?_, ?_⟩ <;> split_ifs <;> first | rfl | omega
    · by_cases hq2 : q = (b, a)
      · subst hq2
        have hpt := H2 p hq
        subst hpt
        by_cases hgp : g < p
        · have hl : s.2 (a, b) = some g := by rw [i1, if_pos hgp]
          simp only [pairStep, hl, EdgeMap.assign, Prod.mk.injEq, hab, hba, and_self, if_true,
            if_false, false_and, and_false]
          simp only [i1, i2, i3, i4, i5]
          refine ⟨?_, ?_, ?_, ?_, ?_⟩ <;> split_ifs <;> first | rfl | omega
        · by_cases hep : e < p
          · have hl : s.2 (a, b) = some e := by rw [i1, if_neg hgp, if_pos hep]
            simp only [pairStep, hl, EdgeMap.assign, Prod.mk.injEq, hab, hba, and_self, if_true,
              if_false, false_and, and_false]
            simp only [i1, i2, i3, i4, i5]
            refine ⟨?_, ?_, ?_, ?_, ?_⟩ <;> split_ifs <;> first | rfl | omega
          · have hl : s.2 (a, b) = none := by rw [i1, if_neg hgp, if_neg hep]
            simp only [pairStep, hl, EdgeMap.assign, Prod.mk.injEq, hab, hba, and_self, if_true,
              if_false, false_and, and_false]
            simp only [i1, i2, i3, i4, i5]
            refine ⟨?_, ?_, ?_, ?_, ?_⟩ <;> split_ifs <;> first | rfl | omega
      · have hpe : p ≠ e := by
          intro h
          rw [h, he] at hq
          exact hq1 (Option.some.inj hq).symm
        have hpg : p ≠ g := by
          intro h
          rw [h, hg] at hq
          exact hq1 (Option.some.inj hq).symm
        have hpt : p ≠ t := by
          intro h
          rw [h, ht] at hq
          exact hq2 (Option.some.inj hq).symm
        have hm1 : (pairStep s p q).2 (a, b) = s.2 (a, b) := by
          show (if (a, b) = q then some p else s.2 (a, b)) = _
          rw [if_neg (fun h => hq1 h.symm)]
        have hm2 : (pairStep s p q).2 (b, a) = s.2 (b, a) := by
          show (if (b, a) = q then some p else s.2 (b, a)) = _
          rw [if_neg (fun h => hq2 h.symm)]
        have htw : ∀ i, i = e ∨ i = g ∨ i = t → (pairStep s p q).1 i = s.1 i := by
          intro i hi
          have hip : i ≠ p := by rcases hi with h | h | h <;> rw [h] <;> exact Ne.symm ‹_›
          cases hl : s.2 (q.2, q.1) with
          | none => simp only [pairStep, hl]
          | some x =>
            simp only [pairStep, hl]
            rw [← hs] at hl
            obtain ⟨_, hkx⟩ := pairRun_take_map_key K p _ x hl
            have hix : i ≠ x := by
              intro h
              subst h
              rcases hi with h | h | h
              · rw [h, he] at hkx
                apply hq2
                have := Option.some.inj hkx
                simp only [Prod.mk.injEq] at this
                exact Prod.ext this.2.symm this.1.symm
              · rw [h, hg] at hkx
                apply hq2
                have := Option.some.inj hkx
                simp only [Prod.mk.injEq] at this
                exact Prod.ext this.2.symm this.1.symm
              · rw [h, ht] at hkx
                apply hq1
                have := Option.some.inj hkx
                simp only [Prod.mk.injEq] at this
                exact Prod.ext this.2.symm this.1.symm
            rw [if_neg hix, if_neg hip]
        rw [hm1, hm2, htw e (Or.inl rfl), htw g (Or.inr (Or.inl rfl)),
          htw t (Or.inr (Or.inr rfl)), i1, i2, i3, i4, i5]
        refine ⟨?_, ?_, ?_, ?_, ?_⟩ <;> split_ifs <;> first | rfl | omega

theorem buildState_dup (ps : List (Vec3 F)) (fs : List FaceIndex) (k : EdgeKey) (e g t : Nat)
    (hk : k.1 ≠ k.2) (heg : e < g)
    (he : (edgeKeys fs)[e]? = some k) (hg : (edgeKeys fs)[g]? = some k)
    (ht : (edgeKeys fs)[t]? = some (k.2, k.1))
    (H1 : ∀ i, (edgeKeys fs)[i]? = some k → i = e ∨ i = g)
    (H2 : ∀ i, (edgeKeys fs)[i]? = some (k.2, k.1) → i = t) :
    (buildState ps fs).edgeMap k = some g ∧
    twinAt (buildState ps fs).edges g = some t ∧
    twinAt (buildState ps fs).edges t = some g ∧
    twinAt (buildState ps fs).edges e = (if t < g then some t else none) := by
  obtain ⟨a, b⟩ := k
  have hlt : ∀ i q, (edgeKeys fs)[i]? = some q → i < (edgeKeys fs).length := by
    intro i q h
    by_contra hcon
    rw [List.getElem?_eq_none (by omega)] at h
    cases h
  have hel := hlt _ _ he
  have hgl := hlt _ _ hg
  have htl := hlt _ _ ht
  obtain ⟨i1, _, i3, i4, i5⟩ := pairRun_dup (edgeKeys fs) a b e g t hk heg he hg ht H1 H2
    (edgeKeys fs).length (Nat.le_refl _)
  rw [List.take_length, ← buildState_pairRun ps fs] at i1 i3 i4 i5
  dsimp only at i1 i3 i4 i5
  rw [i1, i3, i4, i5]
  refine ⟨?_, ?_, ?_, ?_⟩ <;> split_ifs <;> first | rfl | omega

/-- C22, amended: when exactly two half-edges `e` (earlier) and `g` (later) are created
with the same ordered pair `(from, to)`, `from ≠ to`, and exactly one half-edge `t` with
the reverse pair, then for every order in which the three appear in the input the later
one holds the map slot and `t` and `g` end up as mutual twins; the stale earlier
half-edge `e` stays in `edges`, and it has no twin link exactly when `t` is created after
`g`: otherwise it keeps a one-way twin pointer to `t`. -/
theorem loadFromOBJ_duplicate_directed_edge (pv : List Char → Vec3 F) (self : Hedge F)
    (file : Option (List Char)) (ps : List (Vec3 F)) (fs : List FaceIndex)
    (hp : parseOBJ pv file = some (ps, fs)) (hv : fs.all (validFace ps.length) = true)
    (k : EdgeKey) (e g t : Nat) (hk : k.1 ≠ k.2) (heg : e < g)
    (he : (edgeKeys fs)[e]? = some k) (hg : (edgeKeys fs)[g]? = some k)
    (ht : (edgeKeys fs)[t]? = some (k.2, k.1))
    (H1 : ∀ i, (edgeKeys fs)[i]? = some k → i = e ∨ i = g)
    (H2 : ∀ i, (edgeKeys fs)[i]? = some (k.2, k.1) → i = t) :
    (buildState ps fs).edgeMap k = some g ∧
    twinAt (Hedge.loadFromOBJ pv self file).2.edges g = some t ∧
    twinAt (Hedge.loadFromOBJ pv self file).2.edges t = some g ∧
    keyAt (Hedge.loadFromOBJ pv self file).2.edges e = some k ∧
    (twinAt (Hedge.loadFromOBJ pv self file).2.edges e = none ↔ g < t) ∧
    (t < g → twinAt (Hedge.loadFromOBJ pv self file).2.edges e = some t) := by
  rw [loadFromOBJ_of_valid pv self file ps fs hp hv]
  obtain ⟨h1, h2, h3, h4⟩ := buildState_dup ps fs k e g t hk heg he hg ht H1 H2
  have htg : t ≠ g := by
    intro h
    rw [h, hg] at ht
    exact hk (congrArg Prod.fst (Option.some.inj ht))
  refine ⟨h1, h2, h3, ?_, ?_, ?_⟩
  · show keyAt (buildState ps fs).edges e = some k
    rw [buildState_keyAt]
    exact he
  · show twinAt (buildState ps fs).edges e = none ↔ g < t
    rw [h4]
    split_ifs with h
    · simp only [reduceCtorEq, false_iff]
      omega
    · simp only [true_iff]
      omega
  · intro h
    show twinAt (buildState ps fs).edges e = some t
    rw [h4, if_pos h]

theorem loadFromOBJ_duplicate_directed_edge_witness :
    (buildState (F := Nat) [⟨6, 0, 0⟩, ⟨6, 0, 0⟩, ⟨6, 0, 0⟩, ⟨6, 0, 0⟩, ⟨6, 0, 0⟩]
      [⟨0, 1, 2⟩, ⟨1, 0, 3⟩, ⟨0, 1, 4⟩]).edgeMap (0, 1) = some 6 ∧
    twinAt (Hedge.loadFromOBJ samplePos {} (some fanFile)).2.edges 6 = some 3 ∧
    twinAt (Hedge.loadFromOBJ samplePos {} (some fanFile)).2.edges 3 = some 6 ∧
    keyAt (Hedge.loadFromOBJ samplePos {} (some fanFile)).2.edges 0 = some (0, 1) ∧
    (twinAt (Hedge.loadFromOBJ samplePos {} (some fanFile)).2.edges 0 = none ↔ 6 < 3) ∧
    (3 < 6 → twinAt (Hedge.loadFromOBJ samplePos {} (some fanFile)).2.edges 0 = some 3) :=
  loadFromOBJ_duplicate_directed_edge samplePos {} (some fanFile)
    [⟨6, 0, 0⟩, ⟨6, 0, 0⟩, ⟨6, 0, 0⟩, ⟨6, 0, 0⟩, ⟨6, 0, 0⟩]
    [⟨0, 1, 2⟩, ⟨1, 0, 3⟩, ⟨0, 1, 4⟩] (by decide) (by decide) (0, 1) 0 6 3 (by decide)
    (by decide) (by decide) (by decide) (by decide)
    (by
      intro i hi
      have hlt : i < 9 := by
        by_contra hcon
        rw [List.getElem?_eq_none (by simpa [edgeKeys, triKeys] using Nat.le_of_not_lt hcon)] at hi
        cases hi
      interval_cases i <;> first | (left; rfl) | (right; rfl) | (exfalso; revert hi; decide))
    (by
      intro i hi
      have hlt : i < 9 := by
        by_contra hcon
        rw [List.getElem?_eq_none (by simpa [edgeKeys, triKeys] using Nat.le_of_not_lt hcon)] at hi
        cases hi
      interval_cases i <;> first | rfl | (exfalso; revert hi; decide))

/-- C22 as stated fails: in `fanFile` the half-edges `0` and `6` both run `0 → 1` and
the half-edge `3`, created between them, runs `1 → 0`; half-edge `3` is twinned with the
later one, and the stale half-edge `0` keeps its twin pointer to `3`. -/
theorem loadFromOBJ_stale_edge_keeps_twin :
    parseOBJ samplePos (some fanFile) = some
      ([⟨6, 0, 0⟩, ⟨6, 0, 0⟩, ⟨6, 0, 0⟩, ⟨6, 0, 0⟩, ⟨6, 0, 0⟩],
        [⟨0, 1, 2⟩, ⟨1, 0, 3⟩, ⟨0, 1, 4⟩]) ∧
    (Hedge.loadFromOBJ samplePos {} (some fanFile)).1 = LoadResult.returned true ∧
    twinAt (Hedge.loadFromOBJ samplePos {} (some fanFile)).2.edges 3 = some 6 ∧
    twinAt (Hedge.loadFromOBJ samplePos {} (some fanFile)).2.edges 0 = some 3 ∧
    ¬ StaleEdgeUntwinned [⟨0, 1, 2⟩, ⟨1, 0, 3⟩, ⟨0, 1, 4⟩]
      (Hedge.loadFromOBJ samplePos {} (some fanFile)).2 := by
  refine ⟨by decide, by decide, by decide, by decide, ?_⟩
  intro h
  have h0 := h 0 6 (0, 1) (by decide) (by decide) (by decide)
  revert h0
  decide

theorem buildState_edge_fields (ps : List (Vec3 F)) (fs : List FaceIndex) (k j : Nat)
    (t : FaceIndex) (hk : fs[k]? = some t) (hj : j < 3) :
    ∃ h, (buildState ps fs).edges[3 * k + j]? = some h ∧ h.face = some k ∧
      some (h.fromIndex, h.toIndex) = (triKeys t)[j]? ∧ h.vert = vertexPtr h.toIndex := by
  have hs := buildState_edge_strip ps fs k j t hk hj
  interval_cases j
  · obtain ⟨h, hh, hv, hf, -, -, h1, h2⟩ := strip_fields _ _ _ (hs.trans (by simp [triEdges]; rfl))
    exact ⟨h, hh, hf, by rw [h1, h2]; rfl, by rw [hv, h2]⟩
  · obtain ⟨h, hh, hv, hf, -, -, h1, h2⟩ := strip_fields _ _ _ (hs.trans (by simp [triEdges]; rfl))
    exact ⟨h, hh, hf, by rw [h1, h2]; rfl, by rw [hv, h2]⟩
  · obtain ⟨h, hh, hv, hf, -, -, h1, h2⟩ := strip_fields _ _ _ (hs.trans (by simp [triEdges]; rfl))
    exact ⟨h, hh, hf, by rw [h1, h2]; rfl, by rw [hv, h2]⟩

theorem buildMesh_vertAtTo (ps : List (Vec3 F)) (fs : List FaceIndex) (h : HalfEdge)
    (hv : h.vert = vertexPtr h.toIndex) (h0 : 0 ≤ h.toIndex) (h1 : h.toIndex < ps.length)
    (h2 : h.toIndex ≤ 2147483647) :
    VertAtTo (buildMesh ps fs) h := by
  have hlt : h.toIndex.toNat < (buildState ps fs).vertices.length := by
    rw [buildState_vertices_length]
    omega
  refine ⟨h.toIndex.toNat, (buildState ps fs).vertices[h.toIndex.toNat], ?_, ?_, ?_, ?_⟩
  · rw [hv, vertexPtr, if_neg (by omega)]
  · omega
  · exact List.getElem?_eq_getElem hlt
  · rw [(buildState_vertex ps fs _ _ (List.getElem?_eq_getElem hlt)).2,
      castI_of_le _ (by omega)]
    omega

theorem triKeys_valid (n : Nat) (t : FaceIndex) (k : EdgeKey)
    (hv : (0 ≤ t.v0 ∧ t.v0 < n) ∧ (0 ≤ t.v1 ∧ t.v1 < n) ∧ (0 ≤ t.v2 ∧ t.v2 < n))
    (hk : k ∈ triKeys t) : (0 ≤ k.1 ∧ k.1 < n) ∧ (0 ≤ k.2 ∧ k.2 < n) := by
  simp only [triKeys, List.mem_cons, List.mem_singleton, List.not_mem_nil, or_false] at hk
  rcases hk with hk | hk | hk <;> subst hk
  · exact ⟨hv.1, hv.2.1⟩
  · exact ⟨hv.2.1, hv.2.2⟩
  · exact ⟨hv.2.2, hv.1⟩

/-- C23: after a successful load, the `k`-th parsed triangle `(a, b, c)` owns the
half-edges `3k`, `3k+1`, `3k+2`; they run `a → b`, `b → c`, `c → a`; each has `face`
pointing to face `k` and `vert` pointing to the vertex `toIndex`, whose index is
`toIndex`; and face `k` points to half-edge `3k`. -/
theorem loadFromOBJ_triangle_wiring (pv : List Char → Vec3 F) (self : Hedge F)
    (file : Option (List Char)) (ps : List (Vec3 F)) (fs : List FaceIndex)
    (hp : parseOBJ pv file = some (ps, fs)) (hv : fs.all (validFace ps.length) = true)
    (k : Nat) (t : FaceIndex) (hk : fs[k]? = some t) :
    ∃ h0 h1 h2 : HalfEdge,
      (Hedge.loadFromOBJ pv self file).2.edges[3 * k]? = some h0 ∧
      (Hedge.loadFromOBJ pv self file).2.edges[3 * k + 1]? = some h1 ∧
      (Hedge.loadFromOBJ pv self file).2.edges[3 * k + 2]? = some h2 ∧
      (h0.fromIndex, h0.toIndex) = (t.v0, t.v1) ∧
      (h1.fromIndex, h1.toIndex) = (t.v1, t.v2) ∧
      (h2.fromIndex, h2.toIndex) = (t.v2, t.v0) ∧
      h0.face = some k ∧ h1.face = some k ∧ h2.face = some k ∧
      VertAtTo (Hedge.loadFromOBJ pv self file).2 h0 ∧
      VertAtTo (Hedge.loadFromOBJ pv self file).2 h1 ∧
      VertAtTo (Hedge.loadFromOBJ pv self file).2 h2 ∧
      (Hedge.loadFromOBJ pv self file).2.faces[k]? = some { edge := some (3 * k) } := by
  rw [loadFromOBJ_of_valid pv self file ps fs hp hv]
  have hval := all_validFace _ _ hv t (List.getElem?_mem hk)
  have hmax := all_validFace_max _ _ hv t (List.getElem?_mem hk)
  obtain ⟨h0, e0, f0, k0, v0⟩ := buildState_edge_fields ps fs k 0 t hk (by omega)
  obtain ⟨h1, e1, f1, k1, v1⟩ := buildState_edge_fields ps fs k 1 t hk (by omega)
  obtain ⟨h2, e2, f2, k2, v2⟩ := buildState_edge_fields ps fs k 2 t hk (by omega)
  have q0 : (h0.fromIndex, h0.toIndex) = (t.v0, t.v1) := Option.some.inj k0
  have q1 : (h1.fromIndex, h1.toIndex) = (t.v1, t.v2) := Option.some.inj k1
  have q2 : (h2.fromIndex, h2.toIndex) = (t.v2, t.v0) := Option.some.inj k2
  have t0 : h0.toIndex = t.v1 := congrArg Prod.snd q0
  have t1 : h1.toIndex = t.v2 := congrArg Prod.snd q1
  have t2 : h2.toIndex = t.v0 := congrArg Prod.snd q2
  refine ⟨h0, h1, h2, e0, e1, e2, q0, q1, q2, f0, f1, f2,
    buildMesh_vertAtTo ps fs h0 v0 (by rw [t0]; exact hval.2.1.1) (by rw [t0]; exact hval.2.1.2)
      (by rw [t0]; omega),
    buildMesh_vertAtTo ps fs h1 v1 (by rw [t1]; exact hval.2.2.1) (by rw [t1]; exact hval.2.2.2)
      (by rw [t1]; omega),
    buildMesh_vertAtTo ps fs h2 v2 (by rw [t2]; exact hval.1.1) (by rw [t2]; exact hval.1.2)
      (by rw [t2]; omega), ?_⟩
  show (buildState ps fs).faces[k]? = _
  rw [buildState_faces, faceList_getElem? 0 fs k t hk, Nat.zero_add]

theorem loadFromOBJ_triangle_wiring_witness :
    ∃ h0 h1 h2 : HalfEdge,
      (Hedge.loadFromOBJ samplePos {} (some squareFile)).2.edges[3 * 1]? = some h0 ∧
      (Hedge.loadFromOBJ samplePos {} (some squareFile)).2.edges[3 * 1 + 1]? = some h1 ∧
      (Hedge.loadFromOBJ samplePos {} (some squareFile)).2.edges[3 * 1 + 2]? = some h2 ∧
      (h0.fromIndex, h0.toIndex) = (1, 3) ∧
      (h1.fromIndex, h1.toIndex) = (3, 2) ∧
      (h2.fromIndex, h2.toIndex) = (2, 1) ∧
      h0.face = some 1 ∧ h1.face = some 1 ∧ h2.face = some 1 ∧
      VertAtTo (Hedge.loadFromOBJ samplePos {} (some squareFile)).2 h0 ∧
      VertAtTo (Hedge.loadFromOBJ samplePos {} (some squareFile)).2 h1 ∧
      VertAtTo (Hedge.loadFromOBJ samplePos {} (some squareFile)).2 h2 ∧
      (Hedge.loadFromOBJ samplePos {} (some squareFile)).2.faces[1]?
        = some { edge := some (3 * 1) } :=
  loadFromOBJ_triangle_wiring samplePos {} (some squareFile)
    [⟨6, 0, 0⟩, ⟨6, 0, 0⟩, ⟨6, 0, 0⟩, ⟨6, 0, 0⟩] [⟨0, 1, 2⟩, ⟨1, 3, 2⟩]
    (by decide) (by decide) 1 ⟨1, 3, 2⟩ (by decide)

/-- C24: whenever the load returns false, `vertices`, `faces` and `edges` are all empty
afterwards, whatever the object held before, and the three exports return empty arrays. -/
theorem loadFromOBJ_false_empty (pv : List Char → Vec3 F) (self : Hedge F)
    (file : Option (List Char))
    (hload : (Hedge.loadFromOBJ pv self file).1 = LoadResult.returned false) :
    (Hedge.loadFromOBJ pv self file).2.vertices = [] ∧
    (Hedge.loadFromOBJ pv self file).2.faces = [] ∧
    (Hedge.loadFromOBJ pv self file).2.edges = [] ∧
    (Hedge.loadFromOBJ pv self file).2.buildVertexArray = [] ∧
    (Hedge.loadFromOBJ pv self file).2.buildFaceIndexArray = some [] ∧
    ∀ addr, (Hedge.loadFromOBJ pv self file).2.buildEdgeIndexArray addr = [] := by
  have hm : (Hedge.loadFromOBJ pv self file).2 = { vertices := [], faces := [], edges := [] } := by
    cases hp : parseOBJ pv file with
    | none =>
      unfold Hedge.loadFromOBJ at hload
      rw [hp] at hload
      cases hload
    | some r =>
      obtain ⟨ps, fs⟩ := r
      rw [loadFromOBJ_result pv self file ps fs hp] at hload ⊢
      by_cases hv : fs.all (validFace ps.length) = true
      · rw [if_pos hv] at hload
        cases hload
      · rw [if_neg hv]
  rw [hm]
  exact ⟨rfl, rfl, rfl, rfl, rfl, fun _ => rfl⟩

theorem loadFromOBJ_false_empty_witness :
    (Hedge.loadFromOBJ samplePos (buildMesh [⟨6, 0, 0⟩] []) (some rangeFile)).2.vertices = [] ∧
    (Hedge.loadFromOBJ samplePos (buildMesh [⟨6, 0, 0⟩] []) (some rangeFile)).2.faces = [] ∧
    (Hedge.loadFromOBJ samplePos (buildMesh [⟨6, 0, 0⟩] []) (some rangeFile)).2.edges = [] ∧
    (Hedge.loadFromOBJ samplePos (buildMesh [⟨6, 0, 0⟩] []) (some rangeFile)).2.buildVertexArray
      = [] ∧
    (Hedge.loadFromOBJ samplePos (buildMesh [⟨6, 0, 0⟩] [])
      (some rangeFile)).2.buildFaceIndexArray = some [] ∧
    ∀ addr, (Hedge.loadFromOBJ samplePos (buildMesh [⟨6, 0, 0⟩] [])
      (some rangeFile)).2.buildEdgeIndexArray addr = [] :=
  loadFromOBJ_false_empty samplePos (buildMesh [⟨6, 0, 0⟩] []) (some rangeFile) (by decide)

theorem castU_lt (x : Int) (n : Nat) (h0 : 0 ≤ x) (h1 : x < n) : castU x < n := by
  unfold castU
  omega

theorem flatTriangles_mem (ts : List FaceIndex) (y : Int) (hy : y ∈ flatTriangles ts) :
    ∃ t ∈ ts, y = t.v0 ∨ y = t.v1 ∨ y = t.v2 := by
  induction ts with
  | nil => simp [flatTriangles] at hy
  | cons t ts ih =>
    simp only [flatTriangles, List.mem_cons, List.mem_append, List.not_mem_nil, or_false] at hy
    rcases hy with hy | hy | hy | hy
    · exact ⟨t, List.mem_cons_self _ _, Or.inl hy⟩
    · exact ⟨t, List.mem_cons_self _ _, Or.inr (Or.inl hy)⟩
    · exact ⟨t, List.mem_cons_self _ _, Or.inr (Or.inr hy)⟩
    · obtain ⟨u, hu, h⟩ := ih hy
      exact ⟨u, List.mem_cons_of_mem _ hu, h⟩

theorem edgeIndexLoop_mem (addr : Nat → Nat) (i : Nat) (es : List HalfEdge) (x : Nat)
    (hx : x ∈ edgeIndexLoop addr i es) :
    ∃ h ∈ es, x = castU h.fromIndex ∨ x = castU h.toIndex := by
  induction es generalizing i with
  | nil => simp [edgeIndexLoop] at hx
  | cons h hs ih =>
    simp only [edgeIndexLoop, List.mem_append] at hx
    rcases hx with hx | hx
    · cases hsk : skipsEdge addr i h with
      | true => simp [hsk] at hx
      | false =>
        simp only [hsk, Bool.false_eq_true, if_false, List.mem_cons, List.mem_singleton,
          List.not_mem_nil, or_false] at hx
        exact ⟨h, List.mem_cons_self _ _, hx⟩
    · obtain ⟨g, hg, h1⟩ := ih (i + 1) hx
      exact ⟨g, List.mem_cons_of_mem _ hg, h1⟩

theorem buildState_edge_valid (ps : List (Vec3 F)) (fs : List FaceIndex)
    (hv : fs.all (validFace ps.length) = true) (h : HalfEdge)
    (hh : h ∈ (buildState ps fs).edges) :
    (0 ≤ h.fromIndex ∧ h.fromIndex < ps.length) ∧ (0 ≤ h.toIndex ∧ h.toIndex < ps.length) := by
  obtain ⟨t, ht, hk⟩ := (edgeKeys_mem fs _).mp (buildState_edge_key_mem ps fs h hh)
  exact triKeys_valid ps.length t _ (all_validFace _ _ hv t ht) hk

/-- C25: after a successful load, every value returned by `buildFaceIndexArray` and by
`buildEdgeIndexArray` is below the length of the array returned by `buildVertexArray`,
every index that the exports convert to unsigned is non-negative, and the edge export has
even length. -/
theorem export_indices_in_range (pv : List Char → Vec3 F) (self : Hedge F)
    (file : Option (List Char))
    (hload : (Hedge.loadFromOBJ pv self file).1 = LoadResult.returned true) :
    (∃ out, (Hedge.loadFromOBJ pv self file).2.buildFaceIndexArray = some out ∧
      ∀ x ∈ out, x < (Hedge.loadFromOBJ pv self file).2.buildVertexArray.length) ∧
    (∀ h ∈ (Hedge.loadFromOBJ pv self file).2.edges, 0 ≤ h.fromIndex ∧ 0 ≤ h.toIndex) ∧
    ∀ addr : Nat → Nat,
      (∀ x ∈ (Hedge.loadFromOBJ pv self file).2.buildEdgeIndexArray addr,
        x < (Hedge.loadFromOBJ pv self file).2.buildVertexArray.length) ∧
      ((Hedge.loadFromOBJ pv self file).2.buildEdgeIndexArray addr).length % 2 = 0 := by
  obtain ⟨ps, fs, hp, hv, hm⟩ := loadFromOBJ_true_inv pv self file hload
  rw [hm]
  have hN : (buildMesh ps fs).buildVertexArray.length = ps.length := by
    show ((buildState ps fs).vertices.map fun v => v.position).length = _
    rw [List.length_map, buildState_vertices_length]
  rw [hN]
  have hval := all_validFace _ _ hv
  have hsm := parseOBJ_small pv file ps fs hp
  refine ⟨?_, ?_, ?_⟩
  · obtain ⟨out, hout, hmap⟩ := faceIndexLoop_faceList (buildState ps fs).edges fs 0 0
      (fun k t hk j hj => by
        have := buildState_edge_strip ps fs k j t hk hj
        simpa using this)
      (fun t ht => ⟨⟨(hval t ht).1.1, (hval t ht).2.1.1, (hval t ht).2.2.1⟩, hsm t ht⟩)
    refine ⟨out, ?_, ?_⟩
    · show faceIndexLoop (buildState ps fs).edges (buildState ps fs).faces = some out
      rw [buildState_faces]
      exact hout
    · intro x hx
      have hx1 : Int.ofNat x ∈ flatTriangles fs := by
        rw [← hmap]
        exact List.mem_map_of_mem _ hx
      obtain ⟨t, ht, h⟩ := flatTriangles_mem fs _ hx1
      have := hval t ht
      simp only [Int.ofNat_eq_coe] at h
      omega
  · intro h hh
    have := buildState_edge_valid ps fs hv h hh
    exact ⟨this.1.1, this.2.1⟩
  · intro addr
    constructor
    · intro x hx
      obtain ⟨h, hh, hx1⟩ := edgeIndexLoop_mem addr 0 _ x hx
      have := buildState_edge_valid ps fs hv h hh
      rcases hx1 with hx1 | hx1 <;> rw [hx1]
      · exact castU_lt _ _ this.1.1 this.1.2
      · exact castU_lt _ _ this.2.1 this.2.2
    · show (edgeIndexLoop addr 0 (buildState ps fs).edges).length % 2 = 0
      rw [edgeIndexLoop_length]
      omega

theorem export_indices_in_range_witness :
    (∃ out, (Hedge.loadFromOBJ samplePos {} (some fanFile)).2.buildFaceIndexArray = some out ∧
      ∀ x ∈ out, x < (Hedge.loadFromOBJ samplePos {} (some fanFile)).2.buildVertexArray.length) ∧
    (∀ h ∈ (Hedge.loadFromOBJ samplePos {} (some fanFile)).2.edges,
      0 ≤ h.fromIndex ∧ 0 ≤ h.toIndex) ∧
    ∀ addr : Nat → Nat,
      (∀ x ∈ (Hedge.loadFromOBJ samplePos {} (some fanFile)).2.buildEdgeIndexArray addr,
        x < (Hedge.loadFromOBJ samplePos {} (some fanFile)).2.buildVertexArray.length) ∧
      ((Hedge.loadFromOBJ samplePos {} (some fanFile)).2.buildEdgeIndexArray addr).length % 2
        = 0 :=
  export_indices_in_range samplePos {} (some fanFile) (by decide)

theorem buildState_edge_face_key (ps : List (Vec3 F)) (fs : List FaceIndex) (i : Nat)
    (h : HalfEdge) (hh : (buildState ps fs).edges[i]? = some h) :
    ∃ k t, fs[k]? = some t ∧ h.face = some k ∧ (h.fromIndex, h.toIndex) ∈ triKeys t := by
  have hlt : i < 3 * fs.length := by
    rw [← buildState_edges_length ps fs]
    by_contra hcon
    rw [List.getElem?_eq_none (by omega)] at hh
    cases hh
  have hk : i / 3 < fs.length := by omega
  obtain ⟨g, hg, hf, hkey, -⟩ := buildState_edge_fields ps fs (i / 3) (i % 3) fs[i / 3]
    (List.getElem?_eq_getElem hk) (Nat.mod_lt _ (by omega))
  have hi : 3 * (i / 3) + i % 3 = i := Nat.div_add_mod i 3
  rw [hi, hh] at hg
  have := Option.some.inj hg
  subst this
  exact ⟨i / 3, fs[i / 3], List.getElem?_eq_getElem hk, hf, List.getElem?_mem hkey.symm⟩

/-- C26: when every triangle of a validated triangle list has three pairwise distinct
vertex indices, a half-edge that has a twin is not its own twin and borders another face
than its twin; whereas in `needleFile`, whose only triangle `(0, 1, 0)` repeats an index
and passes validation, the half-edges `0` and `1` of the one face are twins of each
other. -/
theorem loadFromOBJ_twin_other_face (pv : List Char → Vec3 F) (self : Hedge F)
    (file : Option (List Char)) (ps : List (Vec3 F)) (fs : List FaceIndex)
    (hp : parseOBJ pv file = some (ps, fs)) (hv : fs.all (validFace ps.length) = true)
    (hd : ∀ t ∈ fs, t.Proper) (e t : Nat) (h : HalfEdge)
    (he : (Hedge.loadFromOBJ pv self file).2.edges[e]? = some h) (ht : h.twin = some t) :
    (t ≠ e ∧ ∃ g, (Hedge.loadFromOBJ pv self file).2.edges[t]? = some g ∧ g.face ≠ h.face) ∧
    ((Hedge.loadFromOBJ samplePos {} (some needleFile)).1 = LoadResult.returned true ∧
      ∃ g0 g1, (Hedge.loadFromOBJ samplePos {} (some needleFile)).2.edges[0]? = some g0 ∧
        (Hedge.loadFromOBJ samplePos {} (some needleFile)).2.edges[1]? = some g1 ∧
        g0.twin = some 1 ∧ g1.twin = some 0 ∧ g0.face = g1.face) := by
  refine ⟨?_, by decide, _, _, rfl, rfl, rfl, rfl, rfl⟩
  rw [loadFromOBJ_of_valid pv self file ps fs hp hv] at he ⊢
  change (buildState ps fs).edges[e]? = some h at he
  show t ≠ e ∧ ∃ g, (buildState ps fs).edges[t]? = some g ∧ g.face ≠ h.face
  obtain ⟨k, hk1, hk2⟩ := (buildState_twinKeyInv ps fs).2 e t (by simp [twinAt, he, ht])
  have hke : k = (h.fromIndex, h.toIndex) := by
    simp only [keyAt, he, Option.map_some', Option.some.injEq] at hk1
    exact hk1.symm
  obtain ⟨kf, tf, hkf, hface, hmem⟩ := buildState_edge_face_key ps fs e h he
  have hne : k.1 ≠ k.2 := by
    rw [hke]
    exact triKeys_ne tf (hd tf (List.getElem?_mem hkf)) _ hmem
  constructor
  · intro hte
    rw [hte, hk1] at hk2
    exact hne (congrArg Prod.fst (Option.some.inj hk2))
  · unfold keyAt at hk2
    cases hg : (buildState ps fs).edges[t]? with
    | none => rw [hg] at hk2; cases hk2
    | some g =>
      rw [hg] at hk2
      simp only [Option.map_some', Option.some.injEq] at hk2
      refine ⟨g, rfl, ?_⟩
      intro hfe
      obtain ⟨kg, tg, hkg, hfaceg, hmemg⟩ := buildState_edge_face_key ps fs t g hg
      rw [hfe, hface] at hfaceg
      have hkk := Option.some.inj hfaceg
      subst hkk
      rw [hkf] at hkg
      have := Option.some.inj hkg
      subst this
      rw [hk2, hke] at hmemg
      exact triKeys_not_both tf (hd tf (List.getElem?_mem hkf)) _ _ hmem hmemg

theorem loadFromOBJ_twin_other_face_witness :
    (5 ≠ 1 ∧ ∃ g, (Hedge.loadFromOBJ samplePos {} (some squareFile)).2.edges[5]? = some g ∧
      g.face ≠ (HalfEdge.mk (some 2) (some 0) (some 2) (some 0) (some 5) 1 2).face) ∧
    ((Hedge.loadFromOBJ samplePos {} (some needleFile)).1 = LoadResult.returned true ∧
      ∃ g0 g1, (Hedge.loadFromOBJ samplePos {} (some needleFile)).2.edges[0]? = some g0 ∧
        (Hedge.loadFromOBJ samplePos {} (some needleFile)).2.edges[1]? = some g1 ∧
        g0.twin = some 1 ∧ g1.twin = some 0 ∧ g0.face = g1.face) :=
  loadFromOBJ_twin_other_face samplePos {} (some squareFile)
    [⟨6, 0, 0⟩, ⟨6, 0, 0⟩, ⟨6, 0, 0⟩, ⟨6, 0, 0⟩] [⟨0, 1, 2⟩, ⟨1, 3, 2⟩]
    (by decide) (by decide) (by decide) 1 5
    (HalfEdge.mk (some 2) (some 0) (some 2) (some 0) (some 5) 1 2) (by decide) rfl

theorem parseLine_v (pv : List Char → Vec3 F) (acc : List (Vec3 F) × List FaceIndex) :
    parseLine pv acc ['v'] = some (acc.1 ++ [pv []], acc.2) := rfl

theorem parseLine_f123 (pv : List Char → Vec3 F) (acc : List (Vec3 F) × List FaceIndex) :
    parseLine pv acc "f 1 2 3".toList = some (acc.1, acc.2 ++ [⟨0, 1, 2⟩]) := rfl

theorem parseLines_replicate (pv : List Char → Vec3 F) (n : Nat)
    (acc : List (Vec3 F) × List FaceIndex) (rest : List (List Char)) :
    parseLines pv acc (List.replicate n ['v'] ++ rest)
      = parseLines pv (acc.1 ++ List.replicate n (pv []), acc.2) rest := by
  induction n generalizing acc with
  | zero => simp
  | succ n ih =>
    rw [List.replicate_succ, List.cons_append, parseLines, parseLine_v]
    show parseLines pv (acc.1 ++ [pv []], acc.2) (List.replicate n ['v'] ++ rest) = _
    rw [ih, List.replicate_succ]
    simp

theorem parseOBJ_manyPositions (pv : List Char → Vec3 F) (n : Nat) :
    parseOBJ pv (some (manyPositions n)) = some (List.replicate n (pv []), []) := by
  unfold parseOBJ manyPositions
  simp only
  rw [getLines_fileOfLines _ _ (fun l hl => by rw [List.eq_of_mem_replicate hl]; decide)
    (by decide)]
  have := parseLines_replicate pv n ([], []) []
  simp only [List.append_nil, List.nil_append] at this
  show parseLines pv ([], []) (List.replicate n ['v'] ++ []) = _
  rw [List.append_nil, this]
  rfl

theorem parseOBJ_manyPositionsFace (pv : List Char → Vec3 F) (n : Nat) :
    parseOBJ pv (some (manyPositionsFace n)) = some (List.replicate n (pv []), [⟨0, 1, 2⟩]) := by
  unfold parseOBJ manyPositionsFace
  simp only
  rw [getLines_fileOfLines _ _ (fun l hl => by
      rcases List.mem_append.mp hl with h | h
      · rw [List.eq_of_mem_replicate h]; decide
      · rw [List.mem_singleton.mp h]; decide)
    (by decide)]
  show parseLines pv ([], []) (List.replicate n ['v'] ++ ["f 1 2 3".toList] ++ []) = _
  rw [List.append_nil, parseLines_replicate, parseLines, parseLine_f123]
  rfl

theorem manyPositionsFace_load (pv : List Char → Vec3 F) (self : Hedge F) (n : Nat)
    (hn : 3 ≤ castI n) :
    Hedge.loadFromOBJ pv self (some (manyPositionsFace n))
      = (LoadResult.returned true, buildMesh (List.replicate n (pv [])) [⟨0, 1, 2⟩]) := by
  apply loadFromOBJ_of_valid pv self _ _ _ (parseOBJ_manyPositionsFace pv n)
  rw [List.length_replicate, List.all_cons, List.all_nil, Bool.and_true, validFace_iff]
  refine ⟨⟨?_, ?_⟩, ⟨?_, ?_⟩, ⟨?_, ?_⟩⟩ <;> simp only <;> omega

theorem manyPositionsFace_fails (pv : List Char → Vec3 F) (self : Hedge F) (n : Nat)
    (hn : castI n < 3) :
    (Hedge.loadFromOBJ pv self (some (manyPositionsFace n))).1 = LoadResult.returned false := by
  rw [loadFromOBJ_result pv self _ _ _ (parseOBJ_manyPositionsFace pv n), if_neg]
  rw [List.length_replicate, List.all_cons, List.all_nil, Bool.and_true, validFace_iff]
  intro h
  have := h.2.2.2
  simp only at this
  omega

theorem manyPositions_load (pv : List Char → Vec3 F) (self : Hedge F) (n : Nat) :
    Hedge.loadFromOBJ pv self (some (manyPositions n))
      = (LoadResult.returned true, buildMesh (List.replicate n (pv [])) []) :=
  loadFromOBJ_of_valid pv self _ _ _ (parseOBJ_manyPositions pv n) rfl

theorem buildMesh_vertex_at (ps : List (Vec3 F)) (fs : List FaceIndex) (k : Nat)
    (hk : k < ps.length) :
    ∃ v, (buildMesh ps fs).vertices[k]? = some v ∧ v.index = castI k ∧
      v.edge = firstFrom (k : Int) (skeleton 0 0 fs) := by
  have hlt : k < (buildState ps fs).vertices.length := by
    rw [buildState_vertices_length]
    exact hk
  have hv : (buildState ps fs).vertices[k]? = some (buildState ps fs).vertices[k] :=
    List.getElem?_eq_getElem hlt
  refine ⟨_, hv, (buildState_vertex ps fs k _ hv).2, ?_⟩
  rw [buildState_vertexEdgeInv ps fs k _ hv, buildState_edges_strip]

/-- C6, amended: after a successful load of at most `2^32` position records, a vertex
whose index some half-edge starts from points to the earliest such half-edge in the
order of `edges`, and a vertex has no outgoing half-edge exactly when no triangle
references its index. -/
theorem loadFromOBJ_vertex_edge (pv : List Char → Vec3 F) (self : Hedge F)
    (file : Option (List Char)) (ps : List (Vec3 F)) (fs : List FaceIndex)
    (hp : parseOBJ pv file = some (ps, fs)) (hv : fs.all (validFace ps.length) = true)
    (hN : ps.length ≤ 4294967296)
    (i : Nat) (v : HEVertex F)
    (hvi : (Hedge.loadFromOBJ pv self file).2.vertices[i]? = some v) :
    ((∃ (j : Nat) (h : HalfEdge), (Hedge.loadFromOBJ pv self file).2.edges[j]? = some h ∧ h.fromIndex = v.index) →
      ∃ (j : Nat) (h : HalfEdge), v.edge = some j ∧ (Hedge.loadFromOBJ pv self file).2.edges[j]? = some h ∧
        h.fromIndex = v.index ∧
        ∀ (j2 : Nat) (h2 : HalfEdge), j2 < j → (Hedge.loadFromOBJ pv self file).2.edges[j2]? = some h2 →
          h2.fromIndex ≠ v.index) ∧
    (v.edge = none ↔ ∀ t ∈ fs, t.v0 ≠ v.index ∧ t.v1 ≠ v.index ∧ t.v2 ≠ v.index) := by
  rw [loadFromOBJ_of_valid pv self file ps fs hp hv] at hvi ⊢
  change (buildState ps fs).vertices[i]? = some v at hvi
  have hidx := (buildState_vertex ps fs i v hvi).2
  have hedge := buildState_vertexEdgeInv ps fs i v hvi
  have hilt : i < ps.length := by
    rw [← buildState_vertices_length ps fs]
    by_contra hcon
    rw [List.getElem?_eq_none (by omega)] at hvi
    cases hvi
  by_cases hi : i ≤ 2147483647
  · rw [hidx, castI_of_le i hi]
    constructor
    · rintro ⟨j, h, hj, hfrom⟩
      rw [firstFrom_map_strip] at hedge
      cases hff : firstFrom (i : Int) (buildState ps fs).edges with
      | none =>
        exact absurd hfrom ((firstFrom_none _ _).mp hff h (List.getElem?_mem hj))
      | some j1 =>
        obtain ⟨g, hg, hgx, hmin⟩ := firstFrom_some _ _ j1 hff
        exact ⟨j1, g, by rw [hedge, hff], hg, hgx, hmin⟩
    · rw [hedge, buildState_edges_strip, firstFrom_skeleton_none]
  · have hneg : v.index < 0 := by
      rw [hidx]
      unfold castI
      omega
    have hval := all_validFace _ _ hv
    have hmax := all_validFace_max _ _ hv
    constructor
    · rintro ⟨j, h, hj, hfrom⟩
      exfalso
      have := buildState_edge_valid ps fs hv h (List.getElem?_mem hj)
      omega
    · constructor
      · intro _ t ht
        have := hval t ht
        refine ⟨?_, ?_, ?_⟩ <;> omega
      · intro _
        rw [hedge, buildState_edges_strip, firstFrom_skeleton_none]
        intro t ht
        have := hmax t ht
        refine ⟨?_, ?_, ?_⟩ <;> omega

theorem loadFromOBJ_vertex_edge_witness :
    ((∃ (j : Nat) (h : HalfEdge), (Hedge.loadFromOBJ samplePos {} (some squareFile)).2.edges[j]? = some h ∧
        h.fromIndex = ({ position := ⟨6, 0, 0⟩, edge := some 4, index := 3 } : HEVertex Nat).index) →
      ∃ (j : Nat) (h : HalfEdge), ({ position := ⟨6, 0, 0⟩, edge := some 4, index := 3 } : HEVertex Nat).edge = some j ∧
        (Hedge.loadFromOBJ samplePos {} (some squareFile)).2.edges[j]? = some h ∧
        h.fromIndex = ({ position := ⟨6, 0, 0⟩, edge := some 4, index := 3 } : HEVertex Nat).index ∧
        ∀ (j2 : Nat) (h2 : HalfEdge), j2 < j → (Hedge.loadFromOBJ samplePos {} (some squareFile)).2.edges[j2]? = some h2 →
          h2.fromIndex ≠ ({ position := ⟨6, 0, 0⟩, edge := some 4, index := 3 } : HEVertex Nat).index) ∧
    (({ position := ⟨6, 0, 0⟩, edge := some 4, index := 3 } : HEVertex Nat).edge = none ↔
      ∀ t ∈ [(⟨0, 1, 2⟩ : FaceIndex), ⟨1, 3, 2⟩],
        t.v0 ≠ ({ position := ⟨6, 0, 0⟩, edge := some 4, index := 3 } : HEVertex Nat).index ∧
        t.v1 ≠ ({ position := ⟨6, 0, 0⟩, edge := some 4, index := 3 } : HEVertex Nat).index ∧
        t.v2 ≠ ({ position := ⟨6, 0, 0⟩, edge := some 4, index := 3 } : HEVertex Nat).index) :=
  loadFromOBJ_vertex_edge samplePos {} (some squareFile)
    [⟨6, 0, 0⟩, ⟨6, 0, 0⟩, ⟨6, 0, 0⟩, ⟨6, 0, 0⟩] [⟨0, 1, 2⟩, ⟨1, 3, 2⟩] (by decide) (by decide)
    (by decide) 3 { position := ⟨6, 0, 0⟩, edge := some 4, index := 3 } (by decide)

/-- C6 as stated fails: the file of `2^32 + 3` position records and the face `1 2 3`
loads; the vertex at position `2^32` carries the index `0`, the half-edge `0` starts
from index `0`, and the vertex has no outgoing half-edge. -/
theorem loadFromOBJ_vertex_edge_wraps :
    (Hedge.loadFromOBJ samplePos {} (some (manyPositionsFace 4294967299))).1
      = LoadResult.returned true ∧
    ∃ (v : HEVertex Nat) (h : HalfEdge),
      (Hedge.loadFromOBJ samplePos {} (some (manyPositionsFace 4294967299))).2.vertices[4294967296]?
        = some v ∧
      (Hedge.loadFromOBJ samplePos {} (some (manyPositionsFace 4294967299))).2.edges[0]?
        = some h ∧
      h.fromIndex = v.index ∧ v.edge = none := by
  have h3 : (3 : Int) ≤ castI 4294967299 := by decide
  rw [manyPositionsFace_load samplePos {} 4294967299 h3]
  refine ⟨rfl, ?_⟩
  obtain ⟨v, hv, hidx, hedge⟩ := buildMesh_vertex_at (List.replicate 4294967299 (samplePos []))
    [⟨0, 1, 2⟩] 4294967296 (by rw [List.length_replicate]; decide)
  obtain ⟨h, hh, -, hkey, -⟩ := buildState_edge_fields (List.replicate 4294967299 (samplePos []))
    [⟨0, 1, 2⟩] 0 0 ⟨0, 1, 2⟩ rfl (by decide)
  refine ⟨v, h, hv, hh, ?_, ?_⟩
  · have h0 : h.fromIndex = 0 := congrArg Prod.fst (Option.some.inj hkey)
    rw [h0, hidx]
    decide
  · rw [hedge]
    decide

/-- C7 as stated fails: the file of `2^31 + 1` position records loads, `vertices` has
`2^31 + 1` entries, and the vertex at position `2^31` carries the index `-2^31`. -/
theorem loadFromOBJ_vertex_index_wraps :
    (Hedge.loadFromOBJ samplePos {} (some (manyPositions 2147483649))).1
      = LoadResult.returned true ∧
    (Hedge.loadFromOBJ samplePos {} (some (manyPositions 2147483649))).2.vertices.length
      = 2147483649 ∧
    ∃ v : HEVertex Nat,
      (Hedge.loadFromOBJ samplePos {} (some (manyPositions 2147483649))).2.vertices[2147483648]?
        = some v ∧ v.index = -2147483648 := by
  rw [manyPositions_load samplePos {} 2147483649]
  refine ⟨rfl, ?_, ?_⟩
  · show (buildState (List.replicate 2147483649 (samplePos [])) []).vertices.length = _
    rw [buildState_vertices_length, List.length_replicate]
  · obtain ⟨v, hv, hidx, -⟩ := buildMesh_vertex_at (List.replicate 2147483649 (samplePos []))
      [] 2147483648 (by rw [List.length_replicate]; decide)
    exact ⟨v, hv, by rw [hidx]; decide⟩

/-- C12 as stated fails: on the file of `2^31` position records and the face `1 2 3` the
load returns false, although no index of the one parsed triangle `(0, 1, 2)` is negative
or reaches the number of position records. -/
theorem loadFromOBJ_false_in_range :
    (Hedge.loadFromOBJ samplePos {} (some (manyPositionsFace 2147483648))).1
      = LoadResult.returned false ∧
    parseOBJ samplePos (some (manyPositionsFace 2147483648))
      = some (List.replicate 2147483648 (samplePos []), [⟨0, 1, 2⟩]) ∧
    (vRecords samplePos (some (manyPositionsFace 2147483648))).length = 2147483648 ∧
    ¬ ∃ t ∈ [(⟨0, 1, 2⟩ : FaceIndex)], t.OutOfRange 2147483648 := by
  have hp := parseOBJ_manyPositionsFace samplePos 2147483648
  refine ⟨manyPositionsFace_fails samplePos {} 2147483648 (by decide), hp, ?_, ?_⟩
  · rw [← parseOBJ_positions samplePos _ _ _ hp, List.length_replicate]
  · rintro ⟨t, ht, hout⟩
    rw [List.mem_singleton.mp ht] at hout
    revert hout
    decide

end HalfEdgeMesh

namespace SphereMesh

open HalfEdgeMesh
variable {F : Type}

theorem wrapInt_of_range (x : Int) (h0 : -2147483648 ≤ x) (h1 : x ≤ 2147483647) :
    wrapInt x = x := by
  unfold wrapInt
  omega

theorem wrapInt_range (x : Int) : -2147483648 ≤ wrapInt x ∧ wrapInt x ≤ 2147483647 := by
  unfold wrapInt
  omega

theorem wrapInt_modEq (x : Int) : Int.ModEq 4294967296 (wrapInt x) x := by
  unfold Int.ModEq wrapInt
  omega

theorem castU_congr (x y : Int) (h : Int.ModEq 4294967296 x y) : castU x = castU y := by
  unfold castU
  rw [h]

theorem castU_le (x : Int) (h : 0 ≤ x) : ((castU x : Nat) : Int) ≤ x := by
  unfold castU
  omega

/-- A counting loop whose counter reaches the bound `b` without wrap-around. -/
theorem intLoop_counting {α : Type} (cond : Int → Bool) (body : Int → Option (List α))
    (g : Int → List α) (b : Int) (hb : b ≤ 2147483647)
    (fuel : Nat) (i : Int) (hi0 : -2147483648 ≤ i) (hib : i ≤ b)
    (hcond : ∀ k, i ≤ k → k ≤ b → (cond k = true ↔ k < b))
    (hbody : ∀ k, i ≤ k → k < b → body k = some (g k))
    (hfuel : (b - i).toNat < fuel) :
    intLoop cond body fuel i = some (forLoop g (b - i).toNat i) := by
  induction fuel generalizing i with
  | zero => omega
  | succ fuel ih =>
    unfold intLoop
    by_cases hlt : i < b
    · rw [if_pos ((hcond i (le_refl _) hib).mpr hlt), hbody i (le_refl _) hlt]
      have hw : wrapInt (i + 1) = i + 1 := wrapInt_of_range _ (by omega) (by omega)
      rw [hw, ih (i + 1) (by omega) (by omega)
        (fun k h1 h2 => hcond k (by omega) h2) (fun k h1 h2 => hbody k (by omega) h2)
        (by omega)]
      have hn : (b - i).toNat = (b - (i + 1)).toNat + 1 := by omega
      rw [hn]
      rfl
    · have hc : ¬ cond i = true := fun h => hlt ((hcond i (le_refl _) hib).mp h)
      rw [if_neg hc]
      have hn : (b - i).toNat = 0 := by omega
      rw [hn]
      rfl

/-- A loop whose condition holds for every `int` is never left. -/
theorem intLoop_never {α : Type} (cond : Int → Bool) (body : Int → Option (List α))
    (hcond : ∀ k, -2147483648 ≤ k → k ≤ 2147483647 → cond k = true)
    (fuel : Nat) (i : Int) (hi0 : -2147483648 ≤ i) (hi1 : i ≤ 2147483647) :
    intLoop cond body fuel i = none := by
  induction fuel generalizing i with
  | zero => rfl
  | succ fuel ih =>
    unfold intLoop
    rw [if_pos (hcond i hi0 hi1), ih _ (wrapInt_range _).1 (wrapInt_range _).2]
    cases body i <;> rfl

theorem forLoop_mem {α : Type} (body : Int → List α) (n : Nat) (i0 : Int) (x : α)
    (hx : x ∈ forLoop body n i0) : ∃ k : Nat, k < n ∧ x ∈ body (i0 + k) := by
  induction n generalizing i0 with
  | zero => simp [forLoop] at hx
  | succ n ih =>
    simp only [forLoop, List.mem_append] at hx
    rcases hx with hx | hx
    · exact ⟨0, by omega, by simpa using hx⟩
    · obtain ⟨k, hk, hxk⟩ := ih (i0 + 1) hx
      refine ⟨k + 1, by omega, ?_⟩
      have : i0 + ((k + 1 : Nat) : Int) = i0 + 1 + (k : Int) := by push_cast; ring
      rw [this]
      exact hxk

theorem forLoop_length_const {α : Type} (body : Int → List α) (n : Nat) (i0 : Int) (c : Nat)
    (hc : ∀ k : Nat, k < n → (body (i0 + k)).length = c) :
    (forLoop body n i0).length = n * c := by
  induction n generalizing i0 with
  | zero => simp [forLoop]
  | succ n ih =>
    simp only [forLoop, List.length_append]
    have h0 := hc 0 (by omega)
    simp only [Nat.cast_zero, add_zero] at h0
    rw [h0, ih (i0 + 1)]
    · ring
    · intro k hk
      have := hc (k + 1) (by omega)
      have e : i0 + ((k + 1 : Nat) : Int) = i0 + 1 + (k : Int) := by push_cast; ring
      rw [e] at this
      exact this

theorem forLoop_append {α : Type} (body : Int → List α) (a b : Nat) (i0 : Int) :
    forLoop body (a + b) i0 = forLoop body a i0 ++ forLoop body b (i0 + a) := by
  induction a generalizing i0 with
  | zero => simp [forLoop]
  | succ a ih =>
    have e : a + 1 + b = (a + b) + 1 := by omega
    rw [e]
    simp only [forLoop, List.append_assoc]
    rw [ih (i0 + 1)]
    congr 3
    push_cast
    ring

theorem sphereIndexValues_eq (S T : Int) (hS0 : 0 ≤ S) (hS1 : S ≤ 2147483647) (hT0 : 0 ≤ T)
    (hT1 : T ≤ 2147483647) : sphereIndexValues S T = some (gridIndexValues S T) := by
  unfold sphereIndexValues gridIndexValues
  have h := intLoop_counting (fun i => decide (i < S))
    (fun i => intLoop (fun j => decide (j < T)) (fun j => some (sectorIndices S T i j))
      loopFuel 0)
    (fun i => forLoop (fun j => sectorIndices S T i j) T.toNat 0) S hS1 loopFuel 0
    (by omega) hS0 (fun k _ _ => by simp) (fun i _ _ => by
      have h2 := intLoop_counting (fun j => decide (j < T))
        (fun j => some (sectorIndices S T i j)) (fun j => sectorIndices S T i j) T hT1 loopFuel 0
        (by omega) hT0 (fun k _ _ => by simp) (fun k _ _ => rfl)
        (by unfold loopFuel; omega)
      rw [sub_zero] at h2
      exact h2)
    (by unfold loopFuel; omega)
  rw [sub_zero] at h
  exact h

theorem sphereVertices_eq (vertexAt : Int → Int → SphereVertex F) (S T : Int) (hS0 : 0 ≤ S)
    (hS1 : S < 2147483647) (hT0 : 0 ≤ T) (hT1 : T < 2147483647) :
    sphereVertices vertexAt S T = some (gridVertices vertexAt S T) := by
  unfold sphereVertices gridVertices
  have h := intLoop_counting (fun i => decide (i ≤ S))
    (fun i => intLoop (fun j => decide (j ≤ T)) (fun j => some [vertexAt i j]) loopFuel 0)
    (fun i => forLoop (fun j => [vertexAt i j]) (T + 1).toNat 0) (S + 1) (by omega) loopFuel 0
    (by omega) (by omega) (fun k _ _ => by simp; omega) (fun i _ _ => by
      have h2 := intLoop_counting (fun j => decide (j ≤ T))
        (fun j => some [vertexAt i j]) (fun j => [vertexAt i j]) (T + 1) (by omega) loopFuel 0
        (by omega) (by omega) (fun k _ _ => by simp; omega) (fun k _ _ => rfl)
        (by unfold loopFuel; omega)
      rw [sub_zero] at h2
      exact h2)
    (by unfold loopFuel; omega)
  rw [sub_zero] at h
  exact h

theorem sphereVertices_none (vertexAt : Int → Int → SphereVertex F) (S T : Int) (hS0 : 0 ≤ S)
    (hS1 : S ≤ 2147483647) (hT1 : T ≤ 2147483647)
    (hmax : S = 2147483647 ∨ T = 2147483647) : sphereVertices vertexAt S T = none := by
  unfold sphereVertices
  by_cases hT : T = 2147483647
  · have hinner : ∀ i, intLoop (fun j => decide (j ≤ T)) (fun j => some [vertexAt i j])
        loopFuel 0 = none := fun i =>
      intLoop_never _ _ (fun k _ hk => by simp; omega) _ 0 (by omega) (by omega)
    show intLoop _ _ (4294967296 + 1) 0 = none
    unfold intLoop
    rw [if_pos (by simp; exact hS0), hinner 0]
  · have hS : S = 2147483647 := by omega
    exact intLoop_never _ _ (fun k _ hk => by simp; omega) _ 0 (by omega) (by omega)

theorem createSphere_eq (vertexAt : Int → Int → SphereVertex F) (S T : Int) (hS0 : 0 ≤ S)
    (hS1 : S < 2147483647) (hT0 : 0 ≤ T) (hT1 : T < 2147483647) :
    createSphere vertexAt S T = some
      { vertices := gridVertices vertexAt S T
        indices := (gridIndexValues S T).map castU
        indexCount := castI ((gridIndexValues S T).map castU).length } := by
  unfold createSphere
  rw [sphereVertices_eq vertexAt S T hS0 hS1 hT0 hT1,
    sphereIndexValues_eq S T hS0 (by omega) hT0 (by omega)]

theorem createSphere_none (vertexAt : Int → Int → SphereVertex F) (S T : Int) (hS0 : 0 ≤ S)
    (hS1 : S ≤ 2147483647) (hT1 : T ≤ 2147483647)
    (hmax : S = 2147483647 ∨ T = 2147483647) : createSphere vertexAt S T = none := by
  unfold createSphere
  rw [sphereVertices_none vertexAt S T hS0 hS1 hT1 hmax]

theorem gridVertices_length (vertexAt : Int → Int → SphereVertex F) (S T : Int) :
    (gridVertices vertexAt S T).length = (S + 1).toNat * (T + 1).toNat := by
  unfold gridVertices
  apply forLoop_length_const
  intro k _
  show (forLoop (fun j => [vertexAt ((0 : Int) + k) j]) (T + 1).toNat 0).length = _
  rw [forLoop_length_const (fun j => [vertexAt ((0 : Int) + k) j]) _ _ 1 (fun _ _ => rfl)]
  ring

theorem sectorIndices_length (S T i j : Int) :
    (sectorIndices S T i j).length
      = (if i ≠ 0 then 3 else 0) + (if i ≠ wrapInt (S - 1) then 3 else 0) := by
  unfold sectorIndices
  simp only [List.length_append]
  split_ifs <;> rfl

theorem stack_length (S T i : Int) :
    (forLoop (fun j => sectorIndices S T i j) T.toNat 0).length
      = T.toNat * ((if i ≠ 0 then 3 else 0) + (if i ≠ wrapInt (S - 1) then 3 else 0)) := by
  apply forLoop_length_const
  intro k _
  exact sectorIndices_length S T i _

theorem stacks_length (S T : Int) (n : Nat) (i0 : Int) (c : Nat)
    (hc : ∀ k : Nat, k < n →
      ((if i0 + (k : Int) ≠ 0 then 3 else 0)
        + (if i0 + (k : Int) ≠ wrapInt (S - 1) then 3 else 0)) = c) :
    (forLoop (fun i => forLoop (fun j => sectorIndices S T i j) T.toNat 0) n i0).length
      = n * (T.toNat * c) := by
  apply forLoop_length_const
  intro k hk
  show (forLoop (fun j => sectorIndices S T (i0 + k) j) T.toNat 0).length = _
  rw [stack_length, hc k hk]

theorem gridIndexValues_length (S T : Int) (hS : 1 ≤ S) (hS1 : S ≤ 2147483647) :
    (gridIndexValues S T).length = 6 * T.toNat * (S.toNat - 1) := by
  have hw : wrapInt (S - 1) = S - 1 := wrapInt_of_range _ (by omega) (by omega)
  unfold gridIndexValues
  by_cases h1 : S = 1
  · subst h1
    rw [stacks_length 1 T _ 0 0]
    · simp
    · intro k hk
      have hk0 : k = 0 := by
        have : (1 : Int).toNat = 1 := rfl
        omega
      subst hk0
      rw [hw]
      simp
  · obtain ⟨d, hd⟩ : ∃ d : Nat, S.toNat = 1 + (d + 1) := ⟨S.toNat - 2, by omega⟩
    have hSd : S = (d : Int) + 2 := by omega
    rw [hd, forLoop_append, forLoop_append, List.length_append, List.length_append,
      stacks_length S T 1 0 3, stacks_length S T d _ 6, stacks_length S T 1 _ 3]
    · have : 1 + (d + 1) - 1 = d + 1 := by omega
      rw [this]
      ring
    · intro k hk
      have a1 : (0 : Int) + ((1 : Nat) : Int) + (d : Int) + (k : Int) ≠ 0 := by omega
      have a2 : ¬ ((0 : Int) + ((1 : Nat) : Int) + (d : Int) + (k : Int) ≠ wrapInt (S - 1)) := by
        rw [hw]; omega
      rw [if_pos a1, if_neg a2]
    · intro k hk
      have a1 : (0 : Int) + ((1 : Nat) : Int) + (k : Int) ≠ 0 := by omega
      have a2 : (0 : Int) + ((1 : Nat) : Int) + (k : Int) ≠ wrapInt (S - 1) := by
        rw [hw]; omega
      rw [if_pos a1, if_pos a2]
    · intro k hk
      have a1 : ¬ ((0 : Int) + (k : Int) ≠ 0) := by omega
      have a2 : (0 : Int) + (k : Int) ≠ wrapInt (S - 1) := by rw [hw]; omega
      rw [if_neg a1, if_pos a2]

/-- Every value pushed for a sector is, modulo `2^32`, one of the four corners of the
grid cell. -/
theorem sectorIndices_mem (S T i j y : Int) (hy : y ∈ sectorIndices S T i j) :
    -2147483648 ≤ y ∧ y ≤ 2147483647 ∧
    ∃ e : Int, Int.ModEq 4294967296 y e ∧
      (e = i * (T + 1) + j ∨ e = (i + 1) * (T + 1) + j ∨ e = i * (T + 1) + j + 1 ∨
        e = (i + 1) * (T + 1) + j + 1) := by
  have k1 : Int.ModEq 4294967296 (wrapInt (i * wrapInt (T + 1))) (i * (T + 1)) :=
    (wrapInt_modEq _).trans (Int.ModEq.mul (Int.ModEq.refl i) (wrapInt_modEq _))
  have k2 : Int.ModEq 4294967296 (wrapInt (wrapInt (i + 1) * wrapInt (T + 1)))
      ((i + 1) * (T + 1)) :=
    (wrapInt_modEq _).trans (Int.ModEq.mul (wrapInt_modEq _) (wrapInt_modEq _))
  have e1 : Int.ModEq 4294967296 (wrapInt (wrapInt (i * wrapInt (T + 1)) + j))
      (i * (T + 1) + j) :=
    (wrapInt_modEq _).trans (Int.ModEq.add k1 (Int.ModEq.refl j))
  have e2 : Int.ModEq 4294967296 (wrapInt (wrapInt (wrapInt (i + 1) * wrapInt (T + 1)) + j))
      ((i + 1) * (T + 1) + j) :=
    (wrapInt_modEq _).trans (Int.ModEq.add k2 (Int.ModEq.refl j))
  have e3 : Int.ModEq 4294967296 (wrapInt (wrapInt (wrapInt (i * wrapInt (T + 1)) + j) + 1))
      (i * (T + 1) + j + 1) :=
    (wrapInt_modEq _).trans (Int.ModEq.add e1 (Int.ModEq.refl 1))
  have e4 : Int.ModEq 4294967296
      (wrapInt (wrapInt (wrapInt (wrapInt (i + 1) * wrapInt (T + 1)) + j) + 1))
      ((i + 1) * (T + 1) + j + 1) :=
    (wrapInt_modEq _).trans (Int.ModEq.add e2 (Int.ModEq.refl 1))
  simp only [sectorIndices, List.mem_append] at hy
  rcases hy with hy | hy
  · split_ifs at hy
    · simp only [List.mem_cons, List.mem_singleton, List.not_mem_nil, or_false] at hy
      rcases hy with h | h | h <;> subst h
      · exact ⟨(wrapInt_range _).1, (wrapInt_range _).2, _, e1, Or.inl rfl⟩
      · exact ⟨(wrapInt_range _).1, (wrapInt_range _).2, _, e2, Or.inr (Or.inl rfl)⟩
      · exact ⟨(wrapInt_range _).1, (wrapInt_range _).2, _, e3, Or.inr (Or.inr (Or.inl rfl))⟩
    · simp at hy
  · split_ifs at hy
    · simp only [List.mem_cons, List.mem_singleton, List.not_mem_nil, or_false] at hy
      rcases hy with h | h | h <;> subst h
      · exact ⟨(wrapInt_range _).1, (wrapInt_range _).2, _, e3, Or.inr (Or.inr (Or.inl rfl))⟩
      · exact ⟨(wrapInt_range _).1, (wrapInt_range _).2, _, e2, Or.inr (Or.inl rfl)⟩
      · exact ⟨(wrapInt_range _).1, (wrapInt_range _).2, _, e4, Or.inr (Or.inr (Or.inr rfl))⟩
    · simp at hy

/-- Every value of the index loops is, modulo `2^32`, a number of the grid: at least `0`
and below `(S+1) * (T+1)`. -/
theorem gridIndexValues_mem (S T : Int) (y : Int) (hy : y ∈ gridIndexValues S T) :
    -2147483648 ≤ y ∧ y ≤ 2147483647 ∧
    ∃ e : Int, Int.ModEq 4294967296 y e ∧ 0 ≤ e ∧ e < (S + 1) * (T + 1) := by
  unfold gridIndexValues at hy
  obtain ⟨i, hi, hy1⟩ := forLoop_mem _ _ _ _ hy
  obtain ⟨j, hj, hy2⟩ := forLoop_mem _ _ _ _ hy1
  obtain ⟨h0, h1, e, he, hcase⟩ := sectorIndices_mem S T _ _ y hy2
  have hi0 : (0 : Int) ≤ i := Int.natCast_nonneg i
  have hj0 : (0 : Int) ≤ j := Int.natCast_nonneg j
  have hiS : (i : Int) + 1 ≤ S := by omega
  have hjT : (j : Int) + 1 ≤ T := by omega
  have m1 : 0 ≤ (i : Int) * (T + 1) := mul_nonneg hi0 (by omega)
  have m2 : ((i : Int) + 1) * (T + 1) ≤ S * (T + 1) :=
    mul_le_mul_of_nonneg_right hiS (by omega)
  refine ⟨h0, h1, e, he, ?_⟩
  simp only [zero_add] at hcase
  rcases hcase with h | h | h | h <;> subst h <;> constructor <;> linarith

/-- C27: for `int` values `stackCount ≥ 1` and `sectorCount ≥ 1`, whenever `createSphere`
returns it has generated `(stackCount+1) * (sectorCount+1)` vertices, every index it has
stored is below that number, and the number of indices is a multiple of three; it
returns whenever both counts are below `INT_MAX`; and when the number of vertices fits an
`int`, no index computation wraps around: every pushed `int` is at least `0` and below
the number of vertices. -/
theorem createSphere_indices_in_range (vertexAt : Int → Int → SphereVertex F)
    (stackCount sectorCount : Int) (hS : 1 ≤ stackCount) (hT : 1 ≤ sectorCount)
    (hSmax : stackCount ≤ 2147483647) (hTmax : sectorCount ≤ 2147483647) :
    (∀ d, createSphere vertexAt stackCount sectorCount = some d →
      (d.vertices.length : Int) = (stackCount + 1) * (sectorCount + 1) ∧
      (∀ x ∈ d.indices, x < d.vertices.length) ∧
      d.indices.length % 3 = 0) ∧
    (stackCount < 2147483647 → sectorCount < 2147483647 →
      ∃ d, createSphere vertexAt stackCount sectorCount = some d) ∧
    ((stackCount + 1) * (sectorCount + 1) ≤ 2147483647 →
      ∀ values, sphereIndexValues stackCount sectorCount = some values →
        ∀ y ∈ values, 0 ≤ y ∧ y < (stackCount + 1) * (sectorCount + 1)) := by
  refine ⟨?_, ?_, ?_⟩
  · intro d hd
    by_cases hmax : stackCount = 2147483647 ∨ sectorCount = 2147483647
    · rw [createSphere_none vertexAt _ _ (by omega) hSmax hTmax hmax] at hd
      cases hd
    · rw [createSphere_eq vertexAt _ _ (by omega) (by omega) (by omega) (by omega)] at hd
      have hd2 := (Option.some.inj hd).symm
      subst hd2
      have hlen : (((gridVertices vertexAt stackCount sectorCount).length : Nat) : Int)
          = (stackCount + 1) * (sectorCount + 1) := by
        rw [gridVertices_length]
        push_cast
        rw [Int.toNat_of_nonneg (by omega), Int.toNat_of_nonneg (by omega)]
      refine ⟨hlen, ?_, ?_⟩
      · intro x hx
        obtain ⟨y, hy, rfl⟩ := List.mem_map.mp hx
        obtain ⟨-, -, e, he, he0, he1⟩ := gridIndexValues_mem stackCount sectorCount y hy
        rw [castU_congr y e he]
        have hc := castU_le e he0
        have : ((castU e : Nat) : Int)
            < ((gridVertices vertexAt stackCount sectorCount).length : Nat) := by
          rw [hlen]
          omega
        exact_mod_cast this
      · show ((gridIndexValues stackCount sectorCount).map castU).length % 3 = 0
        rw [List.length_map, gridIndexValues_length stackCount sectorCount hS hSmax]
        have : 6 * sectorCount.toNat * (stackCount.toNat - 1)
            = 3 * (2 * sectorCount.toNat * (stackCount.toNat - 1)) := by ring
        rw [this]
        exact Nat.mul_mod_right _ _
  · intro h1 h2
    exact ⟨_, createSphere_eq vertexAt _ _ (by omega) h1 (by omega) h2⟩
  · intro hfit values hv y hy
    rw [sphereIndexValues_eq _ _ (by omega) hSmax (by omega) hTmax] at hv
    have hv2 := (Option.some.inj hv).symm
    subst hv2
    obtain ⟨y0, y1, e, he, he0, he1⟩ := gridIndexValues_mem stackCount sectorCount y hy
    have hye : y = e := by
      unfold Int.ModEq at he
      omega
    rw [hye]
    exact ⟨he0, he1⟩

theorem createSphere_indices_in_range_witness :
    (∀ d, createSphere sampleVertex 2 3 = some d →
      (d.vertices.length : Int) = (2 + 1) * (3 + 1) ∧
      (∀ x ∈ d.indices, x < d.vertices.length) ∧
      d.indices.length % 3 = 0) ∧
    ((2 : Int) < 2147483647 → (3 : Int) < 2147483647 →
      ∃ d, createSphere sampleVertex 2 3 = some d) ∧
    (((2 : Int) + 1) * (3 + 1) ≤ 2147483647 →
      ∀ values, sphereIndexValues 2 3 = some values →
        ∀ y ∈ values, 0 ≤ y ∧ y < ((2 : Int) + 1) * (3 + 1)) :=
  createSphere_indices_in_range sampleVertex 2 3 (by decide) (by decide) (by decide) (by decide)

theorem createSphere_count (vertexAt : Int → Int → SphereVertex F) (S T : Int) (hS : 1 ≤ S)
    (hT : 0 ≤ T) (hS1 : S < 2147483647) (hT1 : T < 2147483647) :
    ∃ d, createSphere vertexAt S T = some d ∧ (d.indices.length : Int) = 6 * T * (S - 1) ∧
      d.indexCount = castI d.indices.length := by
  refine ⟨_, createSphere_eq vertexAt S T (by omega) hS1 hT hT1, ?_, rfl⟩
  show ((((gridIndexValues S T).map castU).length : Nat) : Int) = _
  rw [List.length_map, gridIndexValues_length S T hS (by omega)]
  have e : S.toNat - 1 = (S - 1).toNat := by omega
  rw [e]
  push_cast
  rw [Int.toNat_of_nonneg hT, Int.toNat_of_nonneg (by omega)]

/-- C28, amended: for `int` values `stackCount ≥ 1` and `sectorCount ≥ 0` below `INT_MAX`
with `6 * sectorCount * (stackCount - 1) ≤ 2^31 - 1`, `createSphere` returns and sets
`indexCount` to `6 * sectorCount * (stackCount - 1)`, the number of stored indices: a
sector of the stack `i` contributes one triangle unless `i` is the top stack and one more
unless `i` is the bottom stack; for the call with 32 stacks and 64 sectors `indexCount`
is 11904. -/
theorem createSphere_indexCount (vertexAt : Int → Int → SphereVertex F)
    (stackCount sectorCount : Int) (hS : 1 ≤ stackCount) (hT : 0 ≤ sectorCount)
    (hSmax : stackCount < 2147483647) (hTmax : sectorCount < 2147483647)
    (hfit : 6 * sectorCount * (stackCount - 1) ≤ 2147483647) :
    (∃ d, createSphere vertexAt stackCount sectorCount = some d ∧
      (d.indices.length : Int) = 6 * sectorCount * (stackCount - 1) ∧
      d.indexCount = 6 * sectorCount * (stackCount - 1)) ∧
    (∀ i j : Int, (sectorIndices stackCount sectorCount i j).length
      = 3 * ((if i ≠ 0 then 1 else 0) + (if i ≠ stackCount - 1 then 1 else 0))) ∧
    (∃ d, createSphere vertexAt 32 64 = some d ∧ d.indexCount = 11904) := by
  refine ⟨?_, ?_, ?_⟩
  · obtain ⟨d, hd, hlen, hcount⟩ := createSphere_count vertexAt _ _ hS hT hSmax hTmax
    refine ⟨d, hd, hlen, ?_⟩
    have hnn : 0 ≤ 6 * sectorCount * (stackCount - 1) :=
      mul_nonneg (by omega) (by omega)
    rw [hcount, castI_of_le _ (by omega), hlen]
  · intro i j
    rw [sectorIndices_length, wrapInt_of_range _ (by omega) (by omega)]
    split_ifs <;> rfl
  · obtain ⟨d, hd, hlen, hcount⟩ := createSphere_count vertexAt 32 64 (by decide) (by decide)
      (by decide) (by decide)
    refine ⟨d, hd, ?_⟩
    have h2 : d.indices.length = 11904 := by
      have : (d.indices.length : Int) = 11904 := by rw [hlen]; norm_num
      exact_mod_cast this
    rw [hcount, h2]
    decide

theorem createSphere_indexCount_witness :
    (∃ d, createSphere sampleVertex 32 64 = some d ∧
      (d.indices.length : Int) = 6 * 64 * (32 - 1) ∧
      d.indexCount = 6 * 64 * (32 - 1)) ∧
    (∀ i j : Int, (sectorIndices 32 64 i j).length
      = 3 * ((if i ≠ 0 then 1 else 0) + (if i ≠ 32 - 1 then 1 else 0))) ∧
    (∃ d, createSphere sampleVertex 32 64 = some d ∧ d.indexCount = 11904) :=
  createSphere_indexCount sampleVertex 32 64 (by decide) (by decide) (by decide) (by decide)
    (by decide)

/-- C28 as stated fails: for 2 stacks and 400000000 sectors `createSphere` returns with
`6 * 400000000 * (2 - 1) = 2400000000` stored indices, and `indexCount`, an `int`, is
`-1894967296`. -/
theorem createSphere_indexCount_wraps :
    ∃ d, createSphere sampleVertex 2 400000000 = some d ∧
      (d.indices.length : Int) = 6 * 400000000 * (2 - 1) ∧
      d.indexCount = -1894967296 ∧ d.indexCount ≠ 6 * 400000000 * (2 - 1) := by
  obtain ⟨d, hd, hlen, hcount⟩ := createSphere_count sampleVertex 2 400000000 (by decide)
    (by decide) (by decide) (by decide)
  have h2 : d.indices.length = 2400000000 := by
    have : (d.indices.length : Int) = 2400000000 := by rw [hlen]; norm_num
    exact_mod_cast this
  have h3 : d.indexCount = -1894967296 := by
    rw [hcount, h2]
    decide
  exact ⟨d, hd, hlen, h3, by rw [h3]; decide⟩

end SphereMesh

namespace SnowParticles

variable {R : Type}

theorem respawnParticle_active (M : Machine R) (rng : Nat) (p : Particle R) :
    (respawnParticle M rng p).1.active = true := rfl

theorem moveParticle_active (M : Machine R) (dt e : R) (i : Int) (rng : Nat) (p : Particle R)
    (hp : p.active = true) : (moveParticle M dt e i rng p).1.active = true := by
  unfold moveParticle
  dsimp only
  split
  · rfl
  · exact hp

theorem getParticle_of_lt (ps : List (Particle R)) (i : Int) (h0 : 0 ≤ i)
    (h1 : i < ps.length) : getParticle ps i = some (ps.get ⟨i.toNat, by omega⟩) := by
  unfold getParticle
  rw [if_neg (by omega)]
  exact List.getElem?_eq_getElem (by omega)

theorem active_set (ps : List (Particle R)) (j : Nat) (q : Particle R) (ac : Int)
    (hq : q.active = true)
    (h : ∀ (i : Nat) (p : Particle R), (i : Int) < ac → i ≠ j → ps[i]? = some p →
      p.active = true) :
    ∀ (i : Nat) (p : Particle R), (i : Int) < ac → (ps.set j q)[i]? = some p →
      p.active = true := by
  intro i p hi hp
  by_cases hij : i = j
  · subst hij
    by_cases hlt : i < ps.length
    · rw [List.getElem?_set_self hlt] at hp
      rw [← Option.some.inj hp]
      exact hq
    · rw [List.getElem?_eq_none (by simp; omega)] at hp
      cases hp
  · rw [List.getElem?_set_ne (fun h => hij h.symm)] at hp
    exact h i p hi hij hp

theorem spawnLoop_inv (M : Machine R) (targetActive : Int) (ht : targetActive ≤ MAX_PARTICLES)
    (fuel : Nat) (s : SnowState R) (hs : PoolInv s)
    (hf : (targetActive - s.activeCount).toNat ≤ fuel) :
    ∃ s1, spawnLoop M targetActive fuel s = some s1 ∧ PoolInv s1 ∧
      s.activeCount ≤ s1.activeCount := by
  induction fuel generalizing s with
  | zero =>
    refine ⟨s, ?_, hs, le_refl _⟩
    unfold spawnLoop
    rw [if_neg (by omega)]
  | succ fuel ih =>
    unfold spawnLoop
    by_cases hc : s.activeCount < targetActive
    · rw [if_pos hc]
      obtain ⟨hlen, h0, h1, hact⟩ := hs
      have hM : MAX_PARTICLES = 1000 := rfl
      rw [getParticle_of_lt s.particles s.activeCount h0 (by omega)]
      dsimp only
      obtain ⟨s1, e1, i1, m1⟩ := ih
        { s with
          particles := s.particles.set s.activeCount.toNat
            (respawnParticle M s.rng (s.particles.get ⟨s.activeCount.toNat, by omega⟩)).1,
          activeCount := s.activeCount + 1,
          rng := (respawnParticle M s.rng (s.particles.get ⟨s.activeCount.toNat, by omega⟩)).2 }
        (by
          refine ⟨by simp [hlen], by simp only; omega, by simp only; omega, ?_⟩
          apply active_set _ _ _ _ (respawnParticle_active _ _ _)
          intro i p hi hne hp
          apply hact i p _ hp
          simp only at hi
          omega)
        (by simp only; omega)
      exact ⟨s1, e1, i1, by simp only at m1; omega⟩
    · rw [if_neg hc]
      exact ⟨s, rfl, hs, le_refl _⟩

theorem moveLoop_inv (M : Machine R) (dt : R) (n : Nat) (i : Int) (s : SnowState R)
    (hs : PoolInv s) (hi : 0 ≤ i) (hn : i + n ≤ s.activeCount) :
    ∃ s1, moveLoop M dt n i s = some s1 ∧ PoolInv s1 ∧ s1.activeCount = s.activeCount := by
  induction n generalizing i s with
  | zero => exact ⟨s, rfl, hs, rfl⟩
  | succ n ih =>
    unfold moveLoop
    obtain ⟨hlen, h0, h1, hact⟩ := hs
    have hM : MAX_PARTICLES = 1000 := rfl
    have hin : i < s.activeCount := by push_cast at hn; omega
    rw [getParticle_of_lt s.particles i hi (by omega)]
    dsimp only
    have hpa : (s.particles.get ⟨i.toNat, by omega⟩).active = true :=
      hact i.toNat _ (by omega) (List.getElem?_eq_getElem (by omega))
    rw [hpa]
    simp only [Bool.not_true, Bool.false_eq_true, if_false]
    obtain ⟨s1, e1, i1, m1⟩ := ih (i + 1)
      { s with
        particles := s.particles.set i.toNat
          (moveParticle M dt s.elapsedTime i s.rng (s.particles.get ⟨i.toNat, by omega⟩)).1,
        rng := (moveParticle M dt s.elapsedTime i s.rng
          (s.particles.get ⟨i.toNat, by omega⟩)).2 }
      (by
        refine ⟨by simp [hlen], h0, h1, ?_⟩
        apply active_set _ _ _ _ (moveParticle_active _ _ _ _ _ _ hpa)
        intro j p hj _ hp
        exact hact j p hj hp)
      (by omega) (by simp only; push_cast at hn; omega)
    exact ⟨s1, e1, i1, m1⟩

theorem updateParticles_inv (M : Machine R)
    (hle : ∀ x, M.toInt (fmin M x (M.ofInt MAX_PARTICLES)) ≤ MAX_PARTICLES)
    (dt : R) (s : SnowState R) (hs : PoolInv s) :
    ∃ s1, updateParticles M dt s = some s1 ∧ PoolInv s1 ∧ s.activeCount ≤ s1.activeCount := by
  unfold updateParticles
  dsimp only
  obtain ⟨s2, e2, i2, m2⟩ := spawnLoop_inv M _ (hle (M.mul (M.add s.elapsedTime dt) (spawnRate M)))
    _ { s with elapsedTime := M.add s.elapsedTime dt } hs (le_refl _)
  rw [e2]
  dsimp only
  obtain ⟨s3, e3, i3, m3⟩ := moveLoop_inv M dt s2.activeCount.toNat 0 s2 i2 (le_refl _)
    (by have := i2.2.1; omega)
  exact ⟨s3, e3, i3, by rw [m3]; exact m2⟩

theorem run_inv (M : Machine R)
    (hle : ∀ x, M.toInt (fmin M x (M.ofInt MAX_PARTICLES)) ≤ MAX_PARTICLES)
    (dts : List R) (s : SnowState R) (hs : PoolInv s) :
    ∃ s1, run M dts s = some s1 ∧ PoolInv s1 ∧ s.activeCount ≤ s1.activeCount := by
  induction dts generalizing s with
  | nil => exact ⟨s, rfl, hs, le_refl _⟩
  | cons dt dts ih =>
    obtain ⟨s1, e1, i1, m1⟩ := updateParticles_inv M hle dt s hs
    obtain ⟨s2, e2, i2, m2⟩ := ih s1 i1
    refine ⟨s2, ?_, i2, le_trans m1 m2⟩
    unfold run
    rw [e1]
    exact e2

theorem run_append (M : Machine R) (dts more : List R) (s s1 : SnowState R)
    (h : run M dts s = some s1) : run M (dts ++ more) s = run M more s1 := by
  induction dts generalizing s with
  | nil =>
    have := Option.some.inj h
    subst this
    rfl
  | cons dt dts ih =>
    change (match updateParticles M dt s with
      | none => none
      | some s2 => run M dts s2) = some s1 at h
    show (match updateParticles M dt s with
      | none => none
      | some s2 => run M (dts ++ more) s2) = _
    cases hu : updateParticles M dt s with
    | none => rw [hu] at h; cases h
    | some s2 =>
      rw [hu] at h
      exact ih s2 h

theorem initial_inv (M : Machine R) : PoolInv (initial M) := by
  refine ⟨List.length_replicate _ _, le_refl _, ?_, ?_⟩
  · show (0 : Int) ≤ 1000
    decide
  · intro i p hi _
    change (i : Int) < 0 at hi
    omega

theorem sampleMachine_trunc (x : Int) :
    sampleMachine.toInt (fmin sampleMachine x (sampleMachine.ofInt MAX_PARTICLES))
      ≤ MAX_PARTICLES := by
  show (if decide ((1000 : Int) < x) = true then (1000 : Int) else x) ≤ 1000
  split
  · exact le_refl _
  · rename_i h
    simp only [decide_eq_true_eq] at h
    omega

/-- C29: on a platform where converting `glm::min(x, 1000.0f)` to `int` never gives more
than 1000, every sequence of `updateParticles` calls from the initial state runs without
an out-of-range access to the pool, and afterwards `0 ≤ activeCount ≤ MAX_PARTICLES`,
`activeCount` is not below its value after any shorter sequence of the same calls, every
particle with subscript below `activeCount` is active, and the pool still has its 1000
slots. -/
theorem updateParticles_pool_invariant (M : Machine R)
    (hle : ∀ x, M.toInt (fmin M x (M.ofInt MAX_PARTICLES)) ≤ MAX_PARTICLES)
    (dts more : List R) :
    ∃ s t, run M dts (initial M) = some s ∧ run M (dts ++ more) (initial M) = some t ∧
      0 ≤ t.activeCount ∧ t.activeCount ≤ MAX_PARTICLES ∧ s.activeCount ≤ t.activeCount ∧
      (∀ (i : Nat) (p : Particle R), (i : Int) < t.activeCount → t.particles[i]? = some p →
        p.active = true) ∧
      t.particles.length = 1000 := by
  obtain ⟨s, es, is, -⟩ := run_inv M hle dts (initial M) (initial_inv M)
  obtain ⟨t, et, it, mt⟩ := run_inv M hle more s is
  refine ⟨s, t, es, ?_, it.2.1, it.2.2.1, mt, it.2.2.2, it.1⟩
  rw [run_append M dts more _ s es]
  exact et

theorem updateParticles_pool_invariant_witness :
    ∃ s t, run sampleMachine [1, 2] (initial sampleMachine) = some s ∧
      run sampleMachine ([1, 2] ++ [3]) (initial sampleMachine) = some t ∧
      0 ≤ t.activeCount ∧ t.activeCount ≤ MAX_PARTICLES ∧ s.activeCount ≤ t.activeCount ∧
      (∀ (i : Nat) (p : Particle Int), (i : Int) < t.activeCount →
        t.particles[i]? = some p → p.active = true) ∧
      t.particles.length = 1000 :=
  updateParticles_pool_invariant sampleMachine sampleMachine_trunc [1, 2] [3]

end SnowParticles

namespace PlanetOrbit

variable {K : Type} [LinearOrderedField K]

theorem sqrt_sq_of_nonneg (C : CMath K) (hC : C.Exact) (x : K) (hx : 0 ≤ x) :
    C.sqrt (x ^ 2) = x := by
  obtain ⟨h0, h1⟩ := hC.2 (x ^ 2) (sq_nonneg x)
  have := (sq_eq_sq_iff_abs_eq_abs _ _).mp h1
  rwa [abs_of_nonneg h0, abs_of_nonneg hx] at this

theorem cos_le_one (C : CMath K) (hC : C.Exact) (x : K) : -1 ≤ C.cos x ∧ C.cos x ≤ 1 := by
  have h := hC.1 x
  constructor <;> nlinarith [sq_nonneg (C.sin x), sq_nonneg (C.cos x - 1), sq_nonneg (C.cos x + 1)]

theorem radius_algebra (a e c s q r cN sN ci si cv sv : K) (hE : c ^ 2 + s ^ 2 = 1)
    (hq : q ^ 2 = 1 - e * e)
    (hr : r ^ 2 = a * (c - e) * (a * (c - e)) + a * (q * s) * (a * (q * s)))
    (hN : cN ^ 2 + sN ^ 2 = 1) (hI : ci ^ 2 + si ^ 2 = 1) (hV : cv ^ 2 + sv ^ 2 = 1) :
    (r * (cN * cv - sN * sv * ci)) ^ 2 + (r * (sv * si)) ^ 2
      + (-r * (sN * cv + cN * sv * ci)) ^ 2 = (a * (1 - e * c)) ^ 2 := by
  linear_combination r ^ 2 * (cv ^ 2 + sv ^ 2 * ci ^ 2) * hN + r ^ 2 * sv ^ 2 * hI
    + r ^ 2 * hV + hr + a ^ 2 * s ^ 2 * hq + a ^ 2 * (1 - e ^ 2) * hE

theorem position_norm_sq (C : CMath K) (hC : C.Exact) (p : Planet K) (t : K)
    (he0 : 0 ≤ eccentricity p t) (he1 : eccentricity p t ≤ 1) :
    (computeOrbitPositionAU C p t).x ^ 2 + (computeOrbitPositionAU C p t).y ^ 2
      + (computeOrbitPositionAU C p t).z ^ 2
      = (semiMajorAxis p t * (1 - eccentricity p t * C.cos (eccentricAnomaly C p t))) ^ 2 := by
  have h1 : 0 ≤ 1 - eccentricity p t * eccentricity p t := by nlinarith
  exact radius_algebra (semiMajorAxis p t) (eccentricity p t) _ _ _ _ _ _ _ _ _ _
    (hC.1 (eccentricAnomaly C p t)) (hC.2 _ h1).2
    (hC.2 _ (add_nonneg (mul_self_nonneg _) (mul_self_nonneg _))).2
    (hC.1 _) (hC.1 _) (hC.1 _)

theorem position_of_zero_axis (C : CMath K) (hC : C.Exact) (p : Planet K) (t : K)
    (ha : semiMajorAxis p t = 0) : computeOrbitPositionAU C p t = ⟨0, 0, 0⟩ := by
  have h0 : C.sqrt 0 = 0 := by
    have := (hC.2 0 (le_refl _)).2
    exact pow_eq_zero_iff (two_ne_zero) |>.mp this
  unfold semiMajorAxis at ha
  unfold computeOrbitPositionAU
  simp only [ha, zero_mul, add_zero, h0, neg_zero]

/-- C30: with `cos`, `sin` and `sqrt` obeying the laws of exact real arithmetic, for a
planet and a time with eccentricity `ecc = e1 + e2*t` in `[0, 1]` and semi-major axis
`a = a1 + a2*t ≥ 0`, the position returned by `computeOrbitPositionAU` has Euclidean norm
`a * (1 - ecc * cos E)` with `E = M + ecc*sin(M)*(1 + ecc*cos(M))`; the norm lies in
`[a*(1-ecc), a*(1+ecc)]`; a body with `a = 0` is at the origin, and so is the Sun of
`loadOrbitalElements` at every time. -/
theorem computeOrbitPositionAU_radius (C : CMath K) (hC : C.Exact) (p : Planet K) (t : K)
    (he0 : 0 ≤ eccentricity p t) (he1 : eccentricity p t ≤ 1) (ha : 0 ≤ semiMajorAxis p t) :
    (computeOrbitPositionAU C p t).norm C
      = semiMajorAxis p t * (1 - eccentricity p t * C.cos (eccentricAnomaly C p t)) ∧
    semiMajorAxis p t * (1 - eccentricity p t) ≤ (computeOrbitPositionAU C p t).norm C ∧
    (computeOrbitPositionAU C p t).norm C ≤ semiMajorAxis p t * (1 + eccentricity p t) ∧
    (semiMajorAxis p t = 0 → computeOrbitPositionAU C p t = ⟨0, 0, 0⟩) ∧
    (∀ sun ∈ (loadOrbitalElements : List (Planet K)).head?, ∀ u : K,
      semiMajorAxis sun u = 0 ∧ computeOrbitPositionAU C sun u = ⟨0, 0, 0⟩) := by
  obtain ⟨hc1, hc2⟩ := cos_le_one C hC (eccentricAnomaly C p t)
  have hec : eccentricity p t * C.cos (eccentricAnomaly C p t) ≤ eccentricity p t := by
    nlinarith
  have hec2 : -eccentricity p t ≤ eccentricity p t * C.cos (eccentricAnomaly C p t) := by
    nlinarith
  have hnn : 0 ≤ semiMajorAxis p t * (1 - eccentricity p t * C.cos (eccentricAnomaly C p t)) :=
    mul_nonneg ha (by linarith)
  have hnorm : (computeOrbitPositionAU C p t).norm C
      = semiMajorAxis p t * (1 - eccentricity p t * C.cos (eccentricAnomaly C p t)) := by
    unfold DVec3.norm
    rw [position_norm_sq C hC p t he0 he1]
    exact sqrt_sq_of_nonneg C hC _ hnn
  refine ⟨hnorm, ?_, ?_, position_of_zero_axis C hC p t, ?_⟩
  · rw [hnorm]
    exact mul_le_mul_of_nonneg_left (by linarith) ha
  · rw [hnorm]
    exact mul_le_mul_of_nonneg_left (by linarith) ha
  · intro sun hsun u
    have hs : sun = ⟨⟨0, 0, 0, 0, 0, 0, 0, 0, 0, 0, 0, 0, 25.05, 0⟩⟩ := by
      simp only [loadOrbitalElements, List.head?_cons, Option.mem_def, Option.some.injEq] at hsun
      exact hsun.symm
    have h0 : semiMajorAxis sun u = 0 := by
      rw [hs]
      simp [semiMajorAxis]
    exact ⟨h0, position_of_zero_axis C hC sun u h0⟩

theorem computeOrbitPositionAU_radius_witness :
    ∃ C : CMath ℝ, C.Exact ∧
      (0 ≤ eccentricity (mercury : Planet ℝ) 0 ∧ eccentricity (mercury : Planet ℝ) 0 ≤ 1 ∧
        0 ≤ semiMajorAxis (mercury : Planet ℝ) 0) ∧
      ((computeOrbitPositionAU C mercury 0).norm C
        = semiMajorAxis mercury 0 * (1 - eccentricity mercury 0
            * C.cos (eccentricAnomaly C mercury 0)) ∧
      semiMajorAxis mercury 0 * (1 - eccentricity mercury 0)
        ≤ (computeOrbitPositionAU C mercury 0).norm C ∧
      (computeOrbitPositionAU C mercury 0).norm C
        ≤ semiMajorAxis mercury 0 * (1 + eccentricity mercury 0) ∧
      (semiMajorAxis (mercury : Planet ℝ) 0 = 0 →
        computeOrbitPositionAU C mercury 0 = ⟨0, 0, 0⟩) ∧
      (∀ sun ∈ (loadOrbitalElements : List (Planet ℝ)).head?, ∀ u : ℝ,
        semiMajorAxis sun u = 0 ∧ computeOrbitPositionAU C sun u = ⟨0, 0, 0⟩)) := by
  have hC : CMath.Exact (⟨Real.cos, Real.sin, Real.sqrt, fun y x => Complex.arg ⟨x, y⟩⟩
      : CMath ℝ) :=
    ⟨Real.cos_sq_add_sin_sq, fun x hx => ⟨Real.sqrt_nonneg x, Real.sq_sqrt hx⟩⟩
  have h1 : 0 ≤ eccentricity (mercury : Planet ℝ) 0 := by norm_num [eccentricity, mercury]
  have h2 : eccentricity (mercury : Planet ℝ) 0 ≤ 1 := by norm_num [eccentricity, mercury]
  have h3 : 0 ≤ semiMajorAxis (mercury : Planet ℝ) 0 := by norm_num [semiMajorAxis, mercury]
  exact ⟨_, hC, ⟨h1, h2, h3⟩, computeOrbitPositionAU_radius _ hC mercury 0 h1 h2 h3⟩

end PlanetOrbit
